import Mathlib

/-!
# DiskCleaner: a shallow embedding of the cleanup engine

The repository holds two variants of one engine, `src/DiskCleaner.cpp` and
`src/DiskCleanerGUI.cpp`.  Definitions shared by both files live in the
namespace `Engine`; the functions that differ are given once per file, in the
namespaces `DiskCleaner` and `DiskCleanerGUI`.

Conventions of the embedding.

* `uintmax_t` is a `Nat` reduced modulo `2 ^ 64` after every arithmetic step;
  `int` is an `Int` reduced to 32-bit two's complement after every step.
* The filesystem is an explicit value (`FileSystem`) passed through the
  functions.  Every mutating library call (`fs::remove`, `fs::remove_all`,
  `SHEmptyRecycleBinW`, opening `custom_dirs.txt` for writing) is recorded in
  the `journal` of the filesystem, whether or not it succeeds.
* Window calls (`AppendToResults`, `UpdateProgress`, `MessageBox`, ...) and the
  wall-clock `duration` field of `CleanupResult` are not part of the engine
  state and are left out.
* A `double` is given by its exact value (a rational): the only doubles the
  engine computes are a converted byte count and its quotients by 1024, which
  are exact.  The text a stream prints for it in fixed-point form is the decimal
  numeral of its rounding to the requested number of decimals.
* Threads are interleaved in launch order.  When a thread finishes is an input:
  a `BatchTiming` says when the deletion workers of a target finish and how far
  an unfinished one has got when the outcome is assembled, and the monitoring
  loop observes the tasks through an explicit list of polls.
-/

namespace Engine

/-! ## Machine integers -/

/-- Addition of two `uintmax_t` values. -/
def addU64 (a b : Nat) : Nat := (a + b) % 2 ^ 64

/-- Subtraction of two `uintmax_t` values (wraps around below zero). -/
def subU64 (a b : Nat) : Nat := (a % 2 ^ 64 + 2 ^ 64 - b % 2 ^ 64) % 2 ^ 64

/-- Reduction of an integer to the range of a 32-bit `int`. -/
def wrapInt32 (x : Int) : Int := (x + 2 ^ 31) % 2 ^ 32 - 2 ^ 31

/-- Addition of two `int` values. -/
def addInt32 (a b : Int) : Int := wrapInt32 (a + b)

/-! ## Data model (`struct CleanupItem`, `struct CleanupResult`) -/

/-- The `CleanupItem` record of `DiskCleaner.cpp`; `DiskCleanerGUI.cpp` has the
same record without `isCustom`, which its functions never read. -/
structure CleanupItem where
  name : String
  path : String
  description : String
  enabled : Bool
  requiresAdmin : Bool
  isCustom : Bool
  size : Nat
deriving DecidableEq, Repr

/-- The `CleanupResult` record (without the wall-clock `duration`). -/
structure CleanupResult where
  itemName : String
  bytesRemoved : Nat
  filesDeleted : Int
  filesSkipped : Int
  success : Bool
  errorMessage : String
deriving DecidableEq, Repr

/-! ## The filesystem seen through `std::filesystem` -/

/-- A filesystem object.  The flags say how the library answers for it:
`statFails` - a type query on it reports an error; `sizeFails` - `file_size`
reports an error; `locked` - it cannot be removed; `denied` - the directory
cannot be opened; `iterThrows` - advancing an iterator over the directory
throws `filesystem_error` with the given message once its children have been
produced.  `other` is an object that is neither a regular file nor a
directory. -/
inductive FsNode where
  | file (size : Nat) (statFails sizeFails locked : Bool)
  | dir (children : List (String × FsNode)) (statFails denied locked : Bool)
      (iterThrows : Option String)
  | other
deriving Repr

/-- A mutating call made to the operating system. -/
inductive FsOp where
  | remove (folder name : String)
  | removeAll (folder name : String)
  | emptyRecycleBin
  | writeCustomDirs
deriving DecidableEq, Repr

/-- The shell's recycle bin: whether `SHQueryRecycleBinW` succeeds and the size
it reports, the `GetLogicalDrives` mask, and the `HRESULT` that
`SHEmptyRecycleBinW` returns. -/
structure RecycleBin where
  queryOk : Bool
  i64Size : Int
  drives : Nat
  emptyResult : Int
deriving DecidableEq, Repr

/-- The state of the machine outside the program: the objects found at the
paths the program names, the recycle bin, the file `custom_dirs.txt` (absent
or its text), whether that file can be opened for writing, and the journal of
mutating calls. -/
structure FileSystem where
  entries : List (String × FsNode)
  bin : RecycleBin
  customDirs : Option (List Char)
  customDirsWritable : Bool
  journal : List FsOp

/-- Whether a type query on the node reports an error. -/
def FsNode.statusFails : FsNode → Bool
  | .file _ sf _ _ => sf
  | .dir _ sf _ _ _ => sf
  | .other => false

/-- Whether the node is a directory. -/
def FsNode.isDir : FsNode → Bool
  | .dir _ _ _ _ _ => true
  | _ => false

/-- The throwing overload `fs::exists(p)`: `none` stands for a thrown
`filesystem_error`. -/
def fsExists (fs : FileSystem) (p : String) : Option Bool :=
  match fs.entries.lookup p with
  | none => some false
  | some n => if n.statusFails then none else some true

/-- The throwing overload `fs::is_directory(p)`. -/
def fsIsDirectory (fs : FileSystem) (p : String) : Option Bool :=
  match fs.entries.lookup p with
  | none => some false
  | some n => if n.statusFails then none else some n.isDir

/-- The constructor `fs::directory_iterator(p, ec)`: `none` when `ec` is set,
otherwise the children it will produce. -/
def openDir (fs : FileSystem) (p : String) : Option (List (String × FsNode)) :=
  match fs.entries.lookup p with
  | some (.dir cs statFails denied _ _) => if statFails || denied then none else some cs
  | _ => none

/-- The message thrown while iterating over the directory at `p`, if any. -/
def iterFault (fs : FileSystem) (p : String) : Option String :=
  match fs.entries.lookup p with
  | some (.dir _ _ _ _ thr) => thr
  | _ => none

/-- What a `recursive_directory_iterator` with `skip_permission_denied`
produces: an entry, or the exception thrown by an increment. -/
inductive WalkEvent where
  | entry (node : FsNode)
  | fault
deriving Repr

mutual
/-- The events produced below a node (nothing below a file, below a directory
that cannot be opened or whose type cannot be read). -/
def FsNode.walk : FsNode → List WalkEvent
  | .dir cs statFails denied _ thr =>
    if statFails || denied then []
    else walkList cs ++ (match thr with
      | some _ => [WalkEvent.fault]
      | none => [])
  | .file _ _ _ _ => []
  | .other => []
/-- The events produced for a list of children, each child followed by what
lies below it. -/
def walkList : List (String × FsNode) → List WalkEvent
  | [] => []
  | (_, n) :: rest => WalkEvent.entry n :: (n.walk ++ walkList rest)
end

/-- The loop of `GetFolderSize`.  `ec` is the error code left by the previous
iteration: the loop starts every iteration with `if (ec) break;`. -/
def sizeLoop : List WalkEvent → Nat → Bool → Nat
  | [], totalSize, _ => totalSize
  | WalkEvent.fault :: _, totalSize, _ => totalSize
  | WalkEvent.entry n :: rest, totalSize, ec =>
    if ec then totalSize
    else match n with
      | .file size statFails sizeFails _ =>
        if statFails then sizeLoop rest totalSize true
        else if sizeFails then sizeLoop rest totalSize true
        else sizeLoop rest (addU64 totalSize size) false
      | .dir _ statFails _ _ _ => sizeLoop rest totalSize statFails
      | .other => sizeLoop rest totalSize false

/-- `GetFolderSize` (identical in both files). -/
def GetFolderSize (fs : FileSystem) (folderPath : String) : Nat :=
  match fs.entries.lookup folderPath with
  | some node => sizeLoop node.walk 0 false
  | none => 0

/-- The path `X:\$RECYCLE.BIN` of drive number `i`. -/
def recyclePath (i : Nat) : String :=
  String.singleton (Char.ofNat (65 + i)) ++ ":\\$RECYCLE.BIN"

/-- The fallback loop of `GetRecycleBinSize` over the drive letters: the
recycle folders that exist, or `none` when `fs::exists` throws. -/
def recycleBinPaths (fs : FileSystem) : List Nat → Option (List String)
  | [] => some []
  | i :: rest =>
    if fs.bin.drives.testBit i then
      match fsExists fs (recyclePath i) with
      | none => none
      | some true => (recycleBinPaths fs rest).map (fun ps => recyclePath i :: ps)
      | some false => recycleBinPaths fs rest
    else recycleBinPaths fs rest

/-- `GetRecycleBinSize` (identical in both files). -/
def GetRecycleBinSize (fs : FileSystem) : Nat :=
  if fs.bin.queryOk then (fs.bin.i64Size % 2 ^ 64).toNat
  else match recycleBinPaths fs (List.range 26) with
    | none => 0
    | some paths => paths.foldl (fun totalSize p => addU64 totalSize (GetFolderSize fs p)) 0

/-- `SHEmptyRecycleBinW`: returns its `HRESULT`; when that is a success code the
bin is empty afterwards.  The call is journalled. -/
def emptyRecycleBin (fs : FileSystem) : Int × FileSystem :=
  let hr := fs.bin.emptyResult
  (hr, { fs with
    bin := if 0 ≤ hr then { fs.bin with i64Size := 0 } else fs.bin
    journal := fs.journal ++ [FsOp.emptyRecycleBin] })

mutual
/-- `fs::remove_all(p, ec)` on one object: the number of objects removed when
it succeeds (`none` when `ec` is set), and what is left of the object. -/
def FsNode.removeAll : FsNode → Option Nat × Option FsNode
  | .file size sf zf locked =>
    if locked then (none, some (.file size sf zf locked)) else (some 1, none)
  | .other => (some 1, none)
  | .dir cs sf denied locked thr =>
    if sf || denied || thr.isSome then (none, some (.dir cs sf denied locked thr))
    else match removeAllList cs with
      | (none, rest) => (none, some (.dir rest sf denied locked thr))
      | (some k, rest) =>
        if locked then (none, some (.dir rest sf denied locked thr))
        else (some (k + 1), none)
/-- Removal of the children of a directory, stopping at the first failure. -/
def removeAllList : List (String × FsNode) → Option Nat × List (String × FsNode)
  | [] => (some 0, [])
  | (nm, n) :: rest =>
    match n.removeAll with
    | (none, some n1) => (none, (nm, n1) :: rest)
    | (none, none) => (none, rest)
    | (some k, _) =>
      match removeAllList rest with
      | (none, rest1) => (none, rest1)
      | (some k1, rest1) => (some (k + k1), rest1)
end

/-- The target directory at `p` with its children replaced by `cs` (a path that
does not name a directory is left alone). -/
def replaceChildren : List (String × FsNode) → String → List (String × FsNode) →
    List (String × FsNode)
  | [], _, _ => []
  | (q, n) :: rest, p, cs =>
    if q == p then
      match n with
      | .dir _ sf denied locked thr => (q, .dir cs sf denied locked thr) :: rest
      | _ => (q, n) :: rest
    else (q, n) :: replaceChildren rest p cs

/-- The lowercase hexadecimal digits of an `HRESULT` as `std::hex` prints a
32-bit `long`. -/
def hexOfHResult (hr : Int) : String :=
  String.mk (Nat.toDigits 16 (hr % 2 ^ 32).toNat)

/-! ## The deletion batches -/

/-- The state of one worker: the children of the target by position (`none`
once the object is gone), the journal, and the worker's local counters. -/
structure BatchState where
  slots : List (Option (String × FsNode))
  journal : List FsOp
  localDeleted : Int
  localSkipped : Int

/-- The state shared by the workers of one target: the children by position,
the journal, and the two atomic counters. -/
structure DelState where
  slots : List (Option (String × FsNode))
  journal : List FsOp
  deleted : Int
  skipped : Int

/-- One worker: `for (size_t j = i; j < endIdx; ++j) body`, then the local
counters are added to the shared ones. -/
def runBatch (body : BatchState → Nat → BatchState) (i endIdx : Nat) (st : DelState) :
    DelState :=
  let b := (List.range' i (endIdx - i)).foldl body ⟨st.slots, st.journal, 0, 0⟩
  ⟨b.slots, b.journal, addInt32 st.deleted b.localDeleted, addInt32 st.skipped b.localSkipped⟩

/-- A worker that has not finished when the outcome is assembled: the children
`i .. stop - 1` have been handled, the local counters have not been added to
the shared ones. -/
def runPartOfBatch (body : BatchState → Nat → BatchState) (i stop : Nat) (st : DelState) :
    DelState :=
  let b := (List.range' i (stop - i)).foldl body ⟨st.slots, st.journal, 0, 0⟩
  ⟨b.slots, b.journal, st.deleted, st.skipped⟩

/-- The launch loop `for (size_t i = 0; i < n; i += batchSize)` with
`endIdx = min(i + batchSize, n)`: the index ranges a worker is started for.
`fuel` bounds the number of iterations. -/
def batchRanges (batchSize n : Nat) : Nat → Nat → List (Nat × Nat)
  | 0, _ => []
  | fuel + 1, i =>
    if i < n then (i, min (i + batchSize) n) :: batchRanges batchSize n fuel (i + batchSize)
    else []

/-- When the workers of one target finish: `finish b` is the number of whole
seconds after `deleteStart` at which worker `b` has finished, and `progress b`
the number of children an unfinished worker `b` has handled when the outcome is
assembled. -/
structure BatchTiming where
  finish : Nat → Nat
  progress : Nat → Nat

/-- The waiting loop of `DiskCleaner.cpp` over the workers (by number): each is
joined in turn, and once more than 30 seconds have elapsed after a join the
rest is detached.  `t` is the time elapsed so far; the value is the time
elapsed when the loop is left. -/
def joinLoop (finish : Nat → Nat) : List Nat → Nat → Nat
  | [], t => t
  | b :: rest, t =>
    if 30 < max t (finish b) then max t (finish b) else joinLoop finish rest (max t (finish b))

/-- The workers of one target, numbered from `b`: a worker that `finished` has
run its whole range, another one only the part it got to. -/
def runWorkers (body : BatchState → Nat → BatchState) (finished : Nat → Bool)
    (progress : Nat → Nat) : List (Nat × Nat) → Nat → DelState → DelState
  | [], _, st => st
  | (i, endIdx) :: rest, b, st =>
    runWorkers body finished progress rest (b + 1)
      (if finished b then runBatch body i endIdx st
       else runPartOfBatch body i (min endIdx (i + progress b)) st)

/-- The filesystem after the workers of the target at `folderPath` have run. -/
def commitDeletion (fs : FileSystem) (folderPath : String) (st : DelState) : FileSystem :=
  { fs with
    entries := replaceChildren fs.entries folderPath (st.slots.filterMap id)
    journal := st.journal }

/-! ## Results of a run -/

/-- A value-initialised `CleanupResult` (`std::make_shared<CleanupResult>()`). -/
def emptyResult : CleanupResult := ⟨"", 0, 0, 0, false, ""⟩

/-- A value-initialised `CleanupItem`; only read at positions outside a
vector, which the loops never reach. -/
def emptyItem : CleanupItem := ⟨"", "", "", false, false, false, 0⟩

/-- The totals printed under "Cleanup Summary"; `total` is `results.size()`. -/
structure Summary where
  totalRemoved : Nat
  totalFilesDeleted : Int
  totalFilesSkipped : Int
  successfulOperations : Int
  total : Nat
deriving DecidableEq, Repr

/-- The body of the summary loop `for (const auto& result : results)`. -/
def addToSummary (s : Summary) (result : CleanupResult) : Summary :=
  { totalRemoved := addU64 s.totalRemoved result.bytesRemoved
    totalFilesDeleted := addInt32 s.totalFilesDeleted result.filesDeleted
    totalFilesSkipped := addInt32 s.totalFilesSkipped result.filesSkipped
    successfulOperations :=
      if result.success then addInt32 s.successfulOperations 1 else s.successfulOperations
    total := s.total }

/-- The summary of `StartParallelCleanup` (the same loop in both files). -/
def summarize (results : List CleanupResult) : Summary :=
  results.foldl addToSummary ⟨0, 0, 0, 0, results.length⟩

/-- What `StartParallelCleanup` leaves behind: the items a cleanup task was
launched for, the outcomes collected, the summary (absent when the function
returned before launching), and the filesystem once the launched tasks have
returned. -/
structure RunReport where
  launched : List CleanupItem
  results : List CleanupResult
  summary : Option Summary
  fs : FileSystem

/-- The tasks of a run, numbered from `k`, each calling `clean` on its item, in
launch order.  `none` when a call has no defined outcome. -/
def runTasks (clean : Nat → FileSystem → String → String → Option (CleanupResult × FileSystem)) :
    List CleanupItem → Nat → FileSystem → Option (List CleanupResult × FileSystem)
  | [], _, fs => some ([], fs)
  | item :: rest, k, fs =>
    match clean k fs item.path item.name with
    | none => none
    | some (r, fs1) =>
      match runTasks clean rest (k + 1) fs1 with
      | none => none
      | some (rs, fs2) => some (r :: rs, fs2)

/-! ## `FormatBytes` -/

/-- `FormatBytes`, the array `units`. -/
def units : List String := ["B", "KB", "MB", "GB", "TB"]

/-- The number of low bits that do not fit the 53-bit significand of a double:
`x` is halved until it is below `2^53` (at most `fuel` times). -/
def excessBits : Nat → Nat → Nat
  | 0, _ => 0
  | fuel + 1, x => if x < 2 ^ 53 then 0 else excessBits fuel (x / 2) + 1

/-- `static_cast<double>(bytes)` for an unsigned 64-bit `bytes`: the nearest
IEEE double, ties to even, given by its (integer) value.  Below `2^53` the
conversion is exact; above, the low `e` bits (at most 11) are rounded away. -/
def toDouble (bytes : Nat) : Nat :=
  if bytes < 2 ^ 53 then bytes
  else
    let e := excessBits 11 bytes
    let q := bytes / 2 ^ e
    let r := bytes % 2 ^ e
    let half := 2 ^ (e - 1)
    if r < half then q * 2 ^ e
    else if half < r then (q + 1) * 2 ^ e
    else if q % 2 = 0 then q * 2 ^ e
    else (q + 1) * 2 ^ e

/-- The loop `while (size >= 1024.0 && unitIndex < 4) { size /= 1024.0;
unitIndex++; }` of `FormatBytes`.  `size` is the value of the double: it is
an integer of at most 53 significant bits times a power of two, and dividing
such a value (at least 1024) by 1024 only lowers its exponent, so the quotient
is exact.  `fuel` bounds the number of iterations. -/
def formatLoop : Nat → ℚ → Nat → ℚ × Nat
  | 0, size, unitIndex => (size, unitIndex)
  | fuel + 1, size, unitIndex =>
    if 1024 ≤ size ∧ unitIndex < 4 then formatLoop fuel (size / 1024) (unitIndex + 1)
    else (size, unitIndex)

/-- The number of hundredths that `std::fixed << std::setprecision(2)` prints
for the non-negative value `size`: the integer nearest to `100 * size`.  When
`100 * size` lies exactly half-way between two integers the digit printed
depends on the C runtime: a runtime that follows IEEE 754 takes the even
neighbour, older Microsoft runtimes take the upper one (`tiesAway`). -/
def roundHundredths (tiesAway : Bool) (size : ℚ) : Nat :=
  let scaled := size * 100
  let lower := ⌊scaled⌋.toNat
  let rest := scaled - lower
  if rest < 1 / 2 then lower
  else if 1 / 2 < rest then lower + 1
  else if tiesAway || lower % 2 == 1 then lower + 1
  else lower

/-- The text of a number of hundredths in fixed-point form with two decimals:
the decimal digits of the integer part, a point, and two digits. -/
def renderFixed2 (hundredths : Nat) : String :=
  String.mk (Nat.toDigits 10 (hundredths / 100)) ++ "." ++
    String.mk [Nat.digitChar (hundredths % 100 / 10), Nat.digitChar (hundredths % 10)]

/-- `FormatBytes` (identical in both files): the text
`oss << std::fixed << std::setprecision(2) << size << " " << units[unitIndex]`
leaves in the stream. -/
def FormatBytes (tiesAway : Bool) (bytes : Nat) : String :=
  let r := formatLoop 4 (toDouble (bytes % 2 ^ 64)) 0
  renderFixed2 (roundHundredths tiesAway r.1) ++ " " ++ units.getD r.2 ""

end Engine

/-! # `src/DiskCleaner.cpp` -/

namespace DiskCleaner
open Engine

/-- `IsDirectoryEmptyOrInaccessible`; a thrown exception is caught by
`catch (...)` and answers `true`. -/
def IsDirectoryEmptyOrInaccessible (fs : FileSystem) (folderPath : String) : Bool :=
  if folderPath = "RECYCLE_BIN" then false
  else match fsExists fs folderPath with
    | none => true
    | some false => true
    | some true =>
      match fsIsDirectory fs folderPath with
      | none => true
      | some false => true
      | some true =>
        match openDir fs folderPath with
        | none => true
        | some cs => cs.isEmpty

/-- The body of the worker loop for the child at position `j`.  The library
calls take an `error_code` and do not throw, so the `catch (...)` of the source
has no case of its own here.  A child that is no longer there answers both
type queries with an error. -/
def deleteItemAt (folderPath : String) (st : BatchState) (j : Nat) : BatchState :=
  match st.slots.getD j none with
  | some (name, .file _ sf _ locked) =>
    if sf then { st with localSkipped := addInt32 st.localSkipped 1 }
    else if locked then
      { st with
        journal := st.journal ++ [FsOp.remove folderPath name]
        localSkipped := addInt32 st.localSkipped 1 }
    else
      { st with
        slots := st.slots.set j none
        journal := st.journal ++ [FsOp.remove folderPath name]
        localDeleted := addInt32 st.localDeleted 1 }
  | some (name, .dir cs sf denied locked thr) =>
    if sf then { st with localSkipped := addInt32 st.localSkipped 1 }
    else
      match (FsNode.dir cs sf denied locked thr).removeAll with
      | (some removed, residue) =>
        if 0 < removed then
          { st with
            slots := st.slots.set j (residue.map (fun n => (name, n)))
            journal := st.journal ++ [FsOp.removeAll folderPath name]
            localDeleted := addInt32 st.localDeleted (wrapInt32 removed) }
        else
          { st with
            slots := st.slots.set j (residue.map (fun n => (name, n)))
            journal := st.journal ++ [FsOp.removeAll folderPath name]
            localSkipped := addInt32 st.localSkipped 1 }
      | (none, residue) =>
        { st with
          slots := st.slots.set j (residue.map (fun n => (name, n)))
          journal := st.journal ++ [FsOp.removeAll folderPath name]
          localSkipped := addInt32 st.localSkipped 1 }
  | some (_, .other) => { st with localSkipped := addInt32 st.localSkipped 1 }
  | none => { st with localSkipped := addInt32 st.localSkipped 1 }

/-- `DeleteFolderContentsParallel` of `DiskCleaner.cpp`.  `hw` is the value of
`std::thread::hardware_concurrency()` and `timing` says when the workers
finish.  The answer is `none` when the batch size divides by zero (undefined
behaviour); otherwise the outcome and the filesystem at the moment the function
returns. -/
def DeleteFolderContentsParallel (dryRunMode : Bool) (hw : Nat) (timing : BatchTiming)
    (fs : FileSystem) (folderPath itemName : String) : Option (CleanupResult × FileSystem) :=
  let result : CleanupResult := ⟨itemName, 0, 0, 0, true, ""⟩
  if IsDirectoryEmptyOrInaccessible fs folderPath then some (result, fs)
  else if folderPath = "RECYCLE_BIN" then
    if dryRunMode then some ({ result with bytesRemoved := GetRecycleBinSize fs }, fs)
    else
      let sizeBefore := GetRecycleBinSize fs
      if sizeBefore = 0 then
        some ({ result with bytesRemoved := 0, filesDeleted := 0, success := true }, fs)
      else
        let call := emptyRecycleBin fs
        let hr := call.1
        if 0 ≤ hr then
          some ({ result with bytesRemoved := sizeBefore, filesDeleted := 1, success := true },
            call.2)
        else if hr % 2 ^ 32 = 0x8000ffff ∨ hr = 1 then
          some ({ result with bytesRemoved := 0, filesDeleted := 0, success := true }, call.2)
        else
          some ({ result with
            success := false
            errorMessage := "Failed to empty Recycle Bin. Error code: 0x" ++ hexOfHResult hr },
            call.2)
  else if dryRunMode then some ({ result with bytesRemoved := GetFolderSize fs folderPath }, fs)
  else
    let sizeBefore := GetFolderSize fs folderPath
    let itemsToDelete := (openDir fs folderPath).getD []
    match iterFault fs folderPath with
    | some what =>
      some ({ result with
        success := false
        errorMessage := what
        bytesRemoved := subU64 sizeBefore (GetFolderSize fs folderPath) }, fs)
    | none =>
      let maxThreads := (hw * 2) % 2 ^ 32
      if maxThreads = 0 then none
      else
        let n := itemsToDelete.length
        let batchSize := max 1 (n / maxThreads)
        let deleteThreads := batchRanges batchSize n n 0
        let waited := joinLoop timing.finish (List.range deleteThreads.length) 0
        let st := runWorkers (deleteItemAt folderPath)
          (fun b => decide (timing.finish b ≤ waited)) timing.progress deleteThreads 0
          ⟨itemsToDelete.map some, fs.journal, 0, 0⟩
        let fs1 := commitDeletion fs folderPath st
        some ({ result with
          filesDeleted := st.deleted
          filesSkipped := st.skipped
          bytesRemoved := subU64 sizeBefore (GetFolderSize fs1 folderPath) }, fs1)

/-! ## The catalog and its persistence -/

/-- The record `name|path|description|flag` followed by `std::endl`. -/
def recordLine (item : CleanupItem) : List Char :=
  item.name.data ++ '|' :: (item.path.data ++ '|' :: (item.description.data ++
    [ '|', if item.enabled then '1' else '0', '\n']))

/-- The loop of `SaveCustomDirectories`: the text written to the file. -/
def saveLoop : List CleanupItem → List Char
  | [] => []
  | item :: rest => if item.isCustom then recordLine item ++ saveLoop rest else saveLoop rest

/-- `SaveCustomDirectories`: when the file can be opened it is replaced by the
records of the custom items. -/
def SaveCustomDirectories (fs : FileSystem) (cleanupItems : List CleanupItem) : FileSystem :=
  { fs with
    customDirs := if fs.customDirsWritable then some (saveLoop cleanupItems) else fs.customDirs
    journal := fs.journal ++ [FsOp.writeCustomDirs] }

/-- The lines that `while (std::getline(file, line))` produces: `cur` is the
line being read.  At the end of the text a non-empty `cur` is one more line. -/
def linesAux : List Char → List Char → List (List Char)
  | [], cur => if cur.isEmpty then [] else [cur]
  | c :: cs, cur => if c = '\n' then cur :: linesAux cs [] else linesAux cs (cur ++ [c])

/-- The characters up to the first `delim`, and what follows it (`none` when the
end of the input was reached instead). -/
def splitAtDelim (delim : Char) : List Char → List Char × Option (List Char)
  | [] => ([], none)
  | c :: cs =>
    if c = delim then ([], some cs)
    else ((c :: (splitAtDelim delim cs).1), (splitAtDelim delim cs).2)

/-- `std::getline(iss, field, delim)` on a string stream.  The stream is `none`
once it has met the end of its input; the call fails on such a stream and when
it extracts nothing. -/
def getline (delim : Char) (stream : Option (List Char)) :
    Option (List Char × Option (List Char)) :=
  match stream with
  | none => none
  | some cs =>
    match splitAtDelim delim cs with
    | ([], none) => none
    | (field, rest) => some (field, rest)

/-- The four `std::getline` calls of `LoadCustomDirectories` on one line. -/
def parseRecord (line : List Char) : Option (String × String × String × String) :=
  match getline '|' (some line) with
  | none => none
  | some (name, s1) =>
    match getline '|' s1 with
    | none => none
    | some (path, s2) =>
      match getline '|' s2 with
      | none => none
      | some (description, s3) =>
        match getline '\n' s3 with
        | none => none
        | some (enabledStr, _) =>
          some (String.mk name, String.mk path, String.mk description, String.mk enabledStr)

/-- The body of the loading loop for one line; `none` when `fs::exists`
throws. -/
def loadLine (fs : FileSystem) (cleanupItems : List CleanupItem) (line : List Char) :
    Option (List CleanupItem) :=
  match parseRecord line with
  | none => some cleanupItems
  | some (name, path, description, enabledStr) =>
    let enabled := (enabledStr == "1")
    match fsExists fs path with
    | none => none
    | some true => some (cleanupItems ++ [⟨name, path, description, enabled, false, true, 0⟩])
    | some false => some cleanupItems

/-- The loading loop over the lines of the file. -/
def loadLoop (fs : FileSystem) : List (List Char) → List CleanupItem → Option (List CleanupItem)
  | [], cleanupItems => some cleanupItems
  | line :: rest, cleanupItems =>
    match loadLine fs cleanupItems line with
    | none => none
    | some items1 => loadLoop fs rest items1

/-- `LoadCustomDirectories`: appends the records of `custom_dirs.txt` whose
path exists to the catalog (`none` when `fs::exists` throws). -/
def LoadCustomDirectories (fs : FileSystem) (cleanupItems : List CleanupItem) :
    Option (List CleanupItem) :=
  match fs.customDirs with
  | none => some cleanupItems
  | some text => loadLoop fs (linesAux text []) cleanupItems

/-- `AddCustomDirectory`.  `chosen` is the path returned by the folder dialog
(`none` when the dialog was cancelled or gave no path) and `filename` is
`fs::path::filename`.  The size refresh started on a detached thread is not
part of the function. -/
def AddCustomDirectory (filename : String → String) (fs : FileSystem)
    (cleanupItems : List CleanupItem) (chosen : Option String) :
    List CleanupItem × FileSystem :=
  match chosen with
  | none => (cleanupItems, fs)
  | some pathStr =>
    let alreadyExists := cleanupItems.any (fun item => item.path == pathStr)
    if !alreadyExists then
      let name := if (filename pathStr).isEmpty then pathStr else filename pathStr
      let description := "Custom directory: " ++ name
      let items := cleanupItems ++ [⟨name, pathStr, description, true, false, true, 0⟩]
      (items, SaveCustomDirectories fs items)
    else (cleanupItems, fs)

/-- `RemoveSelectedDirectory`.  `selectedIndex` is the row returned by
`ListView_GetNextItem` (`none` for its answer -1) and `confirmed` the answer to
the confirmation box. -/
def RemoveSelectedDirectory (fs : FileSystem) (cleanupItems : List CleanupItem)
    (selectedIndex : Option Nat) (confirmed : Bool) : List CleanupItem × FileSystem :=
  match selectedIndex with
  | none => (cleanupItems, fs)
  | some idx =>
    if idx < cleanupItems.length then
      let item := cleanupItems.getD idx emptyItem
      if !item.isCustom then (cleanupItems, fs)
      else if confirmed then
        let items := cleanupItems.eraseIdx idx
        (items, SaveCustomDirectories fs items)
      else (cleanupItems, fs)
    else (cleanupItems, fs)

/-! ## The orchestrator -/

/-- How the call of `DeleteFolderContentsParallel` inside a unit of work ends:
it returns, throws a `std::exception` with a message, or throws something
else. -/
inductive CallOutcome where
  | returned (result : CleanupResult)
  | threw (what : String)
  | threwOther

/-- The slot of one task: its completion flag and its result. -/
structure TaskSlot where
  taskDone : Bool
  taskResult : CleanupResult
deriving DecidableEq, Repr

/-- The unit of work launched for `item`: the `try` block and its two
handlers.  Its value is the slot it leaves behind. -/
def unitOfWork (item : CleanupItem) (call : CallOutcome) : TaskSlot :=
  match call with
  | .returned result => ⟨true, result⟩
  | .threw what => ⟨true, ⟨item.name, 0, 0, 0, false, "Exception: " ++ what⟩⟩
  | .threwOther => ⟨true, ⟨item.name, 0, 0, 0, false, "Unknown exception"⟩⟩

/-- The items a cleanup task is launched for: the enabled ones, without those
that are empty or inaccessible, once the user has confirmed. -/
def launchTargets (fs : FileSystem) (cleanupItems : List CleanupItem) (confirmed : Bool) :
    List CleanupItem :=
  let selectedItems := cleanupItems.filter (fun item => item.enabled)
  if selectedItems.isEmpty then []
  else
    let validItems :=
      selectedItems.filter (fun item => !IsDirectoryEmptyOrInaccessible fs item.path)
    if validItems.isEmpty then []
    else if !confirmed then []
    else validItems

/-- One pass of the monitoring loop: the flags read for the tasks and the
whole seconds elapsed since `monitoringStartTime` at the check after them. -/
structure Poll where
  taskDoneFlags : List Bool
  elapsed : Int
deriving DecidableEq, Repr

/-- The variables of the monitoring loop. -/
structure MonitorState where
  results : List CleanupResult
  completedCount : Int
  taskCompleted : List Bool
deriving DecidableEq, Repr

/-- The body of the polling `for` loop for task `i`. -/
def pollTask (taskDoneFlags : List Bool) (taskResults : List CleanupResult)
    (st : MonitorState) (i : Nat) : MonitorState :=
  if st.taskCompleted.getD i false then st
  else if taskDoneFlags.getD i false then
    { results := st.results ++ [taskResults.getD i emptyResult]
      completedCount := addInt32 st.completedCount 1
      taskCompleted := st.taskCompleted.set i true }
  else st

/-- The body of the time-out `for` loop for task `i`. -/
def timeoutTask (selectedItems : List CleanupItem) (st : MonitorState) (i : Nat) :
    MonitorState :=
  if !st.taskCompleted.getD i false then
    { results := st.results ++ [⟨(selectedItems.getD i emptyItem).name, 0, 0, 0, false, "Timeout"⟩]
      completedCount := addInt32 st.completedCount 1
      taskCompleted := st.taskCompleted.set i true }
  else st

/-- One iteration of the monitoring loop; the flag says whether the loop was
left through `break`. -/
def monitorIteration (selectedItems : List CleanupItem) (taskResults : List CleanupResult)
    (p : Poll) (st : MonitorState) : MonitorState × Bool :=
  let n := selectedItems.length
  let st1 := (List.range n).foldl (pollTask p.taskDoneFlags taskResults) st
  if 15 < p.elapsed then ((List.range n).foldl (timeoutTask selectedItems) st1, true)
  else (st1, false)

/-- The monitoring loop `while (completedCount < size)` over the passes that
are observed; `none` when the loop is still running after the last of them. -/
def monitorLoop (selectedItems : List CleanupItem) (taskResults : List CleanupResult) :
    List Poll → MonitorState → Option MonitorState
  | [], st => if st.completedCount < wrapInt32 selectedItems.length then none else some st
  | p :: rest, st =>
    if st.completedCount < wrapInt32 selectedItems.length then
      match monitorIteration selectedItems taskResults p st with
      | (st1, true) => some st1
      | (st1, false) => monitorLoop selectedItems taskResults rest st1
    else some st

/-- `StartParallelCleanup` of `DiskCleaner.cpp`.  `timings k` is the timing of
the workers of task `k`.  `none` when a task has no defined outcome or the
monitoring loop is still running after the last observed pass. -/
def StartParallelCleanup (dryRunMode : Bool) (hw : Nat) (timings : Nat → BatchTiming)
    (cleanupItems : List CleanupItem) (fs : FileSystem) (confirmed : Bool)
    (polls : List Poll) : Option RunReport :=
  let selectedItems := launchTargets fs cleanupItems confirmed
  if selectedItems.isEmpty then some ⟨[], [], none, fs⟩
  else
    match runTasks (fun k => DeleteFolderContentsParallel dryRunMode hw (timings k))
        selectedItems 0 fs with
    | none => none
    | some (outcomes, fs1) =>
      let slots := (selectedItems.zip outcomes).map
        (fun io => unitOfWork io.1 (CallOutcome.returned io.2))
      match monitorLoop selectedItems (slots.map (fun s => s.taskResult)) polls
          ⟨[], 0, List.replicate selectedItems.length false⟩ with
      | none => none
      | some st => some ⟨selectedItems, st.results, some (summarize st.results), fs1⟩

end DiskCleaner

/-! ## The catalog build -/

namespace DiskCleaner
open Engine

/-- The statement `if (fs::exists(item.path)) cleanupItems.push_back(item);`
(`none` when `fs::exists` throws). -/
def pushIfExists (fs : FileSystem) (cleanupItems : List CleanupItem) (item : CleanupItem) :
    Option (List CleanupItem) :=
  match fsExists fs item.path with
  | none => none
  | some true => some (cleanupItems ++ [item])
  | some false => some cleanupItems

/-- The loop `for (const auto& [name, path] : browsers)` of
`SetupCleanupItems`. -/
def browserLoop (fs : FileSystem) :
    List (String × String) → List CleanupItem → Option (List CleanupItem)
  | [], cleanupItems => some cleanupItems
  | (name, path) :: rest, cleanupItems =>
    match pushIfExists fs cleanupItems
        ⟨name, path, "Browser cache and temporary files", false, false, false, 0⟩ with
    | none => none
    | some items1 => browserLoop fs rest items1

/-- The entry that `SetupCleanupItems` pushes for the recycle bin. -/
def recycleBinItem : CleanupItem :=
  ⟨"Recycle Bin", "RECYCLE_BIN", "Files in Recycle Bin", true, false, false, 0⟩

/-- The catalog of `SetupCleanupItems` after its last `push_back`, before the
erase.  `localAppData` and `appData` are the values read from the environment
(empty when the variable is not set). -/
def candidateItems (fs : FileSystem) (localAppData appData : String) :
    Option (List CleanupItem) :=
  let items0 : List CleanupItem := []
  match (if !localAppData.isEmpty then
      pushIfExists fs items0
        ⟨"Local Temp", localAppData ++ "\\Temp", "User temporary files", true, false, false, 0⟩
    else some items0) with
  | none => none
  | some items1 =>
    let items2 := items1 ++
      [⟨"Windows Temp", "C:\\Windows\\Temp", "System temporary files", true, true, false, 0⟩,
       ⟨"Prefetch", "C:\\Windows\\Prefetch", "Application prefetch files",
        true, true, false, 0⟩,
       ⟨"SoftwareDistribution", "C:\\Windows\\SoftwareDistribution\\Download",
        "Windows Update files", true, true, false, 0⟩]
    match (if !appData.isEmpty then
        pushIfExists fs items2
          ⟨"Recent Items", appData ++ "\\Microsoft\\Windows\\Recent",
           "Recently accessed files list", true, false, false, 0⟩
      else some items2) with
    | none => none
    | some items3 =>
      let items4 := items3 ++
        [⟨"Windows Logs", "C:\\Windows\\Logs", "System log files", true, true, false, 0⟩,
         ⟨"Error Reports", "C:\\ProgramData\\Microsoft\\Windows\\WER\\ReportQueue",
          "Windows Error Reports", true, true, false, 0⟩,
         ⟨"Memory Dumps", "C:\\Windows\\Minidump", "System crash dump files",
          true, true, false, 0⟩]
      let items5 :=
        if !localAppData.isEmpty then
          items4 ++ [⟨"Thumbnail Cache", localAppData ++ "\\Microsoft\\Windows\\Explorer",
            "Thumbnail cache files", true, false, false, 0⟩]
        else items4
      let items6 := items5 ++
        [⟨"Font Cache", "C:\\Windows\\System32\\FNTCACHE.DAT", "Windows font cache",
          true, true, false, 0⟩]
      match (if !localAppData.isEmpty then
          browserLoop fs
            [("Chrome Cache", localAppData ++ "\\Google\\Chrome\\User Data\\Default\\Cache"),
             ("Chrome Temp",
              localAppData ++ "\\Google\\Chrome\\User Data\\Default\\Local Storage"),
             ("Edge Cache", localAppData ++ "\\Microsoft\\Edge\\User Data\\Default\\Cache"),
             ("Firefox Cache", localAppData ++ "\\Mozilla\\Firefox\\Profiles")]
            items6
        else some items6) with
      | none => none
      | some items7 =>
        some (items7 ++
          [⟨"IIS Logs", "C:\\inetpub\\logs\\LogFiles", "IIS web server logs",
            false, true, false, 0⟩,
           ⟨"Event Logs", "C:\\Windows\\System32\\winevt\\Logs", "Windows Event Logs (*.evtx)",
            false, true, false, 0⟩,
           recycleBinItem])

/-- The call `cleanupItems.erase(std::remove_if(...), cleanupItems.end())` with
the predicate `!fs::exists(item.path) && item.path != "RECYCLE_BIN"`: the items
that stay, in order (`none` when `fs::exists` throws). -/
def eraseMissing (fs : FileSystem) : List CleanupItem → Option (List CleanupItem)
  | [] => some []
  | item :: rest =>
    match fsExists fs item.path with
    | none => none
    | some found =>
      match eraseMissing fs rest with
      | none => none
      | some kept =>
        if !found && item.path != "RECYCLE_BIN" then some kept else some (item :: kept)

/-- The built-in phase of `SetupCleanupItems`: everything before the call of
`LoadCustomDirectories`. -/
def builtinPhase (fs : FileSystem) (localAppData appData : String) :
    Option (List CleanupItem) :=
  match candidateItems fs localAppData appData with
  | none => none
  | some items => eraseMissing fs items

/-- `SetupCleanupItems`: the catalog it leaves in `cleanupItems` (`none` when
`fs::exists` throws).  The three strings are the values of `LOCALAPPDATA`,
`APPDATA` and `USERPROFILE`; the last one is read and not used. -/
def SetupCleanupItems (fs : FileSystem) (localAppData appData _userProfile : String) :
    Option (List CleanupItem) :=
  match builtinPhase fs localAppData appData with
  | none => none
  | some items => LoadCustomDirectories fs items

end DiskCleaner

/-! # `src/DiskCleanerGUI.cpp` -/

namespace DiskCleanerGUI
open Engine

/-- The body of the worker loop for the child at position `j`.  Unlike
`DiskCleaner.cpp` there is no final `else`: a child that is neither a regular
file nor a directory, or whose type query fails, changes no counter.  The
library calls take an `error_code` and do not throw, so the handler of
`std::exception` has no case of its own here. -/
def deleteItemAt (folderPath : String) (st : BatchState) (j : Nat) : BatchState :=
  match st.slots.getD j none with
  | some (name, .file _ sf _ locked) =>
    if sf then st
    else if locked then
      { st with
        journal := st.journal ++ [FsOp.remove folderPath name]
        localSkipped := addInt32 st.localSkipped 1 }
    else
      { st with
        slots := st.slots.set j none
        journal := st.journal ++ [FsOp.remove folderPath name]
        localDeleted := addInt32 st.localDeleted 1 }
  | some (name, .dir cs sf denied locked thr) =>
    if sf then st
    else
      match (FsNode.dir cs sf denied locked thr).removeAll with
      | (some removed, residue) =>
        if 0 < removed then
          { st with
            slots := st.slots.set j (residue.map (fun n => (name, n)))
            journal := st.journal ++ [FsOp.removeAll folderPath name]
            localDeleted := addInt32 st.localDeleted (wrapInt32 removed) }
        else
          { st with
            slots := st.slots.set j (residue.map (fun n => (name, n)))
            journal := st.journal ++ [FsOp.removeAll folderPath name]
            localSkipped := addInt32 st.localSkipped 1 }
      | (none, residue) =>
        { st with
          slots := st.slots.set j (residue.map (fun n => (name, n)))
          journal := st.journal ++ [FsOp.removeAll folderPath name]
          localSkipped := addInt32 st.localSkipped 1 }
  | some (_, .other) => st
  | none => st

/-- `DeleteFolderContentsParallel` of `DiskCleanerGUI.cpp`: no check for an
empty target, and the batch size divides by `hardware_concurrency()` itself.
Every future is waited for with `get()`, so every worker has finished, and the
pairs they return are added to the outcome in launch order. -/
def DeleteFolderContentsParallel (dryRunMode : Bool) (hw : Nat) (fs : FileSystem)
    (folderPath itemName : String) : Option (CleanupResult × FileSystem) :=
  let result : CleanupResult := ⟨itemName, 0, 0, 0, true, ""⟩
  if folderPath = "RECYCLE_BIN" then
    if dryRunMode then some ({ result with bytesRemoved := GetRecycleBinSize fs }, fs)
    else
      let sizeBefore := GetRecycleBinSize fs
      let call := emptyRecycleBin fs
      let hr := call.1
      if 0 ≤ hr then
        some ({ result with bytesRemoved := sizeBefore, filesDeleted := 1, success := true },
          call.2)
      else
        some ({ result with
          success := false
          errorMessage := "Failed to empty Recycle Bin. Error code: 0x" ++ hexOfHResult hr },
          call.2)
  else if dryRunMode then some ({ result with bytesRemoved := GetFolderSize fs folderPath }, fs)
  else
    let sizeBefore := GetFolderSize fs folderPath
    let itemsToDelete := (openDir fs folderPath).getD []
    match iterFault fs folderPath with
    | some what =>
      some ({ result with
        success := false
        errorMessage := what
        bytesRemoved := subU64 sizeBefore (GetFolderSize fs folderPath) }, fs)
    | none =>
      if hw = 0 then none
      else
        let n := itemsToDelete.length
        let batchSize := max 1 (n / hw)
        let st := runWorkers (deleteItemAt folderPath) (fun _ => true) (fun _ => 0)
          (batchRanges batchSize n n 0) 0 ⟨itemsToDelete.map some, fs.journal, 0, 0⟩
        let fs1 := commitDeletion fs folderPath st
        some ({ result with
          filesDeleted := st.deleted
          filesSkipped := st.skipped
          bytesRemoved := subU64 sizeBefore (GetFolderSize fs1 folderPath) }, fs1)

/-- The items a cleanup task is launched for: every enabled item, unless one of
them needs administrator rights the process does not have (the program then
restarts itself) or the user declines. -/
def launchTargets (isAdmin : Bool) (cleanupItems : List CleanupItem) (confirmed : Bool) :
    List CleanupItem :=
  let needsAdmin :=
    cleanupItems.any (fun item => item.enabled && item.requiresAdmin && !isAdmin)
  if needsAdmin then []
  else
    let selectedItems := cleanupItems.filter (fun item => item.enabled)
    if selectedItems.isEmpty then []
    else if !confirmed then []
    else selectedItems

/-- The scan `for (it = futures.begin(); ...)`: the first future that is ready
is erased from the vector. -/
def eraseFirstReady (ready : Nat → Bool) : List Nat → List Nat
  | [] => []
  | t :: rest => if ready t then rest else t :: eraseFirstReady ready rest

/-- The launch loop over the tasks (by number): each future is pushed to
`futures`, and when the vector has reached `maxConcurrent` it is scanned.
`ready t u` says whether future `u` is ready during the scan that follows the
launch of task `t`. -/
def launchLoop (maxConcurrent : Nat) (ready : Nat → Nat → Bool) :
    List Nat → List Nat → List Nat
  | [], futures => futures
  | t :: rest, futures =>
    let futures1 := futures ++ [t]
    if maxConcurrent ≤ futures1.length then
      launchLoop maxConcurrent ready rest (eraseFirstReady (ready t) futures1)
    else launchLoop maxConcurrent ready rest futures1

/-- `StartParallelCleanup` of `DiskCleanerGUI.cpp`.  `none` when a task has no
defined outcome. -/
def StartParallelCleanup (dryRunMode isAdmin : Bool) (hw : Nat)
    (cleanupItems : List CleanupItem) (fs : FileSystem) (confirmed : Bool)
    (ready : Nat → Nat → Bool) : Option RunReport :=
  let selectedItems := launchTargets isAdmin cleanupItems confirmed
  if selectedItems.isEmpty then some ⟨[], [], none, fs⟩
  else
    match runTasks (fun _ => DeleteFolderContentsParallel dryRunMode hw) selectedItems 0 fs with
    | none => none
    | some (outcomes, fs1) =>
      let maxConcurrent := min (selectedItems.length % 2 ^ 32) hw
      let futures := launchLoop maxConcurrent ready (List.range selectedItems.length) []
      let results := futures.map (fun u => outcomes.getD u emptyResult)
      some ⟨selectedItems, results, some (summarize results), fs1⟩

end DiskCleanerGUI

/-! # Auxiliary definitions used by the statements and their instances -/

namespace Engine

/-- A regular file that can be queried, measured and removed. -/
def regularFile (f : String × Nat) : String × FsNode :=
  (f.1, FsNode.file f.2 false false false)

/-- The slots of a target whose first `j` children have been removed. -/
def slotsAfter (items : List (String × FsNode)) (j : Nat) : List (Option (String × FsNode)) :=
  (List.range items.length).map (fun k => if k < j then none else items[k]?)

/-- The total that the specification gives for a traversal: the sizes of the
regular files whose type and size can be read, every other entry being passed
over; the traversal ends where an increment throws. -/
def specSizeOfEvents : List WalkEvent → Nat
  | [] => 0
  | WalkEvent.fault :: _ => 0
  | WalkEvent.entry (.file size false false _) :: rest => size + specSizeOfEvents rest
  | WalkEvent.entry _ :: rest => specSizeOfEvents rest

/-- The size that the specification gives for a folder, as a `uintmax_t`. -/
def specFolderSize (fs : FileSystem) (folderPath : String) : Nat :=
  match fs.entries.lookup folderPath with
  | some node => specSizeOfEvents node.walk % 2 ^ 64
  | none => 0

/-- Whether every query of the loop of `GetFolderSize` succeeds on the entries
of a traversal. -/
def queriesSucceed : List WalkEvent → Bool
  | [] => true
  | WalkEvent.fault :: _ => true
  | WalkEvent.entry (.file _ statFails sizeFails _) :: rest =>
    !statFails && !sizeFails && queriesSucceed rest
  | WalkEvent.entry (.dir _ statFails _ _ _) :: rest => !statFails && queriesSucceed rest
  | WalkEvent.entry .other :: rest => queriesSucceed rest

/-- The unit index that the specification gives for a byte count: the largest
`k` in `0..4` with `1024^k <= b` (0 for `b = 0`). -/
def specUnit (b : Nat) : Nat :=
  if 1024 ^ 4 ≤ b then 4
  else if 1024 ^ 3 ≤ b then 3
  else if 1024 ^ 2 ≤ b then 2
  else if 1024 ≤ b then 1
  else 0

/-- Whether a mutating call acts on the target with path `p`: the removal of a
child of the folder `p`, or the emptying of the recycle bin when `p` is the
sentinel `"RECYCLE_BIN"`. -/
def FsOp.onTarget (p : String) : FsOp → Bool
  | .remove folder _ => folder == p
  | .removeAll folder _ => folder == p
  | .emptyRecycleBin => p == "RECYCLE_BIN"
  | .writeCustomDirs => false

/-- What a call of `DeleteFolderContentsParallel` on the target `p` may touch:
the outcome bears the name passed, the mutating calls it adds to the journal
all act on `p`, and the objects at every other path are left as they were. -/
def Framed (fs : FileSystem) (p name : String) (r : CleanupResult) (fs1 : FileSystem) : Prop :=
  r.itemName = name ∧
  (∃ extra, fs1.journal = fs.journal ++ extra ∧ ∀ op ∈ extra, FsOp.onTarget p op = true) ∧
  (∀ q, q ≠ p → fs1.entries.lookup q = fs.entries.lookup q)

end Engine

namespace DiskCleaner
open Engine

/-- The record of an item without its line end. -/
def recordBody (item : CleanupItem) : List Char :=
  item.name.data ++ '|' :: (item.path.data ++ '|' :: (item.description.data ++
    [ '|', if item.enabled then '1' else '0']))

/-- What the monitoring loop pushes to `results` for task `entry.1`: the
time-out outcome when `entry.2` holds, the result of the task otherwise. -/
def recordedOutcome (selectedItems : List CleanupItem) (taskResults : List CleanupResult)
    (entry : Nat × Bool) : CleanupResult :=
  if entry.2 then ⟨(selectedItems.getD entry.1 emptyItem).name, 0, 0, 0, false, "Timeout"⟩
  else taskResults.getD entry.1 emptyResult

/-- The variables of the monitoring loop agree with `order`, the tasks recorded
so far in the order of their recording, each with the way it was recorded:
`results` holds their outcomes, no task is recorded twice, `taskCompleted` marks
exactly the recorded tasks, and `completedCount` is their number. -/
def Recorded (selectedItems : List CleanupItem) (taskResults : List CleanupResult)
    (st : MonitorState) (order : List (Nat × Bool)) : Prop :=
  st.results = order.map (recordedOutcome selectedItems taskResults) ∧
  (order.map Prod.fst).Nodup ∧
  st.taskCompleted.length = selectedItems.length ∧
  (∀ i, i < selectedItems.length →
    (st.taskCompleted.getD i false = true ↔ i ∈ order.map Prod.fst)) ∧
  (∀ i ∈ order.map Prod.fst, i < selectedItems.length) ∧
  st.completedCount = (order.length : Int)

/-- The states of the monitoring loop at the end of each iteration it makes
over the observed passes, in order. -/
def monitorTrace (selectedItems : List CleanupItem) (taskResults : List CleanupResult) :
    List Poll → MonitorState → List MonitorState
  | [], _ => []
  | p :: rest, st =>
    if st.completedCount < wrapInt32 selectedItems.length then
      match monitorIteration selectedItems taskResults p st with
      | (st1, true) => [st1]
      | (st1, false) => st1 :: monitorTrace selectedItems taskResults rest st1
    else []

end DiskCleaner

/-! # Concrete states -/

namespace Example
open Engine

/-- Three files totalling 300 bytes. -/
def threeFiles : List (String × Nat) := [("a.tmp", 100), ("b.tmp", 150), ("c.log", 50)]

/-- A machine with the directory `C:\A` holding the three files and the empty
directory `C:\B`. -/
def fs : FileSystem :=
  { entries :=
      [("C:\\A", FsNode.dir (threeFiles.map regularFile) false false false none),
       ("C:\\B", FsNode.dir [] false false false none)]
    bin := ⟨true, 0, 0, 0⟩
    customDirs := none
    customDirsWritable := true
    journal := [] }

/-- A custom entry for `C:\A`. -/
def itemA : CleanupItem := ⟨"A", "C:\\A", "Custom directory: A", true, false, true, 0⟩

/-- A custom entry for `C:\B`. -/
def itemB : CleanupItem := ⟨"B", "C:\\B", "Custom directory: B", true, false, true, 0⟩

/-- A built-in entry that is switched off. -/
def itemOff : CleanupItem := ⟨"Chrome Cache", "C:\\A", "Browser cache", false, false, false, 0⟩

/-- Workers that all finish at once. -/
def quick : BatchTiming := ⟨fun _ => 0, fun _ => 0⟩

/-- A pass of the monitoring loop that sees the first task done at once. -/
def promptPoll : DiskCleaner.Poll := ⟨[true], 0⟩

/-- A pass of the monitoring loop after the deadline, no task being done. -/
def latePoll : DiskCleaner.Poll := ⟨[false, false], 16⟩

/-- A machine whose recycle bin holds 4096 bytes and whose
`SHEmptyRecycleBinW` answers `S_FALSE`. -/
def fsBinSFalse : FileSystem :=
  { entries := []
    bin := ⟨true, 4096, 0, 1⟩
    customDirs := none
    customDirsWritable := true
    journal := [] }

/-- The same machine with `SHEmptyRecycleBinW` answering `0x8000FFFF`. -/
def fsBinUnexpected : FileSystem :=
  { entries := []
    bin := ⟨true, 4096, 0, -2147418113⟩
    customDirs := none
    customDirsWritable := true
    journal := [] }

/-- A machine whose recycle bin is measured as empty. -/
def fsBinEmpty : FileSystem :=
  { entries := []
    bin := ⟨true, 0, 0, 0⟩
    customDirs := none
    customDirsWritable := true
    journal := [] }

/-- A directory whose first entry cannot be queried for its type (a dangling
link) and whose second entry is a readable file of 20 bytes. -/
def fsBroken : FileSystem :=
  { entries :=
      [("C:\\T", FsNode.dir
        [("link", FsNode.file 0 true false false), ("b.tmp", FsNode.file 20 false false false)]
        false false false none)]
    bin := ⟨true, 0, 0, 0⟩
    customDirs := none
    customDirsWritable := true
    journal := [] }

/-- A directory with a subdirectory (a dangling link and a file of 50 bytes in
it) followed by a file of 20 bytes that is in use. -/
def fsGrow : FileSystem :=
  { entries :=
      [("C:\\G", FsNode.dir
        [("sub", FsNode.dir
          [("link", FsNode.file 0 true false false), ("y.tmp", FsNode.file 50 false false false)]
          false false false none),
         ("held.log", FsNode.file 20 false false true)]
        false false false none)]
    bin := ⟨true, 0, 0, 0⟩
    customDirs := none
    customDirsWritable := true
    journal := [] }

/-- A machine with a user temporary folder, `C:\Windows\Temp`, the folder
`D:\Old`, and a `custom_dirs.txt` naming `D:\Old` and the missing `D:\Gone`. -/
def fsCatalog : FileSystem :=
  { entries :=
      [("C:\\Users\\u\\AppData\\Local\\Temp", FsNode.dir [] false false false none),
       ("C:\\Windows\\Temp", FsNode.dir [] false false false none),
       ("D:\\Old", FsNode.dir [] false false false none)]
    bin := ⟨true, 0, 0, 0⟩
    customDirs := some
      ("Old|D:\\Old|Custom directory: Old|1\n" ++
        "Gone|D:\\Gone|Custom directory: Gone|1\n").data
    customDirsWritable := true
    journal := [] }

/-- The outcome of a clean that removed three files of 300 bytes in all. -/
def outcomeA : CleanupResult := ⟨"A", 300, 3, 0, true, ""⟩

/-- The outcome recorded for a task `B` that timed out. -/
def timedOutB : CleanupResult := ⟨"B", 0, 0, 0, false, "Timeout"⟩

/-- A pass of the monitoring loop that sees the first of two tasks done. -/
def firstDonePoll : DiskCleaner.Poll := ⟨[true, false], 0⟩

/-- Workers that all need 100 seconds. -/
def slow : BatchTiming := ⟨fun _ => 100, fun _ => 0⟩

/-- Workers of which the second needs 100 seconds and the others finish at
once. -/
def slowSecond : BatchTiming := ⟨fun b => if b = 1 then 100 else 0, fun _ => 0⟩

/-- A machine whose recycle bin holds 4096 bytes and whose
`SHEmptyRecycleBinW` answers `E_ACCESSDENIED` (`0x80070005`). -/
def fsBinDenied : FileSystem :=
  { entries := []
    bin := ⟨true, 4096, 0, -2147024891⟩
    customDirs := none
    customDirsWritable := true
    journal := [] }

/-- Workers of which the third needs 1000 seconds and the others 31 seconds. -/
def lateThird : BatchTiming := ⟨fun b => if b = 2 then 1000 else 31, fun _ => 0⟩

/-- Workers that all need 20 seconds. -/
def steady : BatchTiming := ⟨fun _ => 20, fun _ => 0⟩

/-- A pass of the monitoring loop after the deadline, the one task not being
done. -/
def lateSinglePoll : DiskCleaner.Poll := ⟨[false], 16⟩

/-- A directory holding one removable file of 100 bytes whose size query
reports an error. -/
def fsUnreadable : FileSystem :=
  { entries :=
      [("C:\\U", FsNode.dir [("a.tmp", FsNode.file 100 false true false)]
        false false false none)]
    bin := ⟨true, 0, 0, 0⟩
    customDirs := none
    customDirsWritable := true
    journal := [] }

/-- A machine with the directory `C:\A` holding the three files and the
directory `C:\Off` holding one file. -/
def fsOff : FileSystem :=
  { entries :=
      [("C:\\A", FsNode.dir (threeFiles.map regularFile) false false false none),
       ("C:\\Off", FsNode.dir [("keep.dat", FsNode.file 10 false false false)]
        false false false none)]
    bin := ⟨true, 0, 0, 0⟩
    customDirs := none
    customDirsWritable := true
    journal := [] }

/-- An entry for `C:\Off` that is switched off. -/
def itemOffDir : CleanupItem := ⟨"Off", "C:\\Off", "Custom directory: Off", false, false, true, 0⟩

end Example

/-! # Theorems -/

open Engine

/-! ## Sizes and machine arithmetic -/

theorem sizeLoop_lt (evs : List WalkEvent) (t : Nat) (ec : Bool) (ht : t < 2 ^ 64) :
    sizeLoop evs t ec < 2 ^ 64 := by
  induction evs generalizing t ec with
  | nil => simpa [sizeLoop] using ht
  | cons e rest ih =>
    cases e with
    | fault => simpa [sizeLoop] using ht
    | entry n =>
      cases ec with
      | true => simpa [sizeLoop] using ht
      | false =>
        cases n with
        | file size sf zf l =>
          simp only [sizeLoop]
          split
          · contradiction
          · split
            · exact ih _ _ ht
            · split
              · exact ih _ _ ht
              · exact ih _ _ (Nat.mod_lt _ (by norm_num))
        | dir cs sf d l thr =>
          simp only [sizeLoop]
          split
          · contradiction
          · exact ih _ _ ht
        | other =>
          simp only [sizeLoop]
          split
          · contradiction
          · exact ih _ _ ht

theorem GetFolderSize_lt (fs : FileSystem) (p : String) : GetFolderSize fs p < 2 ^ 64 := by
  unfold GetFolderSize
  split
  · exact sizeLoop_lt _ _ _ (by norm_num)
  · norm_num

theorem subU64_of_le (a b : Nat) (ha : a < 2 ^ 64) (hb : b ≤ a) : subU64 a b = a - b := by
  unfold subU64
  omega

theorem wrapInt32_of_range (x : Int) (h0 : -(2 ^ 31) ≤ x) (h1 : x < 2 ^ 31) :
    wrapInt32 x = x := by
  unfold wrapInt32
  omega

/-! ## C1: a dry run changes nothing -/

/-- C1. In dry-run mode `DeleteFolderContentsParallel` (both files) returns an
outcome and the filesystem it leaves is the one it was given, journal of
mutating calls included: for a directory and for the `RECYCLE_BIN` sentinel no
`remove`, `remove_all` or empty-recycle-bin call is made. -/
theorem C1_dry_run_leaves_filesystem_unchanged (hw : Nat) (timing : BatchTiming)
    (fs : FileSystem) (folderPath itemName : String) :
    (∃ r, DiskCleaner.DeleteFolderContentsParallel true hw timing fs folderPath itemName
      = some (r, fs)) ∧
    (∃ r, DiskCleanerGUI.DeleteFolderContentsParallel true hw fs folderPath itemName
      = some (r, fs)) := by
  constructor
  · unfold DiskCleaner.DeleteFolderContentsParallel
    by_cases h1 : DiskCleaner.IsDirectoryEmptyOrInaccessible fs folderPath = true
    · simp [h1]
    · by_cases h2 : folderPath = "RECYCLE_BIN"
      · subst h2
        simp [h1]
      · simp [h1, h2]
  · unfold DiskCleanerGUI.DeleteFolderContentsParallel
    by_cases h2 : folderPath = "RECYCLE_BIN"
    · simp [h2]
    · simp [h2]

/-! ## C2: only enabled items are cleaned -/

theorem DiskCleaner_launched_eq (dryRunMode : Bool) (hw : Nat) (timings : Nat → BatchTiming)
    (cleanupItems : List CleanupItem) (fs : FileSystem) (confirmed : Bool)
    (polls : List DiskCleaner.Poll) (rep : RunReport)
    (h : DiskCleaner.StartParallelCleanup dryRunMode hw timings cleanupItems fs confirmed polls
      = some rep) :
    rep.launched = DiskCleaner.launchTargets fs cleanupItems confirmed := by
  unfold DiskCleaner.StartParallelCleanup at h
  by_cases he : (DiskCleaner.launchTargets fs cleanupItems confirmed).isEmpty = true
  · simp only [he, if_true, Option.some.injEq] at h
    rw [← h]
    exact (List.isEmpty_iff.mp he).symm
  · simp only [he, Bool.false_eq_true, if_false] at h
    split at h
    · cases h
    · split at h
      · cases h
      · simp only [Option.some.injEq] at h
        rw [← h]

theorem DiskCleanerGUI_launched_eq (dryRunMode isAdmin : Bool) (hw : Nat)
    (cleanupItems : List CleanupItem) (fs : FileSystem) (confirmed : Bool)
    (ready : Nat → Nat → Bool) (rep : RunReport)
    (h : DiskCleanerGUI.StartParallelCleanup dryRunMode isAdmin hw cleanupItems fs confirmed ready
      = some rep) :
    rep.launched = DiskCleanerGUI.launchTargets isAdmin cleanupItems confirmed := by
  unfold DiskCleanerGUI.StartParallelCleanup at h
  by_cases he : (DiskCleanerGUI.launchTargets isAdmin cleanupItems confirmed).isEmpty = true
  · simp only [he, if_true, Option.some.injEq] at h
    rw [← h]
    exact (List.isEmpty_iff.mp he).symm
  · simp only [he, Bool.false_eq_true, if_false] at h
    split at h
    · cases h
    · simp only [Option.some.injEq] at h
      rw [← h]

theorem DiskCleaner_launchTargets_enabled (fs : FileSystem) (cleanupItems : List CleanupItem)
    (confirmed : Bool) (item : CleanupItem)
    (h : item ∈ DiskCleaner.launchTargets fs cleanupItems confirmed) :
    item.enabled = true ∧ item ∈ cleanupItems := by
  unfold DiskCleaner.launchTargets at h
  simp only at h
  split at h
  · simp at h
  · split at h
    · simp at h
    · split at h
      · simp at h
      · simp only [List.mem_filter] at h
        exact ⟨h.1.2, h.1.1⟩

theorem DiskCleanerGUI_launchTargets_enabled (isAdmin : Bool) (cleanupItems : List CleanupItem)
    (confirmed : Bool) (item : CleanupItem)
    (h : item ∈ DiskCleanerGUI.launchTargets isAdmin cleanupItems confirmed) :
    item.enabled = true ∧ item ∈ cleanupItems := by
  unfold DiskCleanerGUI.launchTargets at h
  simp only at h
  split at h
  · simp at h
  · split at h
    · simp at h
    · split at h
      · simp at h
      · simp only [List.mem_filter] at h
        exact ⟨h.2, h.1⟩

theorem DiskCleaner_deleteItemAt_journal (folder : String) (st : BatchState) (j : Nat) :
    ∃ extra, (DiskCleaner.deleteItemAt folder st j).journal = st.journal ++ extra ∧
      ∀ op ∈ extra, op.onTarget folder = true := by
  unfold DiskCleaner.deleteItemAt
  split
  · split
    · exact ⟨[], by simp, by simp⟩
    · split
      · exact ⟨[_], rfl, by simp [FsOp.onTarget]⟩
      · exact ⟨[_], rfl, by simp [FsOp.onTarget]⟩
  · split
    · exact ⟨[], by simp, by simp⟩
    · split
      · split
        · exact ⟨[_], rfl, by simp [FsOp.onTarget]⟩
        · exact ⟨[_], rfl, by simp [FsOp.onTarget]⟩
      · exact ⟨[_], rfl, by simp [FsOp.onTarget]⟩
  · exact ⟨[], by simp, by simp⟩
  · exact ⟨[], by simp, by simp⟩

theorem DiskCleanerGUI_deleteItemAt_journal (folder : String) (st : BatchState) (j : Nat) :
    ∃ extra, (DiskCleanerGUI.deleteItemAt folder st j).journal = st.journal ++ extra ∧
      ∀ op ∈ extra, op.onTarget folder = true := by
  unfold DiskCleanerGUI.deleteItemAt
  split
  · split
    · exact ⟨[], by simp, by simp⟩
    · split
      · exact ⟨[_], rfl, by simp [FsOp.onTarget]⟩
      · exact ⟨[_], rfl, by simp [FsOp.onTarget]⟩
  · split
    · exact ⟨[], by simp, by simp⟩
    · split
      · split
        · exact ⟨[_], rfl, by simp [FsOp.onTarget]⟩
        · exact ⟨[_], rfl, by simp [FsOp.onTarget]⟩
      · exact ⟨[_], rfl, by simp [FsOp.onTarget]⟩
  · exact ⟨[], by simp, by simp⟩
  · exact ⟨[], by simp, by simp⟩

theorem foldl_journal (folder : String) (body : BatchState → Nat → BatchState)
    (hbody : ∀ st j, ∃ extra, (body st j).journal = st.journal ++ extra ∧
      ∀ op ∈ extra, op.onTarget folder = true) (l : List Nat) :
    ∀ st, ∃ extra, (l.foldl body st).journal = st.journal ++ extra ∧
      ∀ op ∈ extra, op.onTarget folder = true := by
  induction l with
  | nil =>
    intro st
    exact ⟨[], by simp, by simp⟩
  | cons j rest ih =>
    intro st
    obtain ⟨e1, h1, k1⟩ := hbody st j
    obtain ⟨e2, h2, k2⟩ := ih (body st j)
    refine ⟨e1 ++ e2, ?_, ?_⟩
    · simp only [List.foldl_cons, h2, h1, List.append_assoc]
    · intro op hop
      rcases List.mem_append.mp hop with h | h
      · exact k1 op h
      · exact k2 op h

theorem runWorkers_journal (folder : String) (body : BatchState → Nat → BatchState)
    (hbody : ∀ st j, ∃ extra, (body st j).journal = st.journal ++ extra ∧
      ∀ op ∈ extra, op.onTarget folder = true)
    (finished : Nat → Bool) (progress : Nat → Nat) (ranges : List (Nat × Nat)) :
    ∀ b st, ∃ extra, (runWorkers body finished progress ranges b st).journal
        = st.journal ++ extra ∧
      ∀ op ∈ extra, op.onTarget folder = true := by
  induction ranges with
  | nil =>
    intro b st
    exact ⟨[], by simp [runWorkers], by simp⟩
  | cons r rest ih =>
    intro b st
    obtain ⟨i, endIdx⟩ := r
    simp only [runWorkers]
    by_cases hf : finished b = true
    · simp only [hf, if_true]
      obtain ⟨e1, h1, k1⟩ := foldl_journal folder body hbody (List.range' i (endIdx - i))
        ⟨st.slots, st.journal, 0, 0⟩
      obtain ⟨e2, h2, k2⟩ := ih (b + 1) (runBatch body i endIdx st)
      refine ⟨e1 ++ e2, ?_, ?_⟩
      · rw [h2]
        simp only [runBatch, h1, List.append_assoc]
      · intro op hop
        rcases List.mem_append.mp hop with h | h
        · exact k1 op h
        · exact k2 op h
    · simp only [hf, Bool.false_eq_true, if_false]
      obtain ⟨e1, h1, k1⟩ := foldl_journal folder body hbody
        (List.range' i (min endIdx (i + progress b) - i)) ⟨st.slots, st.journal, 0, 0⟩
      obtain ⟨e2, h2, k2⟩ := ih (b + 1)
        (runPartOfBatch body i (min endIdx (i + progress b)) st)
      refine ⟨e1 ++ e2, ?_, ?_⟩
      · rw [h2]
        simp only [runPartOfBatch, h1, List.append_assoc]
      · intro op hop
        rcases List.mem_append.mp hop with h | h
        · exact k1 op h
        · exact k2 op h

theorem lookup_replaceChildren_ne (entries : List (String × FsNode)) (p q : String)
    (cs : List (String × FsNode)) (hq : q ≠ p) :
    (replaceChildren entries p cs).lookup q = entries.lookup q := by
  induction entries with
  | nil => rfl
  | cons e rest ih =>
    obtain ⟨k, n⟩ := e
    by_cases hk : k = p
    · subst hk
      have hqk : (q == k) = false := by simpa using hq
      simp only [replaceChildren, beq_self_eq_true, if_true]
      split <;> simp [List.lookup, hqk]
    · have hk2 : (k == p) = false := by simpa using hk
      simp only [replaceChildren, hk2, Bool.false_eq_true, if_false, List.lookup]
      split
      · rfl
      · exact ih

theorem framed_same (fs : FileSystem) (p name : String) (r : CleanupResult)
    (hr : r.itemName = name) : Framed fs p name r fs :=
  ⟨hr, ⟨[], by simp, by simp⟩, fun _ _ => rfl⟩

theorem DiskCleaner_clean_frame (dryRunMode : Bool) (hw : Nat) (timing : BatchTiming)
    (fs fs1 : FileSystem) (p name : String) (r : CleanupResult)
    (h : DiskCleaner.DeleteFolderContentsParallel dryRunMode hw timing fs p name
      = some (r, fs1)) : Framed fs p name r fs1 := by
  unfold DiskCleaner.DeleteFolderContentsParallel at h
  simp only at h
  split at h
  · simp only [Option.some.injEq, Prod.mk.injEq] at h
    obtain ⟨rfl, rfl⟩ := h
    exact framed_same _ _ _ _ rfl
  · split at h
    · rename_i hbin
      split at h
      · simp only [Option.some.injEq, Prod.mk.injEq] at h
        obtain ⟨rfl, rfl⟩ := h
        exact framed_same _ _ _ _ rfl
      · split at h
        · simp only [Option.some.injEq, Prod.mk.injEq] at h
          obtain ⟨rfl, rfl⟩ := h
          exact framed_same _ _ _ _ rfl
        · have hbin2 : FsOp.onTarget p FsOp.emptyRecycleBin = true := by
            simp [FsOp.onTarget, hbin]
          split at h
          · simp only [Option.some.injEq, Prod.mk.injEq] at h
            obtain ⟨rfl, rfl⟩ := h
            exact ⟨rfl, ⟨[FsOp.emptyRecycleBin], rfl, by simpa using hbin2⟩, fun _ _ => rfl⟩
          · split at h
            · simp only [Option.some.injEq, Prod.mk.injEq] at h
              obtain ⟨rfl, rfl⟩ := h
              exact ⟨rfl, ⟨[FsOp.emptyRecycleBin], rfl, by simpa using hbin2⟩, fun _ _ => rfl⟩
            · simp only [Option.some.injEq, Prod.mk.injEq] at h
              obtain ⟨rfl, rfl⟩ := h
              exact ⟨rfl, ⟨[FsOp.emptyRecycleBin], rfl, by simpa using hbin2⟩, fun _ _ => rfl⟩
    · split at h
      · simp only [Option.some.injEq, Prod.mk.injEq] at h
        obtain ⟨rfl, rfl⟩ := h
        exact framed_same _ _ _ _ rfl
      · split at h
        · simp only [Option.some.injEq, Prod.mk.injEq] at h
          obtain ⟨rfl, rfl⟩ := h
          exact framed_same _ _ _ _ rfl
        · split at h
          · cases h
          · simp only [Option.some.injEq, Prod.mk.injEq] at h
            obtain ⟨rfl, rfl⟩ := h
            refine ⟨rfl, ?_, ?_⟩
            · exact runWorkers_journal p (DiskCleaner.deleteItemAt p)
                (DiskCleaner_deleteItemAt_journal p) _ _ _ 0 ⟨_, fs.journal, 0, 0⟩
            · intro q hq
              exact lookup_replaceChildren_ne _ _ _ _ hq

theorem DiskCleanerGUI_clean_frame (dryRunMode : Bool) (hw : Nat)
    (fs fs1 : FileSystem) (p name : String) (r : CleanupResult)
    (h : DiskCleanerGUI.DeleteFolderContentsParallel dryRunMode hw fs p name
      = some (r, fs1)) : Framed fs p name r fs1 := by
  unfold DiskCleanerGUI.DeleteFolderContentsParallel at h
  simp only at h
  split at h
  · rename_i hbin
    have hbin2 : FsOp.onTarget p FsOp.emptyRecycleBin = true := by
      simp [FsOp.onTarget, hbin]
    split at h
    · simp only [Option.some.injEq, Prod.mk.injEq] at h
      obtain ⟨rfl, rfl⟩ := h
      exact framed_same _ _ _ _ rfl
    · split at h
      · simp only [Option.some.injEq, Prod.mk.injEq] at h
        obtain ⟨rfl, rfl⟩ := h
        exact ⟨rfl, ⟨[FsOp.emptyRecycleBin], rfl, by simpa using hbin2⟩, fun _ _ => rfl⟩
      · simp only [Option.some.injEq, Prod.mk.injEq] at h
        obtain ⟨rfl, rfl⟩ := h
        exact ⟨rfl, ⟨[FsOp.emptyRecycleBin], rfl, by simpa using hbin2⟩, fun _ _ => rfl⟩
  · split at h
    · simp only [Option.some.injEq, Prod.mk.injEq] at h
      obtain ⟨rfl, rfl⟩ := h
      exact framed_same _ _ _ _ rfl
    · split at h
      · simp only [Option.some.injEq, Prod.mk.injEq] at h
        obtain ⟨rfl, rfl⟩ := h
        exact framed_same _ _ _ _ rfl
      · split at h
        · cases h
        · simp only [Option.some.injEq, Prod.mk.injEq] at h
          obtain ⟨rfl, rfl⟩ := h
          refine ⟨rfl, ?_, ?_⟩
          · exact runWorkers_journal p (DiskCleanerGUI.deleteItemAt p)
              (DiskCleanerGUI_deleteItemAt_journal p) _ _ _ 0 ⟨_, fs.journal, 0, 0⟩
          · intro q hq
            exact lookup_replaceChildren_ne _ _ _ _ hq

theorem runTasks_frame
    (clean : Nat → FileSystem → String → String → Option (CleanupResult × FileSystem))
    (hclean : ∀ k fs p name r fs1, clean k fs p name = some (r, fs1) → Framed fs p name r fs1)
    (items : List CleanupItem) :
    ∀ (k : Nat) (fs : FileSystem) (outcomes : List CleanupResult) (fs1 : FileSystem),
      runTasks clean items k fs = some (outcomes, fs1) →
      outcomes.map (fun r => r.itemName) = items.map (fun item => item.name) ∧
      (∃ extra, fs1.journal = fs.journal ++ extra ∧
        ∀ op ∈ extra, ∃ item ∈ items, FsOp.onTarget item.path op = true) ∧
      (∀ q, (∀ item ∈ items, item.path ≠ q) → fs1.entries.lookup q = fs.entries.lookup q) := by
  induction items with
  | nil =>
    intro k fs outcomes fs1 h
    simp only [runTasks, Option.some.injEq, Prod.mk.injEq] at h
    obtain ⟨rfl, rfl⟩ := h
    exact ⟨rfl, ⟨[], by simp, by simp⟩, fun _ _ => rfl⟩
  | cons item rest ih =>
    intro k fs outcomes fs1 h
    simp only [runTasks] at h
    cases hc : clean k fs item.path item.name with
    | none =>
      rw [hc] at h
      cases h
    | some res =>
      obtain ⟨r, fsa⟩ := res
      rw [hc] at h
      simp only at h
      cases hr : runTasks clean rest (k + 1) fsa with
      | none =>
        rw [hr] at h
        cases h
      | some res2 =>
        obtain ⟨rs, fsb⟩ := res2
        rw [hr] at h
        simp only [Option.some.injEq, Prod.mk.injEq] at h
        obtain ⟨rfl, rfl⟩ := h
        obtain ⟨hname, ⟨e1, hj1, hk1⟩, hent1⟩ := hclean k fs item.path item.name r fsa hc
        obtain ⟨hnames, ⟨e2, hj2, hk2⟩, hent2⟩ := ih (k + 1) fsa rs fsb hr
        refine ⟨?_, ⟨e1 ++ e2, ?_, ?_⟩, ?_⟩
        · simp only [List.map_cons, hname, hnames]
        · rw [hj2, hj1, List.append_assoc]
        · intro op hop
          rcases List.mem_append.mp hop with h | h
          · exact ⟨item, List.mem_cons_self _ _, hk1 op h⟩
          · obtain ⟨it, hit, hon⟩ := hk2 op h
            exact ⟨it, List.mem_cons_of_mem _ hit, hon⟩
        · intro q hq
          rw [hent2 q (fun it hit => hq it (List.mem_cons_of_mem _ hit)),
            hent1 q (fun heq => hq item (List.mem_cons_self _ _) heq.symm)]

theorem foldl_preserves {α β : Type} (P : α → Prop) (f : α → β → α) (l : List β)
    (hstep : ∀ a b, b ∈ l → P a → P (f a b)) : ∀ a, P a → P (l.foldl f a) := by
  induction l with
  | nil =>
    intro a ha
    exact ha
  | cons b rest ih =>
    intro a ha
    exact ih (fun a1 b1 hb1 => hstep a1 b1 (List.mem_cons_of_mem _ hb1)) (f a b)
      (hstep a b (List.mem_cons_self _ _) ha)

theorem monitorIteration_origin (selectedItems : List CleanupItem)
    (taskResults : List CleanupResult) (p : DiskCleaner.Poll) (st : DiskCleaner.MonitorState)
    (h : ∀ r ∈ st.results,
      (∃ i, i < selectedItems.length ∧ r = taskResults.getD i emptyResult) ∨
      (∃ i, i < selectedItems.length ∧
        r = ⟨(selectedItems.getD i emptyItem).name, 0, 0, 0, false, "Timeout"⟩)) :
    ∀ r ∈ (DiskCleaner.monitorIteration selectedItems taskResults p st).1.results,
      (∃ i, i < selectedItems.length ∧ r = taskResults.getD i emptyResult) ∨
      (∃ i, i < selectedItems.length ∧
        r = ⟨(selectedItems.getD i emptyItem).name, 0, 0, 0, false, "Timeout"⟩) := by
  have hpoll := foldl_preserves
    (fun s : DiskCleaner.MonitorState => ∀ r ∈ s.results,
      (∃ i, i < selectedItems.length ∧ r = taskResults.getD i emptyResult) ∨
      (∃ i, i < selectedItems.length ∧
        r = ⟨(selectedItems.getD i emptyItem).name, 0, 0, 0, false, "Timeout"⟩))
    (DiskCleaner.pollTask p.taskDoneFlags taskResults) (List.range selectedItems.length)
    (fun s i hi hs => by
      have hlt := List.mem_range.mp hi
      unfold DiskCleaner.pollTask
      split
      · exact hs
      · split
        · intro r hr
          simp only [List.mem_append, List.mem_singleton] at hr
          rcases hr with hr | hr
          · exact hs r hr
          · exact Or.inl ⟨i, hlt, hr⟩
        · exact hs) st h
  have htime := foldl_preserves
    (fun s : DiskCleaner.MonitorState => ∀ r ∈ s.results,
      (∃ i, i < selectedItems.length ∧ r = taskResults.getD i emptyResult) ∨
      (∃ i, i < selectedItems.length ∧
        r = ⟨(selectedItems.getD i emptyItem).name, 0, 0, 0, false, "Timeout"⟩))
    (DiskCleaner.timeoutTask selectedItems) (List.range selectedItems.length)
    (fun s i hi hs => by
      have hlt := List.mem_range.mp hi
      unfold DiskCleaner.timeoutTask
      split
      · intro r hr
        simp only [List.mem_append, List.mem_singleton] at hr
        rcases hr with hr | hr
        · exact hs r hr
        · exact Or.inr ⟨i, hlt, hr⟩
      · exact hs) _ hpoll
  unfold DiskCleaner.monitorIteration
  simp only
  split
  · exact htime
  · exact hpoll

theorem monitorLoop_origin (selectedItems : List CleanupItem)
    (taskResults : List CleanupResult) (polls : List DiskCleaner.Poll) :
    ∀ (st st1 : DiskCleaner.MonitorState),
      (∀ r ∈ st.results,
        (∃ i, i < selectedItems.length ∧ r = taskResults.getD i emptyResult) ∨
        (∃ i, i < selectedItems.length ∧
          r = ⟨(selectedItems.getD i emptyItem).name, 0, 0, 0, false, "Timeout"⟩)) →
      DiskCleaner.monitorLoop selectedItems taskResults polls st = some st1 →
      ∀ r ∈ st1.results,
        (∃ i, i < selectedItems.length ∧ r = taskResults.getD i emptyResult) ∨
        (∃ i, i < selectedItems.length ∧
          r = ⟨(selectedItems.getD i emptyItem).name, 0, 0, 0, false, "Timeout"⟩) := by
  induction polls with
  | nil =>
    intro st st1 hst h
    simp only [DiskCleaner.monitorLoop] at h
    split at h
    · cases h
    · simp only [Option.some.injEq] at h
      rw [← h]
      exact hst
  | cons p rest ih =>
    intro st st1 hst h
    simp only [DiskCleaner.monitorLoop] at h
    split at h
    · have hit := monitorIteration_origin selectedItems taskResults p st hst
      split at h
      · rename_i s2 heq
        simp only [Option.some.injEq] at h
        rw [heq] at hit
        rw [← h]
        exact hit
      · rename_i s2 heq
        rw [heq] at hit
        exact ih s2 st1 hit h
    · simp only [Option.some.injEq] at h
      rw [← h]
      exact hst

theorem slots_results (items : List CleanupItem) :
    ∀ (outcomes : List CleanupResult), items.length = outcomes.length →
      ((items.zip outcomes).map
        (fun io => DiskCleaner.unitOfWork io.1 (DiskCleaner.CallOutcome.returned io.2))).map
        (fun s => s.taskResult) = outcomes := by
  induction items with
  | nil =>
    intro outcomes h
    cases outcomes with
    | nil => rfl
    | cons _ _ => simp at h
  | cons item rest ih =>
    intro outcomes h
    cases outcomes with
    | nil => simp at h
    | cons r rs =>
      simp only [List.length_cons, Nat.add_right_cancel_iff] at h
      have hrec := ih rs h
      simp only [List.zip_cons_cons, List.map_cons, DiskCleaner.unitOfWork] at hrec ⊢
      rw [hrec]

theorem DiskCleaner_results_origin (dryRunMode : Bool) (hw : Nat) (timings : Nat → BatchTiming)
    (cleanupItems : List CleanupItem) (fs : FileSystem) (confirmed : Bool)
    (polls : List DiskCleaner.Poll) (rep : RunReport) (outcomes : List CleanupResult)
    (h : DiskCleaner.StartParallelCleanup dryRunMode hw timings cleanupItems fs confirmed polls
      = some rep)
    (hrun : runTasks (fun k => DiskCleaner.DeleteFolderContentsParallel dryRunMode hw (timings k))
        (DiskCleaner.launchTargets fs cleanupItems confirmed) 0 fs = some (outcomes, rep.fs)) :
    ∀ r ∈ rep.results,
      r ∈ outcomes ∨
      ∃ item ∈ DiskCleaner.launchTargets fs cleanupItems confirmed,
        r = ⟨item.name, 0, 0, 0, false, "Timeout"⟩ := by
  have hnames := (runTasks_frame _
    (fun k fs p name r fs1 hc => DiskCleaner_clean_frame dryRunMode hw (timings k) fs fs1 p name r hc)
    _ 0 fs outcomes rep.fs hrun).1
  have hlen : (DiskCleaner.launchTargets fs cleanupItems confirmed).length = outcomes.length := by
    have := congrArg List.length hnames
    simpa using this.symm
  unfold DiskCleaner.StartParallelCleanup at h
  by_cases he : (DiskCleaner.launchTargets fs cleanupItems confirmed).isEmpty = true
  · simp only [he, if_true, Option.some.injEq] at h
    rw [← h]
    intro r hr
    simp at hr
  · simp only [he, Bool.false_eq_true, if_false] at h
    rw [hrun] at h
    simp only [slots_results _ outcomes hlen] at h
    split at h
    · cases h
    · rename_i st hmon
      simp only [Option.some.injEq] at h
      rw [← h]
      have horig := monitorLoop_origin _ _ polls _ st (by intro r hr; simp at hr) hmon
      intro r hr
      rcases horig r hr with ⟨i, hi, hri⟩ | ⟨i, hi, hri⟩
      · left
        rw [hri, List.getD_eq_getElem?_getD, List.getElem?_eq_getElem (by omega)]
        simp
      · right
        refine ⟨(DiskCleaner.launchTargets fs cleanupItems confirmed)[i], List.getElem_mem _, ?_⟩
        rw [hri, List.getD_eq_getElem?_getD, List.getElem?_eq_getElem hi]
        simp

theorem eraseFirstReady_subset (ready : Nat → Bool) (futures : List Nat) :
    ∀ u ∈ DiskCleanerGUI.eraseFirstReady ready futures, u ∈ futures := by
  induction futures with
  | nil =>
    intro u hu
    simp [DiskCleanerGUI.eraseFirstReady] at hu
  | cons t rest ih =>
    intro u hu
    simp only [DiskCleanerGUI.eraseFirstReady] at hu
    split at hu
    · exact List.mem_cons_of_mem _ hu
    · rcases List.mem_cons.mp hu with h | h
      · rw [h]
        exact List.mem_cons_self _ _
      · exact List.mem_cons_of_mem _ (ih u h)

theorem launchLoop_subset (maxConcurrent : Nat) (ready : Nat → Nat → Bool) (tasks : List Nat) :
    ∀ (futures : List Nat), ∀ u ∈ DiskCleanerGUI.launchLoop maxConcurrent ready tasks futures,
      u ∈ futures ∨ u ∈ tasks := by
  induction tasks with
  | nil =>
    intro futures u hu
    exact Or.inl hu
  | cons t rest ih =>
    intro futures u hu
    simp only [DiskCleanerGUI.launchLoop] at hu
    have key : ∀ fut1 : List Nat, (∀ v ∈ fut1, v ∈ futures ++ [t]) →
        u ∈ DiskCleanerGUI.launchLoop maxConcurrent ready rest fut1 →
        u ∈ futures ∨ u ∈ t :: rest := by
      intro fut1 hsub hmem
      rcases ih fut1 u hmem with h | h
      · rcases List.mem_append.mp (hsub u h) with h1 | h1
        · exact Or.inl h1
        · simp only [List.mem_singleton] at h1
          rw [h1]
          exact Or.inr (List.mem_cons_self _ _)
      · exact Or.inr (List.mem_cons_of_mem _ h)
    split at hu
    · exact key _ (eraseFirstReady_subset _ _) hu
    · exact key _ (fun v hv => hv) hu

theorem DiskCleanerGUI_results_origin (dryRunMode isAdmin : Bool) (hw : Nat)
    (cleanupItems : List CleanupItem) (fs : FileSystem) (confirmed : Bool)
    (ready : Nat → Nat → Bool) (rep : RunReport) (outcomes : List CleanupResult)
    (h : DiskCleanerGUI.StartParallelCleanup dryRunMode isAdmin hw cleanupItems fs confirmed ready
      = some rep)
    (hrun : runTasks (fun _ => DiskCleanerGUI.DeleteFolderContentsParallel dryRunMode hw)
        (DiskCleanerGUI.launchTargets isAdmin cleanupItems confirmed) 0 fs
        = some (outcomes, rep.fs)) :
    ∀ r ∈ rep.results, r ∈ outcomes := by
  have hnames := (runTasks_frame _
    (fun _ fs p name r fs1 hc => DiskCleanerGUI_clean_frame dryRunMode hw fs fs1 p name r hc)
    _ 0 fs outcomes rep.fs hrun).1
  have hlen : (DiskCleanerGUI.launchTargets isAdmin cleanupItems confirmed).length
      = outcomes.length := by
    have := congrArg List.length hnames
    simpa using this.symm
  unfold DiskCleanerGUI.StartParallelCleanup at h
  by_cases he : (DiskCleanerGUI.launchTargets isAdmin cleanupItems confirmed).isEmpty = true
  · simp only [he, if_true, Option.some.injEq] at h
    rw [← h]
    intro r hr
    simp at hr
  · simp only [he, Bool.false_eq_true, if_false] at h
    rw [hrun] at h
    simp only [Option.some.injEq] at h
    rw [← h]
    intro r hr
    simp only [List.mem_map] at hr
    obtain ⟨u, hu, hru⟩ := hr
    have hlt : u < outcomes.length := by
      rcases launchLoop_subset _ _ _ [] u hu with h1 | h1
      · simp at h1
      · rw [← hlen]
        exact List.mem_range.mp h1
    rw [← hru, List.getD_eq_getElem?_getD, List.getElem?_eq_getElem hlt]
    simp

/-- C2. An item whose `enabled` flag is false is never passed to a cleanup
task by `StartParallelCleanup`, in either file and whatever the rest of the
catalog is.  It is not in the launch list; and in every completed run the
calls of `DeleteFolderContentsParallel` are exactly those of the tasks run on
the launched items, every one of which is an enabled item of the catalog: the
item is not among them, every outcome collected is the outcome of one of these
calls (or, in `DiskCleaner.cpp`, the time-out record of a launched item), every
mutating call the run adds to the journal acts on the path of an enabled item,
and the objects at a path that no enabled item has are left as they were. -/
theorem C2_disabled_items_are_never_cleaned (dryRunMode isAdmin confirmed : Bool) (hw : Nat)
    (timings : Nat → BatchTiming) (cleanupItems : List CleanupItem) (fs : FileSystem)
    (polls : List DiskCleaner.Poll) (ready : Nat → Nat → Bool) (item : CleanupItem)
    (hoff : item.enabled = false) :
    item ∉ DiskCleaner.launchTargets fs cleanupItems confirmed ∧
    item ∉ DiskCleanerGUI.launchTargets isAdmin cleanupItems confirmed ∧
    (∀ rep, DiskCleaner.StartParallelCleanup dryRunMode hw timings cleanupItems fs confirmed
        polls = some rep →
      item ∉ rep.launched ∧
      (∀ it ∈ rep.launched, it.enabled = true ∧ it ∈ cleanupItems) ∧
      (∃ outcomes,
        runTasks (fun k => DiskCleaner.DeleteFolderContentsParallel dryRunMode hw (timings k))
          rep.launched 0 fs = some (outcomes, rep.fs) ∧
        outcomes.map (fun r => r.itemName) = rep.launched.map (fun it => it.name) ∧
        ∀ r ∈ rep.results,
          r ∈ outcomes ∨ ∃ it ∈ rep.launched, r = ⟨it.name, 0, 0, 0, false, "Timeout"⟩) ∧
      (∃ extra, rep.fs.journal = fs.journal ++ extra ∧
        ∀ op ∈ extra, ∃ it ∈ cleanupItems, it.enabled = true ∧
          FsOp.onTarget it.path op = true) ∧
      (∀ q, (∀ it ∈ cleanupItems, it.enabled = true → it.path ≠ q) →
        rep.fs.entries.lookup q = fs.entries.lookup q)) ∧
    (∀ rep, DiskCleanerGUI.StartParallelCleanup dryRunMode isAdmin hw cleanupItems fs confirmed
        ready = some rep →
      item ∉ rep.launched ∧
      (∀ it ∈ rep.launched, it.enabled = true ∧ it ∈ cleanupItems) ∧
      (∃ outcomes,
        runTasks (fun _ => DiskCleanerGUI.DeleteFolderContentsParallel dryRunMode hw)
          rep.launched 0 fs = some (outcomes, rep.fs) ∧
        outcomes.map (fun r => r.itemName) = rep.launched.map (fun it => it.name) ∧
        ∀ r ∈ rep.results, r ∈ outcomes) ∧
      (∃ extra, rep.fs.journal = fs.journal ++ extra ∧
        ∀ op ∈ extra, ∃ it ∈ cleanupItems, it.enabled = true ∧
          FsOp.onTarget it.path op = true) ∧
      (∀ q, (∀ it ∈ cleanupItems, it.enabled = true → it.path ≠ q) →
        rep.fs.entries.lookup q = fs.entries.lookup q)) := by
  have h1 : item ∉ DiskCleaner.launchTargets fs cleanupItems confirmed := by
    intro hin
    have := (DiskCleaner_launchTargets_enabled fs cleanupItems confirmed item hin).1
    rw [hoff] at this
    cases this
  have h2 : item ∉ DiskCleanerGUI.launchTargets isAdmin cleanupItems confirmed := by
    intro hin
    have := (DiskCleanerGUI_launchTargets_enabled isAdmin cleanupItems confirmed item hin).1
    rw [hoff] at this
    cases this
  refine ⟨h1, h2, ?_, ?_⟩
  · intro rep hrep
    have hl := DiskCleaner_launched_eq _ _ _ _ _ _ _ _ hrep
    have hen := DiskCleaner_launchTargets_enabled fs cleanupItems confirmed
    have hcall : ∃ outcomes,
        runTasks (fun k => DiskCleaner.DeleteFolderContentsParallel dryRunMode hw (timings k))
          (DiskCleaner.launchTargets fs cleanupItems confirmed) 0 fs
          = some (outcomes, rep.fs) := by
      have h := hrep
      unfold DiskCleaner.StartParallelCleanup at h
      by_cases he : (DiskCleaner.launchTargets fs cleanupItems confirmed).isEmpty = true
      · simp only [he, if_true, Option.some.injEq] at h
        rw [← h, List.isEmpty_iff.mp he]
        exact ⟨[], rfl⟩
      · simp only [he, Bool.false_eq_true, if_false] at h
        split at h
        · cases h
        · rename_i outcomes fs1 hrun
          split at h
          · cases h
          · simp only [Option.some.injEq] at h
            rw [← h]
            exact ⟨outcomes, hrun⟩
    obtain ⟨outcomes, hrun⟩ := hcall
    obtain ⟨hnames, ⟨extra, hj, hops⟩, hentries⟩ := runTasks_frame _
      (fun k fs p name r fs1 hc =>
        DiskCleaner_clean_frame dryRunMode hw (timings k) fs fs1 p name r hc)
      _ 0 fs outcomes rep.fs hrun
    have horigin := DiskCleaner_results_origin dryRunMode hw timings cleanupItems fs confirmed
      polls rep outcomes hrep hrun
    rw [hl]
    refine ⟨h1, fun it hit => hen it hit, ⟨outcomes, hrun, hnames, horigin⟩,
      ⟨extra, hj, ?_⟩, ?_⟩
    · intro op hop
      obtain ⟨it, hit, hon⟩ := hops op hop
      exact ⟨it, (hen it hit).2, (hen it hit).1, hon⟩
    · intro q hq
      exact hentries q (fun it hit => hq it (hen it hit).2 (hen it hit).1)
  · intro rep hrep
    have hl := DiskCleanerGUI_launched_eq _ _ _ _ _ _ _ _ hrep
    have hen := DiskCleanerGUI_launchTargets_enabled isAdmin cleanupItems confirmed
    have hcall : ∃ outcomes,
        runTasks (fun _ => DiskCleanerGUI.DeleteFolderContentsParallel dryRunMode hw)
          (DiskCleanerGUI.launchTargets isAdmin cleanupItems confirmed) 0 fs
          = some (outcomes, rep.fs) := by
      have h := hrep
      unfold DiskCleanerGUI.StartParallelCleanup at h
      by_cases he : (DiskCleanerGUI.launchTargets isAdmin cleanupItems confirmed).isEmpty = true
      · simp only [he, if_true, Option.some.injEq] at h
        rw [← h, List.isEmpty_iff.mp he]
        exact ⟨[], rfl⟩
      · simp only [he, Bool.false_eq_true, if_false] at h
        split at h
        · cases h
        · rename_i outcomes fs1 hrun
          simp only [Option.some.injEq] at h
          rw [← h]
          exact ⟨outcomes, hrun⟩
    obtain ⟨outcomes, hrun⟩ := hcall
    obtain ⟨hnames, ⟨extra, hj, hops⟩, hentries⟩ := runTasks_frame _
      (fun _ fs p name r fs1 hc => DiskCleanerGUI_clean_frame dryRunMode hw fs fs1 p name r hc)
      _ 0 fs outcomes rep.fs hrun
    have horigin := DiskCleanerGUI_results_origin dryRunMode isAdmin hw cleanupItems fs confirmed
      ready rep outcomes hrep hrun
    rw [hl]
    refine ⟨h2, fun it hit => hen it hit, ⟨outcomes, hrun, hnames, horigin⟩,
      ⟨extra, hj, ?_⟩, ?_⟩
    · intro op hop
      obtain ⟨it, hit, hon⟩ := hops op hop
      exact ⟨it, (hen it hit).2, (hen it hit).1, hon⟩
    · intro q hq
      exact hentries q (fun it hit => hq it (hen it hit).2 (hen it hit).1)

/-- C2, instance: the catalog holds the enabled entry for `C:\A` and a
switched-off entry for `C:\Off`.  The run of either file completes, the
switched-off entry is not launched, the directory `C:\Off` is afterwards as it
was before, and the mutating calls of the run are the three removals in
`C:\A`. -/
theorem C2_witness :
    Example.itemOffDir.enabled = false ∧
    (∃ rep, DiskCleaner.StartParallelCleanup false 4 (fun _ => Example.quick)
        [Example.itemA, Example.itemOffDir] Example.fsOff true [Example.promptPoll] = some rep ∧
      Example.itemOffDir ∉ rep.launched ∧
      rep.fs.entries.lookup "C:\\Off" = Example.fsOff.entries.lookup "C:\\Off") ∧
    (∃ rep, DiskCleanerGUI.StartParallelCleanup false true 4
        [Example.itemA, Example.itemOffDir] Example.fsOff true (fun _ _ => false) = some rep ∧
      Example.itemOffDir ∉ rep.launched ∧
      rep.fs.entries.lookup "C:\\Off" = Example.fsOff.entries.lookup "C:\\Off") ∧
    (DiskCleaner.StartParallelCleanup false 4 (fun _ => Example.quick)
        [Example.itemA, Example.itemOffDir] Example.fsOff true [Example.promptPoll]).map
        (fun rep => (rep.results.map (fun r => r.itemName), rep.fs.journal))
      = some (["A"], [FsOp.remove "C:\\A" "a.tmp", FsOp.remove "C:\\A" "b.tmp",
          FsOp.remove "C:\\A" "c.log"]) ∧
    (DiskCleanerGUI.StartParallelCleanup false true 4
        [Example.itemA, Example.itemOffDir] Example.fsOff true (fun _ _ => false)).map
        (fun rep => (rep.results.map (fun r => r.itemName), rep.fs.journal))
      = some (["A"], [FsOp.remove "C:\\A" "a.tmp", FsOp.remove "C:\\A" "b.tmp",
          FsOp.remove "C:\\A" "c.log"]) := by
  have hsome1 : (DiskCleaner.StartParallelCleanup false 4 (fun _ => Example.quick)
      [Example.itemA, Example.itemOffDir] Example.fsOff true [Example.promptPoll]).isSome
      = true := by decide
  have hsome2 : (DiskCleanerGUI.StartParallelCleanup false true 4
      [Example.itemA, Example.itemOffDir] Example.fsOff true (fun _ _ => false)).isSome
      = true := by decide
  obtain ⟨rep1, hrep1⟩ := Option.isSome_iff_exists.mp hsome1
  obtain ⟨rep2, hrep2⟩ := Option.isSome_iff_exists.mp hsome2
  have h := C2_disabled_items_are_never_cleaned false true true 4 (fun _ => Example.quick)
    [Example.itemA, Example.itemOffDir] Example.fsOff [Example.promptPoll] (fun _ _ => false)
    Example.itemOffDir rfl
  obtain ⟨k1, _, _, _, k5⟩ := h.2.2.1 rep1 hrep1
  obtain ⟨g1, _, _, _, g5⟩ := h.2.2.2 rep2 hrep2
  exact ⟨rfl, ⟨rep1, hrep1, k1, k5 "C:\\Off" (by decide)⟩,
    ⟨rep2, hrep2, g1, g5 "C:\\Off" (by decide)⟩, by decide, by decide⟩

/-! ## C3: bytes removed -/

/-- C3. For a non-empty directory target cleaned in real mode, in both files,
every outcome has `bytesRemoved` equal to the `uintmax_t` difference of
`GetFolderSize` measured before the children are listed and `GetFolderSize`
measured on the filesystem the deletion batches leave; when the size after is
not larger than the size before this is the exact difference.  An outcome
exists whenever the hardware concurrency is usable. -/
theorem C3_bytesRemoved_is_sizeBefore_minus_sizeAfter (hw : Nat) (timing : BatchTiming)
    (fs : FileSystem) (folderPath itemName : String) (hbin : folderPath ≠ "RECYCLE_BIN")
    (hne : DiskCleaner.IsDirectoryEmptyOrInaccessible fs folderPath = false) :
    (∀ r fs1,
      DiskCleaner.DeleteFolderContentsParallel false hw timing fs folderPath itemName
        = some (r, fs1) →
      r.bytesRemoved = subU64 (GetFolderSize fs folderPath) (GetFolderSize fs1 folderPath) ∧
      (GetFolderSize fs1 folderPath ≤ GetFolderSize fs folderPath →
        r.bytesRemoved = GetFolderSize fs folderPath - GetFolderSize fs1 folderPath)) ∧
    (∀ r fs1,
      DiskCleanerGUI.DeleteFolderContentsParallel false hw fs folderPath itemName
        = some (r, fs1) →
      r.bytesRemoved = subU64 (GetFolderSize fs folderPath) (GetFolderSize fs1 folderPath) ∧
      (GetFolderSize fs1 folderPath ≤ GetFolderSize fs folderPath →
        r.bytesRemoved = GetFolderSize fs folderPath - GetFolderSize fs1 folderPath)) ∧
    (0 < hw → hw < 2 ^ 31 →
      (∃ r fs1, DiskCleaner.DeleteFolderContentsParallel false hw timing fs folderPath itemName
        = some (r, fs1)) ∧
      (∃ r fs1, DiskCleanerGUI.DeleteFolderContentsParallel false hw fs folderPath itemName
        = some (r, fs1))) := by
  refine ⟨?_, ?_, ?_⟩
  · intro r fs1 h
    unfold DiskCleaner.DeleteFolderContentsParallel at h
    simp only [hne, hbin, Bool.false_eq_true, if_false] at h
    cases hf : iterFault fs folderPath with
    | some what =>
      simp only [hf, Option.some.injEq, Prod.mk.injEq] at h
      obtain ⟨rfl, rfl⟩ := h
      exact ⟨rfl, fun h => subU64_of_le _ _ (GetFolderSize_lt _ _) h⟩
    | none =>
      simp only [hf] at h
      split at h
      · cases h
      · simp only [Option.some.injEq, Prod.mk.injEq] at h
        obtain ⟨rfl, rfl⟩ := h
        exact ⟨rfl, fun h => subU64_of_le _ _ (GetFolderSize_lt _ _) h⟩
  · intro r fs1 h
    unfold DiskCleanerGUI.DeleteFolderContentsParallel at h
    simp only [hbin, Bool.false_eq_true, if_false] at h
    cases hf : iterFault fs folderPath with
    | some what =>
      simp only [hf, Option.some.injEq, Prod.mk.injEq] at h
      obtain ⟨rfl, rfl⟩ := h
      exact ⟨rfl, fun h => subU64_of_le _ _ (GetFolderSize_lt _ _) h⟩
    | none =>
      simp only [hf] at h
      split at h
      · cases h
      · simp only [Option.some.injEq, Prod.mk.injEq] at h
        obtain ⟨rfl, rfl⟩ := h
        exact ⟨rfl, fun h => subU64_of_le _ _ (GetFolderSize_lt _ _) h⟩
  · intro hw0 hw1
    have hmt : ¬ (hw * 2 % 2 ^ 32 = 0) := by omega
    have hz : ¬ (hw = 0) := by omega
    constructor
    · unfold DiskCleaner.DeleteFolderContentsParallel
      simp only [hne, hbin, Bool.false_eq_true, if_false]
      cases hf : iterFault fs folderPath with
      | some what => exact ⟨_, _, rfl⟩
      | none =>
        simp only [hmt, if_false]
        exact ⟨_, _, rfl⟩
    · unfold DiskCleanerGUI.DeleteFolderContentsParallel
      simp only [hbin, Bool.false_eq_true, if_false]
      cases hf : iterFault fs folderPath with
      | some what => exact ⟨_, _, rfl⟩
      | none =>
        simp only [hz, if_false]
        exact ⟨_, _, rfl⟩

/-- C3, instance: the directory of three files on the example machine. -/
theorem C3_witness :
    "C:\\A" ≠ "RECYCLE_BIN" ∧
    DiskCleaner.IsDirectoryEmptyOrInaccessible Example.fs "C:\\A" = false ∧
    (∃ r fs1,
      DiskCleaner.DeleteFolderContentsParallel false 4 Example.quick Example.fs "C:\\A" "A"
        = some (r, fs1) ∧
      r.bytesRemoved = subU64 (GetFolderSize Example.fs "C:\\A") (GetFolderSize fs1 "C:\\A")) := by
  have h := C3_bytesRemoved_is_sizeBefore_minus_sizeAfter 4 Example.quick Example.fs "C:\\A" "A"
    (by decide) (by decide)
  obtain ⟨⟨r, fs1, hr⟩, _⟩ := h.2.2 (by decide) (by decide)
  exact ⟨by decide, by decide, r, fs1, hr, (h.1 r fs1 hr).1⟩

/-! ## C4: empty or inaccessible targets -/

/-- C4. When `IsDirectoryEmptyOrInaccessible` holds for the path,
`DeleteFolderContentsParallel` of `DiskCleaner.cpp` returns, in dry-run and in
real mode, the outcome with `success = true`, zero files deleted, zero files
skipped, zero bytes and an empty message, and leaves the filesystem (journal
included) as it was. -/
theorem C4_empty_or_inaccessible_is_a_successful_no_op (dryRunMode : Bool) (hw : Nat)
    (timing : BatchTiming) (fs : FileSystem) (folderPath itemName : String)
    (h : DiskCleaner.IsDirectoryEmptyOrInaccessible fs folderPath = true) :
    DiskCleaner.DeleteFolderContentsParallel dryRunMode hw timing fs folderPath itemName
      = some (⟨itemName, 0, 0, 0, true, ""⟩, fs) := by
  unfold DiskCleaner.DeleteFolderContentsParallel
  simp [h]

/-- C4, instance: the empty directory of the example machine. -/
theorem C4_witness :
    DiskCleaner.IsDirectoryEmptyOrInaccessible Example.fs "C:\\B" = true ∧
    DiskCleaner.DeleteFolderContentsParallel false 4 Example.quick Example.fs "C:\\B" "B"
      = some (⟨"B", 0, 0, 0, true, ""⟩, Example.fs) :=
  ⟨by decide,
    C4_empty_or_inaccessible_is_a_successful_no_op false 4 Example.quick Example.fs "C:\\B" "B"
      (by decide)⟩

/-- The cases named by C4: a path that is not the sentinel and does not exist,
is not a directory, cannot be opened, or has no children is empty or
inaccessible. -/
theorem isEmptyOrInaccessible_of_cases (fs : FileSystem) (folderPath : String)
    (hbin : folderPath ≠ "RECYCLE_BIN")
    (h : fs.entries.lookup folderPath = none ∨
      (∃ n, fs.entries.lookup folderPath = some n ∧ n.isDir = false) ∨
      openDir fs folderPath = none ∨ openDir fs folderPath = some []) :
    DiskCleaner.IsDirectoryEmptyOrInaccessible fs folderPath = true := by
  unfold DiskCleaner.IsDirectoryEmptyOrInaccessible
  simp only [hbin, if_false]
  rcases h with h | ⟨n, h, hn⟩ | h | h
  · simp [fsExists, h]
  · simp only [fsExists, fsIsDirectory, h, hn]
    cases n.statusFails <;> simp
  · rw [h]
    split
    · rfl
    · rfl
    · split <;> rfl
  · rw [h]
    split
    · rfl
    · rfl
    · split <;> rfl

/-! ## C5: a directory of regular files -/


theorem walkList_regularFiles (files : List (String × Nat)) :
    walkList (files.map regularFile) = files.map (fun f => WalkEvent.entry (regularFile f).2) := by
  induction files with
  | nil => simp [walkList]
  | cons f rest ih => simp [walkList, regularFile, FsNode.walk, ih]

theorem sizeLoop_regularFiles (files : List (String × Nat)) (t : Nat) (ht : t < 2 ^ 64) :
    sizeLoop (files.map (fun f => WalkEvent.entry (regularFile f).2)) t false
      = (t + (files.map Prod.snd).sum) % 2 ^ 64 := by
  induction files generalizing t with
  | nil => simp [sizeLoop]; omega
  | cons f rest ih =>
    simp only [List.map_cons, sizeLoop, regularFile, Bool.false_eq_true, if_false, List.sum_cons]
    have := ih (addU64 t f.2) (Nat.mod_lt _ (by norm_num))
    simp only [regularFile] at this
    rw [this]
    unfold addU64
    omega

theorem lookup_replaceChildren (entries : List (String × FsNode)) (p : String)
    (cs cs1 : List (String × FsNode)) (sf d l : Bool) (thr : Option String)
    (h : entries.lookup p = some (.dir cs sf d l thr)) :
    (replaceChildren entries p cs1).lookup p = some (.dir cs1 sf d l thr) := by
  induction entries with
  | nil => simp at h
  | cons e rest ih =>
    obtain ⟨q, n⟩ := e
    by_cases hq : q = p
    · subst hq
      simp only [List.lookup, beq_self_eq_true] at h
      cases h
      simp [replaceChildren, List.lookup]
    · have hq2 : (p == q) = false := by simpa using fun h => hq h.symm
      have hq3 : (q == p) = false := by simpa using hq
      simp only [List.lookup, hq2] at h
      simp only [replaceChildren, hq3, Bool.false_eq_true, if_false, List.lookup, hq2]
      exact ih h


theorem slotsAfter_zero (items : List (String × FsNode)) :
    slotsAfter items 0 = items.map some := by
  apply List.ext_getElem?
  intro k
  simp only [slotsAfter, List.getElem?_map, List.getElem?_range]
  by_cases hk : k < items.length
  · simp [List.getElem?_range, hk]
  · have h1 : items.length ≤ k := by omega
    have h2 : (List.range items.length).length ≤ k := by simpa using h1
    rw [List.getElem?_eq_none h1, List.getElem?_eq_none h2]
    rfl

theorem slotsAfter_length (items : List (String × FsNode)) (j : Nat) :
    (slotsAfter items j).length = items.length := by
  simp [slotsAfter]

theorem slotsAfter_getElem? (items : List (String × FsNode)) (j k : Nat) (hk : k < items.length) :
    (slotsAfter items j)[k]? = some (if k < j then none else items[k]?) := by
  simp [slotsAfter, List.getElem?_range, hk]

theorem slotsAfter_set (items : List (String × FsNode)) (j : Nat) :
    (slotsAfter items j).set j none = slotsAfter items (j + 1) := by
  apply List.ext_getElem?
  intro k
  by_cases hk : k < items.length
  · rw [List.getElem?_set, slotsAfter_getElem? _ _ _ hk, slotsAfter_getElem? _ _ _ hk]
    by_cases hkj : j = k
    · subst hkj
      simp [slotsAfter_length, hk]
    · simp only [hkj, if_false]
      by_cases h1 : k < j
      · have : k < j + 1 := by omega
        simp [h1, this]
      · have : ¬ k < j + 1 := by omega
        simp [h1, this]
  · have h1 : (slotsAfter items (j + 1)).length ≤ k := by rw [slotsAfter_length]; omega
    have h2 : ((slotsAfter items j).set j none).length ≤ k := by
      rw [List.length_set, slotsAfter_length]; omega
    rw [List.getElem?_eq_none h1, List.getElem?_eq_none h2]

theorem slotsAfter_all (items : List (String × FsNode)) :
    (slotsAfter items items.length).filterMap id = [] := by
  rw [List.filterMap_eq_nil_iff]
  intro x hx
  simp only [slotsAfter, List.mem_map, List.mem_range] at hx
  obtain ⟨k, hk, rfl⟩ := hx
  simp [hk]

theorem deleteItemAt_regularFile (folder : String) (files : List (String × Nat)) (b : BatchState)
    (j : Nat) (hj : j < files.length)
    (hs : b.slots = slotsAfter (files.map regularFile) j)
    (hd0 : 0 ≤ b.localDeleted) (hd1 : b.localDeleted + 1 < 2 ^ 31) :
    (DiskCleaner.deleteItemAt folder b j).slots = slotsAfter (files.map regularFile) (j + 1) ∧
    (DiskCleaner.deleteItemAt folder b j).localDeleted = b.localDeleted + 1 ∧
    (DiskCleaner.deleteItemAt folder b j).localSkipped = b.localSkipped := by
  have hj1 : j < (files.map regularFile).length := by simpa using hj
  have hget : b.slots.getD j none = some (regularFile files[j]) := by
    rw [hs, List.getD_eq_getElem?_getD, slotsAfter_getElem? _ _ _ hj1]
    simp [hj]
  unfold DiskCleaner.deleteItemAt
  rw [hget]
  simp only [regularFile, Bool.false_eq_true, if_false]
  refine ⟨?_, ?_, ?_⟩
  · rw [hs]
    exact slotsAfter_set _ _
  · unfold addInt32
    exact wrapInt32_of_range _ (by omega) (by omega)
  · trivial

theorem batchLoop_regularFiles (folder : String) (files : List (String × Nat)) (k : Nat) :
    ∀ (i : Nat) (b : BatchState), i + k ≤ files.length →
      b.slots = slotsAfter (files.map regularFile) i →
      0 ≤ b.localDeleted → b.localDeleted + k < 2 ^ 31 →
      ((List.range' i k).foldl (DiskCleaner.deleteItemAt folder) b).slots
          = slotsAfter (files.map regularFile) (i + k) ∧
      ((List.range' i k).foldl (DiskCleaner.deleteItemAt folder) b).localDeleted
          = b.localDeleted + k ∧
      ((List.range' i k).foldl (DiskCleaner.deleteItemAt folder) b).localSkipped
          = b.localSkipped := by
  induction k with
  | zero =>
    intro i b _ hs _ _
    simp [hs]
  | succ k ih =>
    intro i b hik hs hd0 hd1
    have hstep := deleteItemAt_regularFile folder files b i (by omega) hs hd0 (by omega)
    obtain ⟨h1, h2, h3⟩ := hstep
    have hrec := ih (i + 1) (DiskCleaner.deleteItemAt folder b i) (by omega) h1
      (by omega) (by rw [h2]; push_cast at hd1 ⊢; omega)
    obtain ⟨r1, r2, r3⟩ := hrec
    simp only [List.range'_succ, List.foldl_cons]
    refine ⟨?_, ?_, ?_⟩
    · rw [r1]
      congr 1
      omega
    · rw [r2, h2]
      push_cast
      omega
    · rw [r3, h3]

theorem runBatch_regularFiles (folder : String) (files : List (String × Nat)) (i e : Nat)
    (st : DelState) (hie : i ≤ e) (hen : e ≤ files.length) (hn : files.length < 2 ^ 31)
    (hs : st.slots = slotsAfter (files.map regularFile) i)
    (hd : st.deleted = i) (hk : st.skipped = 0) :
    (runBatch (DiskCleaner.deleteItemAt folder) i e st).slots
        = slotsAfter (files.map regularFile) e ∧
    (runBatch (DiskCleaner.deleteItemAt folder) i e st).deleted = e ∧
    (runBatch (DiskCleaner.deleteItemAt folder) i e st).skipped = 0 := by
  have h := batchLoop_regularFiles folder files (e - i) i ⟨st.slots, st.journal, 0, 0⟩
    (by omega) hs (by simp) (by simp; omega)
  obtain ⟨h1, h2, h3⟩ := h
  have hie2 : i + (e - i) = e := by omega
  simp only [Int.zero_add] at h2 h3
  simp only [runBatch]
  refine ⟨?_, ?_, ?_⟩
  · rw [h1, hie2]
  · rw [h2, hd]
    unfold addInt32
    rw [wrapInt32_of_range _ (by omega) (by omega)]
    omega
  · rw [h3, hk]
    unfold addInt32
    exact wrapInt32_of_range _ (by omega) (by omega)

theorem joinLoop_ge (finish : Nat → Nat) (l : List Nat) :
    ∀ (t : Nat), t ≤ 30 → (∀ b ∈ l, finish b ≤ 30) →
      t ≤ joinLoop finish l t ∧ ∀ b ∈ l, finish b ≤ joinLoop finish l t := by
  induction l with
  | nil =>
    intro t _ _
    exact ⟨Nat.le_refl _, fun b hb => by simp at hb⟩
  | cons a rest ih =>
    intro t ht hall
    have ha : finish a ≤ 30 := hall a (by simp)
    have hmax : ¬ 30 < max t (finish a) := by omega
    have hrec := ih (max t (finish a)) (by omega) (fun b hb => hall b (by simp [hb]))
    simp only [joinLoop, hmax, if_false]
    refine ⟨by omega, ?_⟩
    intro b hb
    rcases List.mem_cons.mp hb with h | h
    · subst h
      omega
    · exact hrec.2 b h

theorem runWorkers_regularFiles (folder : String) (files : List (String × Nat)) (s : Nat)
    (finished : Nat → Bool) (progress : Nat → Nat)
    (hs1 : 1 ≤ s) (hn : files.length < 2 ^ 31) (fuel : Nat) :
    ∀ (i b0 : Nat) (st : DelState), files.length ≤ i + fuel →
      (∀ b, b0 ≤ b → b < b0 + (batchRanges s files.length fuel i).length → finished b = true) →
      st.slots = slotsAfter (files.map regularFile) (min i files.length) →
      st.deleted = (min i files.length : Nat) → st.skipped = 0 →
      (runWorkers (DiskCleaner.deleteItemAt folder) finished progress
          (batchRanges s files.length fuel i) b0 st).slots
          = slotsAfter (files.map regularFile) files.length ∧
      (runWorkers (DiskCleaner.deleteItemAt folder) finished progress
          (batchRanges s files.length fuel i) b0 st).deleted = files.length ∧
      (runWorkers (DiskCleaner.deleteItemAt folder) finished progress
          (batchRanges s files.length fuel i) b0 st).skipped = 0 := by
  induction fuel with
  | zero =>
    intro i b0 st hfuel _ hs hd hk
    have : min i files.length = files.length := by omega
    rw [this] at hs hd
    simp [batchRanges, runWorkers, hs, hd, hk]
  | succ fuel ih =>
    intro i b0 st hfuel hfin hs hd hk
    by_cases hi : i < files.length
    · have hmin : min i files.length = i := by omega
      rw [hmin] at hs hd
      have hb := runBatch_regularFiles folder files i (min (i + s) files.length) st
        (by omega) (by omega) hn hs hd hk
      obtain ⟨b1, b2, b3⟩ := hb
      have hlen : (batchRanges s files.length (fuel + 1) i).length
          = (batchRanges s files.length fuel (i + s)).length + 1 := by
        simp [batchRanges, hi]
      have hf0 : finished b0 = true := hfin b0 (Nat.le_refl _) (by omega)
      have := ih (i + s) (b0 + 1) (runBatch (DiskCleaner.deleteItemAt folder) i
        (min (i + s) files.length) st) (by omega)
        (fun b hb1 hb2 => hfin b (by omega) (by omega)) b1 b2 b3
      simpa [batchRanges, runWorkers, hi, hf0] using this
    · have hmin : min i files.length = files.length := by omega
      rw [hmin] at hs hd
      simp [batchRanges, runWorkers, hi, hs, hd, hk]

theorem clean_regularFiles (hw : Nat) (timing : BatchTiming) (fs : FileSystem)
    (folderPath itemName : String) (files : List (String × Nat)) (lockedA : Bool)
    (hfiles : files ≠ []) (hn : files.length < 2 ^ 31)
    (hsum : (files.map Prod.snd).sum < 2 ^ 64) (hw0 : 0 < hw) (hw1 : hw < 2 ^ 31)
    (htime : ∀ b, timing.finish b ≤ 30)
    (hA : fs.entries.lookup folderPath
      = some (.dir (files.map regularFile) false false lockedA none))
    (hbin : folderPath ≠ "RECYCLE_BIN") :
    ∃ fs1, DiskCleaner.DeleteFolderContentsParallel false hw timing fs folderPath itemName
        = some (⟨itemName, (files.map Prod.snd).sum, files.length, 0, true, ""⟩, fs1) ∧
      fs1.entries.lookup folderPath = some (.dir [] false false lockedA none) := by
  have hmt : ¬ (hw * 2 % 2 ^ 32 = 0) := by omega
  have hIs : DiskCleaner.IsDirectoryEmptyOrInaccessible fs folderPath = false := by
    simp [DiskCleaner.IsDirectoryEmptyOrInaccessible, hbin, fsExists, fsIsDirectory, openDir, hA,
      FsNode.statusFails, FsNode.isDir, hfiles]
  have hopen : openDir fs folderPath = some (files.map regularFile) := by
    simp [openDir, hA]
  have hfault : iterFault fs folderPath = none := by
    simp [iterFault, hA]
  have hbefore : GetFolderSize fs folderPath = (files.map Prod.snd).sum := by
    unfold GetFolderSize
    rw [hA]
    simp only [FsNode.walk, Bool.or_self, Bool.false_eq_true, if_false, List.append_nil]
    rw [walkList_regularFiles, sizeLoop_regularFiles _ _ (by norm_num)]
    omega
  have hlen : (files.map regularFile).length = files.length := by simp
  have hjoin := joinLoop_ge timing.finish
    (List.range (batchRanges (max 1 (files.length / (hw * 2 % 2 ^ 32)))
      files.length files.length 0).length) 0 (by omega) (fun b _ => htime b)
  have hL := runWorkers_regularFiles folderPath files
    (max 1 (files.length / (hw * 2 % 2 ^ 32)))
    (fun b => decide (timing.finish b ≤ joinLoop timing.finish
      (List.range (batchRanges (max 1 (files.length / (hw * 2 % 2 ^ 32)))
        files.length files.length 0).length) 0))
    timing.progress (by omega) hn files.length 0 0
    ⟨(files.map regularFile).map some, fs.journal, 0, 0⟩ (by omega)
    (fun b _ hb => by
      simp only [decide_eq_true_eq]
      exact hjoin.2 b (List.mem_range.mpr (by omega)))
    (by simp only [Nat.zero_min]; exact (slotsAfter_zero _).symm)
    (by simp) rfl
  obtain ⟨st, hst⟩ : ∃ st, st = runWorkers (DiskCleaner.deleteItemAt folderPath)
      (fun b => decide (timing.finish b ≤ joinLoop timing.finish
        (List.range (batchRanges (max 1 (files.length / (hw * 2 % 2 ^ 32)))
          files.length files.length 0).length) 0))
      timing.progress
      (batchRanges (max 1 (files.length / (hw * 2 % 2 ^ 32))) files.length files.length 0) 0
      ⟨(files.map regularFile).map some, fs.journal, 0, 0⟩ := ⟨_, rfl⟩
  rw [← hst] at hL
  obtain ⟨l1, l2, l3⟩ := hL
  have hall := slotsAfter_all (files.map regularFile)
  rw [hlen] at hall
  have hafterLookup : (commitDeletion fs folderPath st).entries.lookup folderPath
      = some (.dir [] false false lockedA none) := by
    simp only [commitDeletion]
    rw [l1, hall]
    exact lookup_replaceChildren _ _ _ _ _ _ _ _ hA
  have hafter : GetFolderSize (commitDeletion fs folderPath st) folderPath = 0 := by
    unfold GetFolderSize
    rw [hafterLookup]
    simp [FsNode.walk, walkList, sizeLoop]
  have hsub : subU64 (files.map Prod.snd).sum 0 = (files.map Prod.snd).sum := by
    unfold subU64
    omega
  refine ⟨commitDeletion fs folderPath st, ?_, hafterLookup⟩
  unfold DiskCleaner.DeleteFolderContentsParallel
  simp only [hIs, hbin, Bool.false_eq_true, if_false, hfault, hmt, hopen, Option.getD_some,
    hlen]
  rw [← hst, hafter, hbefore, l2, l3, hsub]

theorem monitorLoop_finished (selectedItems : List CleanupItem) (taskResults : List CleanupResult)
    (polls : List DiskCleaner.Poll) (st : DiskCleaner.MonitorState)
    (h : ¬ st.completedCount < wrapInt32 selectedItems.length) :
    DiskCleaner.monitorLoop selectedItems taskResults polls st = some st := by
  cases polls with
  | nil => simp [DiskCleaner.monitorLoop, h]
  | cons p rest => simp [DiskCleaner.monitorLoop, h]

theorem monitorLoop_single (item : CleanupItem) (r : CleanupResult)
    (polls : List DiskCleaner.Poll) :
    ∀ (k : Nat), k < polls.length →
      (polls.getD k ⟨[], 0⟩).taskDoneFlags.getD 0 false = true →
      (∀ j, j < k → (polls.getD j ⟨[], 0⟩).elapsed ≤ 15) →
      DiskCleaner.monitorLoop [item] [r] polls ⟨[], 0, [false]⟩ = some ⟨[r], 1, [true]⟩ := by
  have hone : wrapInt32 (([item] : List CleanupItem).length : Nat) = 1 := by
    simp [wrapInt32]
  have hone1 : wrapInt32 1 = 1 := by simp [wrapInt32]
  have hadd : addInt32 0 1 = 1 := by simp [addInt32, wrapInt32]
  induction polls with
  | nil => intro k hk; simp at hk
  | cons p rest ih =>
    intro k hk hdone hearly
    have hcond : (0 : Int) < wrapInt32 (([item] : List CleanupItem).length : Nat) := by
      rw [hone]; decide
    by_cases hd : p.taskDoneFlags.getD 0 false = true
    · have hd1 : p.taskDoneFlags[0]?.getD false = true := by
        simpa [List.getD_eq_getElem?_getD] using hd
      have hfin : ¬ ((1 : Int) < wrapInt32 (([item] : List CleanupItem).length : Nat)) := by
        rw [hone]; decide
      have hrest := monitorLoop_finished [item] [r] rest ⟨[r], 1, [true]⟩ hfin
      by_cases he : 15 < p.elapsed
      · simp [DiskCleaner.monitorLoop, DiskCleaner.monitorIteration, hcond, List.range_succ,
          DiskCleaner.pollTask, DiskCleaner.timeoutTask, hd1, he, hadd, hone1]
      · simp [DiskCleaner.monitorLoop, DiskCleaner.monitorIteration, hcond, List.range_succ,
          DiskCleaner.pollTask, hd1, he, hadd, hrest, hone1]
    · have hd1 : ¬ p.taskDoneFlags[0]?.getD false = true := by
        simpa [List.getD_eq_getElem?_getD] using hd
      cases k with
      | zero =>
        simp only [List.getD_cons_zero] at hdone
        exact absurd hdone hd
      | succ k =>
        have he : ¬ 15 < p.elapsed := by
          have := hearly 0 (by omega)
          simp only [List.getD_cons_zero] at this
          omega
        have hrec := ih k (by simpa using hk) (by simpa using hdone)
          (fun j hj => by simpa using hearly (j + 1) (by omega))
        simp [DiskCleaner.monitorLoop, DiskCleaner.monitorIteration, hcond, List.range_succ,
          DiskCleaner.pollTask, hd1, he, hrec, hone1]

theorem emptyDir_isEmptyOrInaccessible (fs : FileSystem) (p : String) (sf d l : Bool)
    (thr : Option String) (hbin : p ≠ "RECYCLE_BIN")
    (h : fs.entries.lookup p = some (.dir [] sf d l thr)) :
    DiskCleaner.IsDirectoryEmptyOrInaccessible fs p = true := by
  cases sf <;> cases d <;>
    simp [DiskCleaner.IsDirectoryEmptyOrInaccessible, hbin, fsExists, fsIsDirectory, openDir, h,
      FsNode.statusFails, FsNode.isDir]

/-- C5, the claim at three concrete inputs.  (1) The three files of `C:\A`
(300 bytes) are handled by three workers of which the third is still running
when the waiting loop is left after 31 seconds: the outcome has
`filesDeleted = 2` and `bytesRemoved = 250`.  (2) A single removable file of
100 bytes whose size query reports an error: `filesDeleted = 1` and
`bytesRemoved = 0`.  (3) The run over `C:\A` and the empty `C:\B` whose one
task needs 20 seconds and is not seen done at the pass after the 15-second
deadline: the outcome recorded is the time-out and the summary total is 0. -/
theorem C5_counterexample :
    (DiskCleaner.DeleteFolderContentsParallel false 4 Example.lateThird Example.fs "C:\\A"
        "A").map (fun x => (x.1.filesDeleted, x.1.bytesRemoved)) = some (2, 250) ∧
    (DiskCleaner.DeleteFolderContentsParallel false 4 Example.quick Example.fsUnreadable "C:\\U"
        "U").map (fun x => (x.1.filesDeleted, x.1.filesSkipped, x.1.bytesRemoved, x.1.success))
      = some (1, 0, 0, true) ∧
    (DiskCleaner.StartParallelCleanup false 4 (fun _ => Example.steady)
        [Example.itemA, Example.itemB] Example.fs true [Example.lateSinglePoll]).map
        (fun rep => (rep.results, rep.summary.map (fun s => s.totalRemoved)))
      = some ([⟨"A", 0, 0, 0, false, "Timeout"⟩], some 0) := by
  decide

/-- C5 (amended). A directory target whose children are `n >= 1` regular files
whose type and size can be read and that can be removed is cleaned in real
mode, when every deletion worker finishes within the 30-second cap, with
`filesDeleted = n`, `filesSkipped = 0`, `bytesRemoved` = the sum of the file
sizes and `success = true`; and a run over that target and an empty directory
whose task is seen complete at a pass of the monitoring loop before the
15-second deadline reports that sum as its total of bytes reclaimed.  (`n` and
the sum are representable and the hardware concurrency is usable.) -/
theorem C5_regular_files_all_removed (hw : Nat) (timings : Nat → BatchTiming)
    (fs : FileSystem) (itemA itemB : CleanupItem)
    (files : List (String × Nat)) (lockedA sfB dB lB : Bool) (thrB : Option String)
    (hfiles : files ≠ []) (hn : files.length < 2 ^ 31)
    (hsum : (files.map Prod.snd).sum < 2 ^ 64) (hw0 : 0 < hw) (hw1 : hw < 2 ^ 31)
    (htime : ∀ b, (timings 0).finish b ≤ 30)
    (hA : fs.entries.lookup itemA.path
      = some (.dir (files.map regularFile) false false lockedA none))
    (hB : fs.entries.lookup itemB.path = some (.dir [] sfB dB lB thrB))
    (hAbin : itemA.path ≠ "RECYCLE_BIN") (hBbin : itemB.path ≠ "RECYCLE_BIN")
    (hAen : itemA.enabled = true) (hBen : itemB.enabled = true) :
    (∃ fs1,
      DiskCleaner.DeleteFolderContentsParallel false hw (timings 0) fs itemA.path itemA.name
        = some (⟨itemA.name, (files.map Prod.snd).sum, files.length, 0, true, ""⟩, fs1)) ∧
    (∀ (polls : List DiskCleaner.Poll) (k : Nat), k < polls.length →
      (polls.getD k ⟨[], 0⟩).taskDoneFlags.getD 0 false = true →
      (∀ j, j < k → (polls.getD j ⟨[], 0⟩).elapsed ≤ 15) →
      ∃ rep s,
        DiskCleaner.StartParallelCleanup false hw timings [itemA, itemB] fs true polls
          = some rep ∧
        rep.results = [⟨itemA.name, (files.map Prod.snd).sum, files.length, 0, true, ""⟩] ∧
        rep.summary = some s ∧ s.totalRemoved = (files.map Prod.snd).sum) := by
  obtain ⟨fs1, hclean, _⟩ := clean_regularFiles hw (timings 0) fs itemA.path itemA.name files
    lockedA hfiles hn hsum hw0 hw1 htime hA hAbin
  refine ⟨⟨fs1, hclean⟩, ?_⟩
  intro polls k hk hdone hearly
  have hIsA : DiskCleaner.IsDirectoryEmptyOrInaccessible fs itemA.path = false := by
    simp [DiskCleaner.IsDirectoryEmptyOrInaccessible, hAbin, fsExists, fsIsDirectory, openDir, hA,
      FsNode.statusFails, FsNode.isDir, hfiles]
  have hIsB := emptyDir_isEmptyOrInaccessible fs itemB.path sfB dB lB thrB hBbin hB
  have hlaunch : DiskCleaner.launchTargets fs [itemA, itemB] true = [itemA] := by
    simp [DiskCleaner.launchTargets, List.filter, hAen, hBen, hIsA, hIsB]
  have hmon := monitorLoop_single itemA
    ⟨itemA.name, (files.map Prod.snd).sum, files.length, 0, true, ""⟩ polls k hk hdone hearly
  have htot : addU64 0 (files.map Prod.snd).sum = (files.map Prod.snd).sum := by
    unfold addU64
    omega
  have hrun : DiskCleaner.StartParallelCleanup false hw timings [itemA, itemB] fs true polls
      = some ⟨[itemA],
          [⟨itemA.name, (files.map Prod.snd).sum, files.length, 0, true, ""⟩],
          some (summarize [⟨itemA.name, (files.map Prod.snd).sum, files.length, 0, true, ""⟩]),
          fs1⟩ := by
    unfold DiskCleaner.StartParallelCleanup
    simp only [hlaunch, List.isEmpty_cons, Bool.false_eq_true, if_false, runTasks, hclean,
      List.zip_cons_cons, List.zip_nil_right, List.map_cons, List.map_nil,
      DiskCleaner.unitOfWork, List.length_singleton, List.replicate_one, hmon]
  refine ⟨_, _, hrun, rfl, rfl, ?_⟩
  simp [summarize, addToSummary, htot]

/-- C5, instance (the example of the specification): three files totalling 300
bytes give `filesDeleted = 3`, `bytesRemoved = 300` and a summary total of 300. -/
theorem C5_witness :
    (∃ fs1, DiskCleaner.DeleteFolderContentsParallel false 4 Example.quick Example.fs "C:\\A" "A"
        = some (⟨"A", 300, 3, 0, true, ""⟩, fs1)) ∧
    (∃ rep s, DiskCleaner.StartParallelCleanup false 4 (fun _ => Example.quick)
        [Example.itemA, Example.itemB] Example.fs true [Example.promptPoll] = some rep ∧
      rep.results = [⟨"A", 300, 3, 0, true, ""⟩] ∧
      rep.summary = some s ∧ s.totalRemoved = 300) :=
  have h := C5_regular_files_all_removed 4 (fun _ => Example.quick) Example.fs Example.itemA
    Example.itemB Example.threeFiles false false false false none (by decide)
    (by decide) (by decide) (by decide) (by decide) (fun _ => Nat.zero_le 30) rfl rfl (by decide)
    (by decide) rfl rfl
  ⟨h.1, h.2 [Example.promptPoll] 0 (by decide) (by decide)
    (fun j hj => absurd hj (Nat.not_lt_zero j))⟩

/-! ## C6: the persisted catalog -/


theorem recordLine_eq_body (item : CleanupItem) :
    DiskCleaner.recordLine item = DiskCleaner.recordBody item ++ [ '\n'] := by
  simp [DiskCleaner.recordLine, DiskCleaner.recordBody]

theorem linesAux_append_newline (xs : List Char) :
    ∀ (cur ys : List Char),
      DiskCleaner.linesAux (xs ++ '\n' :: ys) cur
        = DiskCleaner.linesAux (xs ++ [ '\n']) cur ++ DiskCleaner.linesAux ys [] := by
  induction xs with
  | nil =>
    intro cur ys
    simp [DiskCleaner.linesAux]
  | cons c rest ih =>
    intro cur ys
    by_cases hc : c = '\n'
    · simp only [List.cons_append, DiskCleaner.linesAux, hc, if_true]
      exact congrArg (fun t => cur :: t) (ih [] ys)
    · simp only [List.cons_append, DiskCleaner.linesAux, hc, if_false]
      exact ih (cur ++ [c]) ys

theorem linesAux_clean (xs : List Char) :
    ∀ (cur : List Char), '\n' ∉ xs →
      DiskCleaner.linesAux (xs ++ [ '\n']) cur = [cur ++ xs] := by
  induction xs with
  | nil =>
    intro cur _
    simp [DiskCleaner.linesAux]
  | cons c rest ih =>
    intro cur hc
    have h1 : c ≠ '\n' := fun h => hc (by simp [h])
    have h2 : '\n' ∉ rest := fun h => hc (by simp [h])
    simp [DiskCleaner.linesAux, h1, ih _ h2]

theorem splitAtDelim_found (d : Char) (f rest : List Char) (hf : d ∉ f) :
    DiskCleaner.splitAtDelim d (f ++ d :: rest) = (f, some rest) := by
  induction f with
  | nil => simp [DiskCleaner.splitAtDelim]
  | cons c cs ih =>
    have h1 : c ≠ d := fun h => hf (by simp [h])
    have h2 : d ∉ cs := fun h => hf (by simp [h])
    simp [DiskCleaner.splitAtDelim, h1, ih h2]

theorem getline_found (d : Char) (f rest : List Char) (hf : d ∉ f) :
    DiskCleaner.getline d (some (f ++ d :: rest)) = some (f, some rest) := by
  unfold DiskCleaner.getline
  simp only [splitAtDelim_found d f rest hf]

theorem parseRecord_recordBody (item : CleanupItem)
    (hn : '|' ∉ item.name.data) (hp : '|' ∉ item.path.data)
    (hd : '|' ∉ item.description.data) :
    DiskCleaner.parseRecord (DiskCleaner.recordBody item)
      = some (item.name, item.path, item.description, if item.enabled then "1" else "0") := by
  unfold DiskCleaner.parseRecord DiskCleaner.recordBody
  rw [getline_found _ _ _ hn]
  simp only
  rw [getline_found _ _ _ hp]
  simp only
  have : item.description.data ++ [ '|', if item.enabled then '1' else '0']
      = item.description.data ++ '|' :: [if item.enabled = true then '1' else '0'] := rfl
  rw [this, getline_found _ _ _ hd]
  cases item.enabled <;> rfl

theorem recordBody_mem_lines (e : CleanupItem) (hclean : '\n' ∉ DiskCleaner.recordBody e)
    (hc : e.isCustom = true) (items : List CleanupItem) (hin : e ∈ items) :
    DiskCleaner.recordBody e ∈ DiskCleaner.linesAux (DiskCleaner.saveLoop items) [] := by
  induction items with
  | nil => simp at hin
  | cons item rest ih =>
    by_cases hcustom : item.isCustom = true
    · simp only [DiskCleaner.saveLoop, hcustom, if_true, recordLine_eq_body, List.append_assoc,
        List.singleton_append]
      rw [linesAux_append_newline]
      rcases List.mem_cons.mp hin with h | h
      · subst h
        rw [linesAux_clean _ _ hclean]
        simp
      · exact List.mem_append_right _ (ih h)
    · simp only [DiskCleaner.saveLoop, hcustom, Bool.false_eq_true, if_false]
      rcases List.mem_cons.mp hin with h | h
      · subst h
        exact absurd hc hcustom
      · exact ih h

theorem loadLoop_collects (fs : FileSystem) (hq : ∀ p, fsExists fs p ≠ none)
    (lines : List (List Char)) :
    ∀ (base : List CleanupItem), ∃ loaded, DiskCleaner.loadLoop fs lines base = some loaded ∧
      (∀ x ∈ base, x ∈ loaded) ∧
      (∀ line ∈ lines, ∀ n p d s, DiskCleaner.parseRecord line = some (n, p, d, s) →
        fsExists fs p = some true → (⟨n, p, d, s == "1", false, true, 0⟩ : CleanupItem) ∈ loaded) := by
  induction lines with
  | nil =>
    intro base
    exact ⟨base, rfl, fun x hx => hx, fun line hl => by simp at hl⟩
  | cons line rest ih =>
    intro base
    cases hparse : DiskCleaner.parseRecord line with
    | none =>
      obtain ⟨loaded, hl, hb, hr⟩ := ih base
      refine ⟨loaded, ?_, hb, ?_⟩
      · simp [DiskCleaner.loadLoop, DiskCleaner.loadLine, hparse, hl]
      · intro l hlmem n p d s hp hex
        rcases List.mem_cons.mp hlmem with h | h
        · subst h
          rw [hparse] at hp
          cases hp
        · exact hr l h n p d s hp hex
    | some rec =>
      obtain ⟨n0, p0, d0, s0⟩ := rec
      cases hex0 : fsExists fs p0 with
      | none => exact absurd hex0 (hq p0)
      | some b =>
        cases b with
        | true =>
          obtain ⟨loaded, hl, hb, hr⟩ :=
            ih (base ++ [⟨n0, p0, d0, s0 == "1", false, true, 0⟩])
          refine ⟨loaded, ?_, fun x hx => hb x (List.mem_append_left _ hx), ?_⟩
          · simp [DiskCleaner.loadLoop, DiskCleaner.loadLine, hparse, hex0, hl]
          · intro l hlmem n p d s hp hex
            rcases List.mem_cons.mp hlmem with h | h
            · subst h
              rw [hparse] at hp
              simp only [Option.some.injEq, Prod.mk.injEq] at hp
              obtain ⟨rfl, rfl, rfl, rfl⟩ := hp
              exact hb _ (by simp)
            · exact hr l h n p d s hp hex
        | false =>
          obtain ⟨loaded, hl, hb, hr⟩ := ih base
          refine ⟨loaded, ?_, hb, ?_⟩
          · simp [DiskCleaner.loadLoop, DiskCleaner.loadLine, hparse, hex0, hl]
          · intro l hlmem n p d s hp hex
            rcases List.mem_cons.mp hlmem with h | h
            · subst h
              rw [hparse] at hp
              simp only [Option.some.injEq, Prod.mk.injEq] at hp
              obtain ⟨rfl, rfl, rfl, rfl⟩ := hp
              rw [hex0] at hex
              cases hex
            · exact hr l h n p d s hp hex

theorem splitAtDelim_field (d : Char) (l : List Char) :
    d ∉ (DiskCleaner.splitAtDelim d l).1 ∧
    (∀ c ∈ (DiskCleaner.splitAtDelim d l).1, c ∈ l) ∧
    (∀ rest, (DiskCleaner.splitAtDelim d l).2 = some rest → ∀ c ∈ rest, c ∈ l) := by
  induction l with
  | nil => simp [DiskCleaner.splitAtDelim]
  | cons a as ih =>
    obtain ⟨h1, h2, h3⟩ := ih
    by_cases ha : a = d
    · simp only [DiskCleaner.splitAtDelim, ha, if_true]
      refine ⟨by simp, by simp, ?_⟩
      intro rest hrest c hc
      simp only [Option.some.injEq] at hrest
      rw [← hrest] at hc
      exact List.mem_cons_of_mem _ hc
    · simp only [DiskCleaner.splitAtDelim, ha, if_false]
      refine ⟨?_, ?_, ?_⟩
      · intro hmem
        rcases List.mem_cons.mp hmem with h | h
        · exact ha h.symm
        · exact h1 h
      · intro c hc
        rcases List.mem_cons.mp hc with h | h
        · rw [h]
          exact List.mem_cons_self _ _
        · exact List.mem_cons_of_mem _ (h2 c h)
      · intro rest hrest c hc
        exact List.mem_cons_of_mem _ (h3 rest hrest c hc)

theorem getline_field (d : Char) (l field : List Char) (stream : Option (List Char))
    (h : DiskCleaner.getline d (some l) = some (field, stream)) :
    d ∉ field ∧ (∀ c ∈ field, c ∈ l) ∧ (∀ rest, stream = some rest → ∀ c ∈ rest, c ∈ l) := by
  have hs := splitAtDelim_field d l
  unfold DiskCleaner.getline at h
  simp only at h
  split at h
  · cases h
  · rename_i f r heq
    simp only [Option.some.injEq, Prod.mk.injEq] at h
    obtain ⟨rfl, rfl⟩ := h
    rw [heq] at hs
    exact hs

theorem parseRecord_fields (line : List Char) (n p d s : String)
    (h : DiskCleaner.parseRecord line = some (n, p, d, s)) :
    ('|' ∉ n.data ∧ ∀ c ∈ n.data, c ∈ line) ∧
    ('|' ∉ p.data ∧ ∀ c ∈ p.data, c ∈ line) ∧
    ('|' ∉ d.data ∧ ∀ c ∈ d.data, c ∈ line) := by
  unfold DiskCleaner.parseRecord at h
  cases h1 : DiskCleaner.getline '|' (some line) with
  | none => simp [h1] at h
  | some r1 =>
    obtain ⟨f1, s1⟩ := r1
    obtain ⟨a1, a2, a3⟩ := getline_field '|' line f1 s1 h1
    simp only [h1] at h
    cases s1 with
    | none => simp [DiskCleaner.getline] at h
    | some l1 =>
      cases h2 : DiskCleaner.getline '|' (some l1) with
      | none => simp [h2] at h
      | some r2 =>
        obtain ⟨f2, s2⟩ := r2
        obtain ⟨b1, b2, b3⟩ := getline_field '|' l1 f2 s2 h2
        simp only [h2] at h
        cases s2 with
        | none => simp [DiskCleaner.getline] at h
        | some l2 =>
          cases h3 : DiskCleaner.getline '|' (some l2) with
          | none => simp [h3] at h
          | some r3 =>
            obtain ⟨f3, s3⟩ := r3
            obtain ⟨c1, c2, _⟩ := getline_field '|' l2 f3 s3 h3
            simp only [h3] at h
            cases h4 : DiskCleaner.getline '\n' s3 with
            | none => simp [h4] at h
            | some r4 =>
              simp only [h4, Option.some.injEq, Prod.mk.injEq] at h
              obtain ⟨rfl, rfl, rfl, _⟩ := h
              have hl1 : ∀ c ∈ l1, c ∈ line := a3 l1 rfl
              have hl2 : ∀ c ∈ l2, c ∈ l1 := b3 l2 rfl
              exact ⟨⟨a1, a2⟩, ⟨b1, fun c hc => hl1 c (b2 c hc)⟩,
                ⟨c1, fun c hc => hl1 c (hl2 c (c2 c hc))⟩⟩

theorem linesAux_no_newline (text : List Char) :
    ∀ (cur : List Char), '\n' ∉ cur → ∀ line ∈ DiskCleaner.linesAux text cur, '\n' ∉ line := by
  induction text with
  | nil =>
    intro cur hcur line hline
    simp only [DiskCleaner.linesAux] at hline
    split at hline
    · simp at hline
    · simp only [List.mem_singleton] at hline
      rw [hline]
      exact hcur
  | cons c cs ih =>
    intro cur hcur line hline
    simp only [DiskCleaner.linesAux] at hline
    split at hline
    · rcases List.mem_cons.mp hline with h | h
      · rw [h]
        exact hcur
      · exact ih [] (by simp) line h
    · rename_i hc
      refine ih (cur ++ [c]) ?_ line hline
      intro hmem
      rcases List.mem_append.mp hmem with h | h
      · exact hcur h
      · simp only [List.mem_singleton] at h
        exact hc h.symm

theorem loadLoop_fields (fs : FileSystem) (lines : List (List Char))
    (hlines : ∀ line ∈ lines, '\n' ∉ line) :
    ∀ (base loaded : List CleanupItem), DiskCleaner.loadLoop fs lines base = some loaded →
      ∀ x ∈ loaded, x ∈ base ∨
        (x.isCustom = true ∧ ('|' ∉ x.name.data ∧ '\n' ∉ x.name.data) ∧
          ('|' ∉ x.path.data ∧ '\n' ∉ x.path.data) ∧
          ('|' ∉ x.description.data ∧ '\n' ∉ x.description.data)) := by
  induction lines with
  | nil =>
    intro base loaded h x hx
    simp only [DiskCleaner.loadLoop, Option.some.injEq] at h
    rw [← h] at hx
    exact Or.inl hx
  | cons line rest ih =>
    intro base loaded h x hx
    have hrest : ∀ l ∈ rest, '\n' ∉ l := fun l hl => hlines l (List.mem_cons_of_mem _ hl)
    have hline : '\n' ∉ line := hlines line (List.mem_cons_self _ _)
    simp only [DiskCleaner.loadLoop] at h
    cases hl : DiskCleaner.loadLine fs base line with
    | none => simp [hl] at h
    | some items1 =>
      simp only [hl] at h
      rcases ih hrest items1 loaded h x hx with hmem | hfree
      · unfold DiskCleaner.loadLine at hl
        cases hp : DiskCleaner.parseRecord line with
        | none =>
          simp only [hp, Option.some.injEq] at hl
          rw [← hl] at hmem
          exact Or.inl hmem
        | some rec =>
          obtain ⟨n, p, d, s⟩ := rec
          obtain ⟨⟨n1, n2⟩, ⟨p1, p2⟩, ⟨d1, d2⟩⟩ := parseRecord_fields line n p d s hp
          simp only [hp] at hl
          split at hl
          · cases hl
          · simp only [Option.some.injEq] at hl
            rw [← hl] at hmem
            rcases List.mem_append.mp hmem with hb | hnew
            · exact Or.inl hb
            · simp only [List.mem_singleton] at hnew
              rw [hnew]
              exact Or.inr ⟨rfl, ⟨n1, fun hc => hline (n2 _ hc)⟩, ⟨p1, fun hc => hline (p2 _ hc)⟩,
                ⟨d1, fun hc => hline (d2 _ hc)⟩⟩
          · simp only [Option.some.injEq] at hl
            rw [← hl] at hmem
            exact Or.inl hmem
      · exact Or.inr hfree

theorem LoadCustomDirectories_fields (fs : FileSystem) (base loaded : List CleanupItem)
    (h : DiskCleaner.LoadCustomDirectories fs base = some loaded) :
    ∀ x ∈ loaded, x ∈ base ∨
      (x.isCustom = true ∧ ('|' ∉ x.name.data ∧ '\n' ∉ x.name.data) ∧
        ('|' ∉ x.path.data ∧ '\n' ∉ x.path.data) ∧
        ('|' ∉ x.description.data ∧ '\n' ∉ x.description.data)) := by
  unfold DiskCleaner.LoadCustomDirectories at h
  split at h
  · simp only [Option.some.injEq] at h
    rw [← h]
    exact fun x hx => Or.inl hx
  · rename_i text _
    exact loadLoop_fields fs _ (linesAux_no_newline text [] (by simp)) base loaded h

theorem AddCustomDirectory_fields (filename : String → String) (fs : FileSystem)
    (cleanupItems : List CleanupItem) (pathStr : String)
    (hpath : '|' ∉ pathStr.data ∧ '\n' ∉ pathStr.data)
    (hfile : ∀ c ∈ (filename pathStr).data, c ∈ pathStr.data) :
    ∀ x ∈ (DiskCleaner.AddCustomDirectory filename fs cleanupItems (some pathStr)).1,
      x ∈ cleanupItems ∨
        (x.isCustom = true ∧ ('|' ∉ x.name.data ∧ '\n' ∉ x.name.data) ∧
          ('|' ∉ x.path.data ∧ '\n' ∉ x.path.data) ∧
          ('|' ∉ x.description.data ∧ '\n' ∉ x.description.data)) := by
  intro x hx
  unfold DiskCleaner.AddCustomDirectory at hx
  simp only at hx
  split at hx
  · rcases List.mem_append.mp hx with h | h
    · exact Or.inl h
    · simp only [List.mem_singleton] at h
      have hname : '|' ∉ (if (filename pathStr).isEmpty then pathStr else filename pathStr).data ∧
          '\n' ∉ (if (filename pathStr).isEmpty then pathStr else filename pathStr).data := by
        split
        · exact hpath
        · exact ⟨fun hc => hpath.1 (hfile _ hc), fun hc => hpath.2 (hfile _ hc)⟩
      have hlit1 : '|' ∉ "Custom directory: ".data := by decide
      have hlit2 : '\n' ∉ "Custom directory: ".data := by decide
      rw [h]
      refine Or.inr ⟨rfl, hname, hpath, ?_, ?_⟩
      · simp only [String.data_append, List.mem_append, not_or]
        exact ⟨hlit1, hname.1⟩
      · simp only [String.data_append, List.mem_append, not_or]
        exact ⟨hlit2, hname.2⟩
  · exact Or.inl hx

theorem RemoveSelectedDirectory_subset (fs : FileSystem) (cleanupItems : List CleanupItem)
    (selectedIndex : Option Nat) (confirmed : Bool) :
    ∀ x ∈ (DiskCleaner.RemoveSelectedDirectory fs cleanupItems selectedIndex confirmed).1,
      x ∈ cleanupItems := by
  intro x hx
  unfold DiskCleaner.RemoveSelectedDirectory at hx
  split at hx
  · exact hx
  · split at hx
    · simp only at hx
      split at hx
      · exact hx
      · split at hx
        · exact List.mem_of_mem_eraseIdx hx
        · exact hx
    · exact hx

theorem loadLoop_mem_of_some (fs : FileSystem) (lines : List (List Char)) :
    ∀ (base loaded : List CleanupItem), DiskCleaner.loadLoop fs lines base = some loaded →
      (∀ x ∈ base, x ∈ loaded) ∧
      (∀ line ∈ lines, ∀ n p d s, DiskCleaner.parseRecord line = some (n, p, d, s) →
        fsExists fs p = some true →
        (⟨n, p, d, s == "1", false, true, 0⟩ : CleanupItem) ∈ loaded) := by
  induction lines with
  | nil =>
    intro base loaded h
    simp only [DiskCleaner.loadLoop, Option.some.injEq] at h
    rw [← h]
    exact ⟨fun x hx => hx, fun line hl => by simp at hl⟩
  | cons line rest ih =>
    intro base loaded h
    simp only [DiskCleaner.loadLoop] at h
    cases hl : DiskCleaner.loadLine fs base line with
    | none => simp [hl] at h
    | some items1 =>
      simp only [hl] at h
      obtain ⟨hb, hr⟩ := ih items1 loaded h
      unfold DiskCleaner.loadLine at hl
      cases hp : DiskCleaner.parseRecord line with
      | none =>
        simp only [hp, Option.some.injEq] at hl
        rw [← hl] at hb
        refine ⟨hb, ?_⟩
        intro l hlmem n p d s hpl hex
        rcases List.mem_cons.mp hlmem with h1 | h1
        · rw [h1, hp] at hpl
          cases hpl
        · exact hr l h1 n p d s hpl hex
      | some rec =>
        obtain ⟨n0, p0, d0, s0⟩ := rec
        simp only [hp] at hl
        cases hex0 : fsExists fs p0 with
        | none => simp [hex0] at hl
        | some found =>
          cases found with
          | true =>
            simp only [hex0, Option.some.injEq] at hl
            rw [← hl] at hb
            refine ⟨fun x hx => hb x (List.mem_append_left _ hx), ?_⟩
            intro l hlmem n p d s hpl hex
            rcases List.mem_cons.mp hlmem with h1 | h1
            · rw [h1, hp] at hpl
              simp only [Option.some.injEq, Prod.mk.injEq] at hpl
              obtain ⟨rfl, rfl, rfl, rfl⟩ := hpl
              exact hb _ (by simp)
            · exact hr l h1 n p d s hpl hex
          | false =>
            simp only [hex0, Option.some.injEq] at hl
            rw [← hl] at hb
            refine ⟨hb, ?_⟩
            intro l hlmem n p d s hpl hex
            rcases List.mem_cons.mp hlmem with h1 | h1
            · rw [h1, hp] at hpl
              simp only [Option.some.injEq, Prod.mk.injEq] at hpl
              obtain ⟨rfl, rfl, rfl, rfl⟩ := hpl
              rw [hex0] at hex
              cases hex
            · exact hr l h1 n p d s hpl hex

/-- C6. A custom entry of the catalog whose path exists is found again after
the catalog has been written with `SaveCustomDirectories` (the file being
opened for writing) and read back with `LoadCustomDirectories`: every load
that completes holds an entry with the same name, path, description and enabled
flag, and the load completes when no path query throws.  The fields of the
entry hold neither the separator `'|'` nor a line break: a custom entry is only
ever made by `LoadCustomDirectories`, which cuts the fields at these
characters (`LoadCustomDirectories_fields`), or by `AddCustomDirectory` from a
path handed over by the folder dialog (`AddCustomDirectory_fields`). -/
theorem C6_custom_entry_survives_save_and_load (fs : FileSystem)
    (cleanupItems base : List CleanupItem) (e : CleanupItem)
    (hin : e ∈ cleanupItems) (hcustom : e.isCustom = true)
    (hexists : fsExists fs e.path = some true)
    (hname : '|' ∉ e.name.data ∧ '\n' ∉ e.name.data)
    (hpath : '|' ∉ e.path.data ∧ '\n' ∉ e.path.data)
    (hdesc : '|' ∉ e.description.data ∧ '\n' ∉ e.description.data)
    (hwritable : fs.customDirsWritable = true) :
    (∀ loaded,
      DiskCleaner.LoadCustomDirectories (DiskCleaner.SaveCustomDirectories fs cleanupItems) base
        = some loaded →
      ∃ e1 ∈ loaded, e1.name = e.name ∧ e1.path = e.path ∧ e1.description = e.description ∧
        e1.enabled = e.enabled ∧ e1.isCustom = true) ∧
    ((∀ p, fsExists fs p ≠ none) →
      ∃ loaded,
        DiskCleaner.LoadCustomDirectories (DiskCleaner.SaveCustomDirectories fs cleanupItems) base
          = some loaded) := by
  have hclean : '\n' ∉ DiskCleaner.recordBody e := by
    unfold DiskCleaner.recordBody
    cases e.enabled <;> simp [hname.2, hpath.2, hdesc.2]
  have hmem := recordBody_mem_lines e hclean hcustom cleanupItems hin
  have hparse := parseRecord_recordBody e hname.1 hpath.1 hdesc.1
  have hload : ∀ loaded,
      DiskCleaner.LoadCustomDirectories (DiskCleaner.SaveCustomDirectories fs cleanupItems) base
        = some loaded →
      DiskCleaner.loadLoop (DiskCleaner.SaveCustomDirectories fs cleanupItems)
        (DiskCleaner.linesAux (DiskCleaner.saveLoop cleanupItems) []) base = some loaded := by
    intro loaded h
    simpa [DiskCleaner.LoadCustomDirectories, DiskCleaner.SaveCustomDirectories, hwritable]
      using h
  constructor
  · intro loaded h
    obtain ⟨_, hr⟩ := loadLoop_mem_of_some _ _ base loaded (hload loaded h)
    refine ⟨_, hr _ hmem _ _ _ _ hparse hexists, rfl, rfl, rfl, ?_, rfl⟩
    cases e.enabled <;> simp
  · intro hq
    have hq1 : ∀ p, fsExists (DiskCleaner.SaveCustomDirectories fs cleanupItems) p ≠ none := hq
    obtain ⟨loaded, hl, _, _⟩ := loadLoop_collects
      (DiskCleaner.SaveCustomDirectories fs cleanupItems) hq1
      (DiskCleaner.linesAux (DiskCleaner.saveLoop cleanupItems) []) base
    refine ⟨loaded, ?_⟩
    simp only [DiskCleaner.LoadCustomDirectories, DiskCleaner.SaveCustomDirectories, hwritable,
      if_true]
    simpa [DiskCleaner.SaveCustomDirectories, hwritable] using hl

/-- C6, instance: the entry `A` of the example catalog is read back. -/
theorem C6_witness :
    ∃ loaded,
      DiskCleaner.LoadCustomDirectories
        (DiskCleaner.SaveCustomDirectories Example.fs [Example.itemOff, Example.itemA]) []
        = some loaded ∧
      ∃ e1 ∈ loaded, e1.name = "A" ∧ e1.path = "C:\\A" ∧
        e1.description = "Custom directory: A" ∧ e1.enabled = true := by
  have h := C6_custom_entry_survives_save_and_load Example.fs [Example.itemOff, Example.itemA] []
    Example.itemA (by decide) rfl (by decide) (by decide) (by decide) (by decide) rfl
  have hsome : (DiskCleaner.LoadCustomDirectories
      (DiskCleaner.SaveCustomDirectories Example.fs [Example.itemOff, Example.itemA]) []).isSome
      = true := by decide
  obtain ⟨loaded, hl⟩ := Option.isSome_iff_exists.mp hsome
  obtain ⟨e1, he1, k1, k2, k3, k4, _⟩ := h.1 loaded hl
  exact ⟨loaded, hl, e1, he1, k1, k2, k3, k4⟩

/-! ## C7: the monitoring deadline -/

theorem timeoutTask_getD_ne (selectedItems : List CleanupItem) (st : DiskCleaner.MonitorState)
    (i j : Nat) (hij : i ≠ j) :
    (DiskCleaner.timeoutTask selectedItems st i).taskCompleted.getD j false
      = st.taskCompleted.getD j false := by
  unfold DiskCleaner.timeoutTask
  split
  · simp only [List.getD_eq_getElem?_getD, List.getElem?_set_ne hij]
  · rfl

theorem timeoutLoop_results (selectedItems : List CleanupItem) (l : List Nat) :
    ∀ (st : DiskCleaner.MonitorState), l.Nodup →
      (l.foldl (DiskCleaner.timeoutTask selectedItems) st).results
        = st.results ++ (l.filter (fun i => !st.taskCompleted.getD i false)).map
            (fun i => ⟨(selectedItems.getD i emptyItem).name, 0, 0, 0, false, "Timeout"⟩) := by
  induction l with
  | nil => intro st _; simp
  | cons i rest ih =>
    intro st hnd
    have hi : i ∉ rest := (List.nodup_cons.mp hnd).1
    have hrest : rest.Nodup := (List.nodup_cons.mp hnd).2
    rw [List.foldl_cons, ih _ hrest]
    have hcongr : rest.filter (fun j =>
          !(DiskCleaner.timeoutTask selectedItems st i).taskCompleted.getD j false)
        = rest.filter (fun j => !st.taskCompleted.getD j false) := by
      apply List.filter_congr
      intro j hj
      have hij : i ≠ j := fun h => hi (h ▸ hj)
      rw [timeoutTask_getD_ne _ _ _ _ hij]
    rw [hcongr]
    by_cases hc : st.taskCompleted.getD i false = true
    · have hc1 : st.taskCompleted[i]?.getD false = true := by
        simpa [List.getD_eq_getElem?_getD] using hc
      simp [DiskCleaner.timeoutTask, hc1, List.filter_cons]
    · have hc2 : st.taskCompleted[i]?.getD false = false := by
        simpa [List.getD_eq_getElem?_getD] using hc
      simp [DiskCleaner.timeoutTask, hc2, List.filter_cons]

/-- C7. In an iteration of the monitoring loop of `DiskCleaner.cpp` whose
deadline check finds more than 15 seconds elapsed, the loop ends at once
(whatever passes might have followed), and the outcomes it leaves are those
collected by the polling pass followed by exactly one outcome for every task
not completed after that pass, in task order: the task's item name,
`success = false`, message "Timeout" and zero bytes, files and skips. -/
theorem C7_timeout_records_every_pending_task (selectedItems : List CleanupItem)
    (taskResults : List CleanupResult) (p : DiskCleaner.Poll) (rest : List DiskCleaner.Poll)
    (st : DiskCleaner.MonitorState)
    (hrun : st.completedCount < wrapInt32 selectedItems.length) (hlate : 15 < p.elapsed) :
    ∃ st1, DiskCleaner.monitorLoop selectedItems taskResults (p :: rest) st = some st1 ∧
      st1.results =
        ((List.range selectedItems.length).foldl
          (DiskCleaner.pollTask p.taskDoneFlags taskResults) st).results ++
        ((List.range selectedItems.length).filter (fun i =>
          !((List.range selectedItems.length).foldl
            (DiskCleaner.pollTask p.taskDoneFlags taskResults) st).taskCompleted.getD i false)).map
          (fun i => ⟨(selectedItems.getD i emptyItem).name, 0, 0, 0, false, "Timeout"⟩) := by
  refine ⟨(List.range selectedItems.length).foldl (DiskCleaner.timeoutTask selectedItems)
    ((List.range selectedItems.length).foldl
      (DiskCleaner.pollTask p.taskDoneFlags taskResults) st), ?_, ?_⟩
  · simp only [DiskCleaner.monitorLoop, hrun, if_true, DiskCleaner.monitorIteration, hlate]
  · exact timeoutLoop_results selectedItems _ _ (List.nodup_range _)

/-- C7, instance: two pending tasks at a pass after the deadline are both recorded
as timed out. -/
theorem C7_witness :
    ∃ st1, DiskCleaner.monitorLoop [Example.itemA, Example.itemB] [emptyResult, emptyResult]
        [Example.latePoll] ⟨[], 0, [false, false]⟩ = some st1 ∧
      st1.results = [⟨"A", 0, 0, 0, false, "Timeout"⟩, ⟨"B", 0, 0, 0, false, "Timeout"⟩] := by
  obtain ⟨st1, h1, h2⟩ := C7_timeout_records_every_pending_task [Example.itemA, Example.itemB]
    [emptyResult, emptyResult] Example.latePoll [] ⟨[], 0, [false, false]⟩ (by decide) (by decide)
  exact ⟨st1, h1, by rw [h2]; decide⟩

/-! ## C8: the unit of work -/

/-- C8. The unit of work launched for an item always sets its completion flag
and never lets an exception out: when the call returns, the slot holds the
returned outcome; when it throws a `std::exception`, the slot holds the item's
name, `success = false`, zero bytes, files and skips and a message that ends
with the exception's message; when it throws anything else, the same with the
message "Unknown exception". -/
theorem C8_unit_of_work_always_completes (item : CleanupItem) (result : CleanupResult)
    (what : String) :
    DiskCleaner.unitOfWork item (DiskCleaner.CallOutcome.returned result) = ⟨true, result⟩ ∧
    DiskCleaner.unitOfWork item (DiskCleaner.CallOutcome.threw what)
      = ⟨true, ⟨item.name, 0, 0, 0, false, "Exception: " ++ what⟩⟩ ∧
    (∃ before,
      (DiskCleaner.unitOfWork item (DiskCleaner.CallOutcome.threw what)).taskResult.errorMessage.data
        = before ++ what.data) ∧
    DiskCleaner.unitOfWork item DiskCleaner.CallOutcome.threwOther
      = ⟨true, ⟨item.name, 0, 0, 0, false, "Unknown exception"⟩⟩ ∧
    (∀ call, (DiskCleaner.unitOfWork item call).taskDone = true) := by
  refine ⟨rfl, rfl, ⟨"Exception: ".data, ?_⟩, rfl, ?_⟩
  · simp [DiskCleaner.unitOfWork, String.data_append]
  · intro call
    cases call <;> rfl

/-! ## C9: removing a catalog entry -/

theorem filter_eraseIdx_of_not (p : CleanupItem → Bool) (l : List CleanupItem) (idx : Nat)
    (h : ∀ x, l[idx]? = some x → p x = false) :
    (l.eraseIdx idx).filter p = l.filter p := by
  induction l generalizing idx with
  | nil => simp
  | cons a rest ih =>
    cases idx with
    | zero =>
      have := h a (by simp)
      simp [List.filter_cons, this]
    | succ k =>
      have hrec := ih k (fun x hx => h x (by simpa using hx))
      simp [List.filter_cons, hrec]

/-- C9. `RemoveSelectedDirectory` removes an entry only if it is a custom one:
when the selected row is a built-in entry the catalog and the filesystem
(journal included: nothing is persisted) are left as they were, and in every
case the sequence of built-in entries after the call is the sequence before
it. -/
theorem C9_remove_never_touches_builtins (fs : FileSystem) (cleanupItems : List CleanupItem)
    (selectedIndex : Option Nat) (confirmed : Bool) :
    (∀ idx item, selectedIndex = some idx → cleanupItems[idx]? = some item →
      item.isCustom = false →
      DiskCleaner.RemoveSelectedDirectory fs cleanupItems selectedIndex confirmed
        = (cleanupItems, fs)) ∧
    (DiskCleaner.RemoveSelectedDirectory fs cleanupItems selectedIndex confirmed).1.filter
        (fun item => !item.isCustom)
      = cleanupItems.filter (fun item => !item.isCustom) := by
  constructor
  · intro idx item hsel hget hbuiltin
    subst hsel
    have hlt : idx < cleanupItems.length := by
      by_contra hge
      rw [List.getElem?_eq_none (by omega)] at hget
      cases hget
    have hd : cleanupItems.getD idx emptyItem = item := by
      rw [List.getD_eq_getElem?_getD, hget]
      rfl
    unfold DiskCleaner.RemoveSelectedDirectory
    simp only [hlt, if_true, hd, hbuiltin, Bool.not_false]
  · cases selectedIndex with
    | none => rfl
    | some idx =>
      unfold DiskCleaner.RemoveSelectedDirectory
      simp only
      split
      · split
        · rfl
        · split
          · rename_i hlt hcustom _
            apply filter_eraseIdx_of_not
            intro x hx
            have hd : cleanupItems.getD idx emptyItem = x := by
              rw [List.getD_eq_getElem?_getD, hx]
              rfl
            rw [hd] at hcustom
            simpa using hcustom
          · rfl
      · rfl

/-- C9, instance: selecting the built-in row changes nothing. -/
theorem C9_witness :
    DiskCleaner.RemoveSelectedDirectory Example.fs [Example.itemOff, Example.itemA] (some 0) true
      = ([Example.itemOff, Example.itemA], Example.fs) :=
  (C9_remove_never_touches_builtins Example.fs [Example.itemOff, Example.itemA] (some 0)
    true).1 0 Example.itemOff rfl rfl rfl

/-! ## C10: adding a catalog entry -/

/-- C10. `AddCustomDirectory` leaves catalog and filesystem unchanged when an
existing entry, built-in or custom, already has the chosen path (and when no
path was chosen); otherwise it appends exactly one entry, with that path,
`isCustom = true` and `enabled = true`.  Hence pairwise distinct catalog paths
stay pairwise distinct. -/
theorem C10_add_rejects_duplicate_paths (filename : String → String) (fs : FileSystem)
    (cleanupItems : List CleanupItem) (pathStr : String) :
    ((∃ item ∈ cleanupItems, item.path = pathStr) →
      DiskCleaner.AddCustomDirectory filename fs cleanupItems (some pathStr)
        = (cleanupItems, fs)) ∧
    ((∀ item ∈ cleanupItems, item.path ≠ pathStr) →
      ∃ e, (DiskCleaner.AddCustomDirectory filename fs cleanupItems (some pathStr)).1
          = cleanupItems ++ [e] ∧
        e.path = pathStr ∧ e.isCustom = true ∧ e.enabled = true) ∧
    ((cleanupItems.map (fun item => item.path)).Nodup →
      ((DiskCleaner.AddCustomDirectory filename fs cleanupItems (some pathStr)).1.map
        (fun item => item.path)).Nodup) ∧
    DiskCleaner.AddCustomDirectory filename fs cleanupItems none = (cleanupItems, fs) := by
  have hdup : (∃ item ∈ cleanupItems, item.path = pathStr) →
      cleanupItems.any (fun item => item.path == pathStr) = true := by
    rintro ⟨item, hin, hp⟩
    exact List.any_eq_true.mpr ⟨item, hin, by simpa using hp⟩
  have hnew : (∀ item ∈ cleanupItems, item.path ≠ pathStr) →
      cleanupItems.any (fun item => item.path == pathStr) = false := by
    intro h
    rw [Bool.eq_false_iff]
    intro hany
    obtain ⟨item, hin, hp⟩ := List.any_eq_true.mp hany
    exact h item hin (by simpa using hp)
  refine ⟨?_, ?_, ?_, rfl⟩
  · intro h
    simp [DiskCleaner.AddCustomDirectory, hdup h]
  · intro h
    refine ⟨⟨if (filename pathStr).isEmpty then pathStr else filename pathStr, pathStr,
      "Custom directory: " ++ (if (filename pathStr).isEmpty then pathStr else filename pathStr),
      true, false, true, 0⟩, ?_, rfl, rfl, rfl⟩
    simp [DiskCleaner.AddCustomDirectory, hnew h]
  · intro hnd
    by_cases hex : ∃ item ∈ cleanupItems, item.path = pathStr
    · simpa [DiskCleaner.AddCustomDirectory, hdup hex] using hnd
    · have hall : ∀ item ∈ cleanupItems, item.path ≠ pathStr := by
        intro item hin hp
        exact hex ⟨item, hin, hp⟩
      simp only [DiskCleaner.AddCustomDirectory, hnew hall, Bool.not_false, if_true,
        List.map_append, List.map_cons, List.map_nil]
      apply List.Nodup.append hnd (List.nodup_singleton _)
      intro q hq1 hq2
      simp only [List.mem_singleton] at hq2
      obtain ⟨item, hin, hp⟩ := List.mem_map.mp hq1
      exact hall item hin (hp.trans hq2)

/-- C10, instance: adding `C:\A` again changes nothing, adding `C:\B` appends one
entry. -/
theorem C10_witness :
    DiskCleaner.AddCustomDirectory (fun _ => "A") Example.fs [Example.itemA] (some "C:\\A")
      = ([Example.itemA], Example.fs) ∧
    (∃ e, (DiskCleaner.AddCustomDirectory (fun _ => "B") Example.fs [Example.itemA]
        (some "C:\\B")).1 = [Example.itemA] ++ [e] ∧
      e.path = "C:\\B" ∧ e.isCustom = true ∧ e.enabled = true) :=
  ⟨(C10_add_rejects_duplicate_paths (fun _ => "A") Example.fs [Example.itemA] "C:\\A").1
      ⟨Example.itemA, by decide, rfl⟩,
    (C10_add_rejects_duplicate_paths (fun _ => "B") Example.fs [Example.itemA] "C:\\B").2.1
      (by decide)⟩

/-! ## C11: cleaning twice -/

/-- C11. When a first real clean of a directory target has left the directory
without children, a second real clean of the same target on the filesystem the
first one left returns `filesDeleted = 0` and `success = true` (the initial
outcome, with zero skips and zero bytes) and leaves that filesystem, journal
included, as it is. -/
theorem C11_second_clean_changes_nothing (hw hw2 : Nat) (timing timing2 : BatchTiming)
    (fs fs1 : FileSystem) (folderPath itemName : String) (r1 : CleanupResult)
    (sf denied locked : Bool) (thr : Option String)
    (hbin : folderPath ≠ "RECYCLE_BIN")
    (_hfirst : DiskCleaner.DeleteFolderContentsParallel false hw timing fs folderPath itemName
      = some (r1, fs1))
    (hgone : fs1.entries.lookup folderPath = some (.dir [] sf denied locked thr)) :
    DiskCleaner.DeleteFolderContentsParallel false hw2 timing2 fs1 folderPath itemName
      = some (⟨itemName, 0, 0, 0, true, ""⟩, fs1) := by
  have hIs := emptyDir_isEmptyOrInaccessible fs1 folderPath sf denied locked thr hbin hgone
  unfold DiskCleaner.DeleteFolderContentsParallel
  simp [hIs]

/-- C11, instance: the directory of three files of the example machine is
cleaned twice. -/
theorem C11_witness :
    ∃ r1 fs1,
      DiskCleaner.DeleteFolderContentsParallel false 4 Example.quick Example.fs "C:\\A" "A"
        = some (r1, fs1) ∧
      r1.filesDeleted = 3 ∧
      DiskCleaner.DeleteFolderContentsParallel false 4 Example.quick fs1 "C:\\A" "A"
        = some (⟨"A", 0, 0, 0, true, ""⟩, fs1) := by
  obtain ⟨fs1, hfirst, hgone⟩ := clean_regularFiles 4 Example.quick Example.fs "C:\\A" "A"
    Example.threeFiles false (by decide) (by decide) (by decide) (by decide) (by decide)
    (fun _ => Nat.zero_le 30) rfl (by decide)
  exact ⟨_, fs1, hfirst, rfl,
    C11_second_clean_changes_nothing 4 4 Example.quick Example.quick Example.fs fs1 "C:\\A" "A" _
      false false false none (by decide) hfirst hgone⟩

/-! ## C12: the recycle bin has nothing to empty -/

theorem recycleBin_not_emptyOrInaccessible (fs : FileSystem) :
    DiskCleaner.IsDirectoryEmptyOrInaccessible fs "RECYCLE_BIN" = false := by
  simp [DiskCleaner.IsDirectoryEmptyOrInaccessible]

theorem recycleBin_measured_empty (hw : Nat) (timing : BatchTiming) (fs : FileSystem)
    (itemName : String) (h : GetRecycleBinSize fs = 0) :
    DiskCleaner.DeleteFolderContentsParallel false hw timing fs "RECYCLE_BIN" itemName
      = some (⟨itemName, 0, 0, 0, true, ""⟩, fs) := by
  unfold DiskCleaner.DeleteFolderContentsParallel
  simp [recycleBin_not_emptyOrInaccessible, h]

theorem recycleBin_unexpected_code (hw : Nat) (timing : BatchTiming) (fs : FileSystem)
    (itemName : String) (h : GetRecycleBinSize fs ≠ 0)
    (hcode : fs.bin.emptyResult % 2 ^ 32 = 0x8000ffff) (hneg : fs.bin.emptyResult < 0) :
    DiskCleaner.DeleteFolderContentsParallel false hw timing fs "RECYCLE_BIN" itemName
      = some (⟨itemName, 0, 0, 0, true, ""⟩, (emptyRecycleBin fs).2) := by
  have hn : ¬ (0 ≤ fs.bin.emptyResult) := by omega
  have hcode2 : fs.bin.emptyResult % 4294967296 = 2147549183 := by
    norm_num at hcode
    exact hcode
  unfold DiskCleaner.DeleteFolderContentsParallel
  simp [recycleBin_not_emptyOrInaccessible, h, emptyRecycleBin, hn, hcode2]

theorem recycleBin_success_code (hw : Nat) (timing : BatchTiming) (fs : FileSystem)
    (itemName : String) (h : GetRecycleBinSize fs ≠ 0) (hcode : 0 ≤ fs.bin.emptyResult) :
    DiskCleaner.DeleteFolderContentsParallel false hw timing fs "RECYCLE_BIN" itemName
      = some (⟨itemName, GetRecycleBinSize fs, 1, 0, true, ""⟩, (emptyRecycleBin fs).2) := by
  unfold DiskCleaner.DeleteFolderContentsParallel
  simp [recycleBin_not_emptyOrInaccessible, h, emptyRecycleBin, hcode]

/-- C12, the code at the failing input.  With a bin measured at 4096 bytes and
`SHEmptyRecycleBinW` answering `S_FALSE` (1), which the code names as a
nothing-to-do code, the outcome has `bytesRemoved = 4096` and
`filesDeleted = 1`, not 0 and 0: `S_FALSE` satisfies `SUCCEEDED`, so the branch
that names it is never reached.  A bin measured as empty and the answer
`0x8000FFFF` give `success = true` with zero bytes and zero files, as claimed. -/
theorem C12_S_FALSE_is_reported_as_emptied :
    (DiskCleaner.DeleteFolderContentsParallel false 4 Example.quick Example.fsBinSFalse
      "RECYCLE_BIN" "Recycle Bin").map Prod.fst
      = some ⟨"Recycle Bin", 4096, 1, 0, true, ""⟩ ∧
    (DiskCleaner.DeleteFolderContentsParallel false 4 Example.quick Example.fsBinUnexpected
      "RECYCLE_BIN" "Recycle Bin").map Prod.fst
      = some ⟨"Recycle Bin", 0, 0, 0, true, ""⟩ ∧
    (DiskCleaner.DeleteFolderContentsParallel false 4 Example.quick Example.fsBinEmpty
      "RECYCLE_BIN" "Recycle Bin").map Prod.fst
      = some ⟨"Recycle Bin", 0, 0, 0, true, ""⟩ := by
  decide

/-! ## C13: what `GetFolderSize` adds up -/

theorem sizeLoop_of_queriesSucceed (evs : List WalkEvent) :
    ∀ (t : Nat), t < 2 ^ 64 → queriesSucceed evs = true →
      sizeLoop evs t false = (t + specSizeOfEvents evs) % 2 ^ 64 := by
  induction evs with
  | nil =>
    intro t ht _
    simp only [sizeLoop, specSizeOfEvents]
    omega
  | cons e rest ih =>
    intro t ht hq
    cases e with
    | fault =>
      simp only [sizeLoop, specSizeOfEvents]
      omega
    | entry n =>
      cases n with
      | file size sf zf l =>
        simp only [queriesSucceed, Bool.and_eq_true, Bool.not_eq_true'] at hq
        obtain ⟨⟨hsf, hzf⟩, hrest⟩ := hq
        subst hsf hzf
        simp only [sizeLoop, specSizeOfEvents, Bool.false_eq_true, if_false]
        rw [ih (addU64 t size) (Nat.mod_lt _ (by norm_num)) hrest]
        unfold addU64
        omega
      | dir cs sf d l thr =>
        simp only [queriesSucceed, Bool.and_eq_true, Bool.not_eq_true'] at hq
        obtain ⟨hsf, hrest⟩ := hq
        subst hsf
        simp only [sizeLoop, specSizeOfEvents, Bool.false_eq_true, if_false]
        exact ih t ht hrest
      | other =>
        simp only [queriesSucceed] at hq
        simp only [sizeLoop, specSizeOfEvents, Bool.false_eq_true, if_false]
        exact ih t ht hq

theorem GetFolderSize_eq_spec_of_queriesSucceed (fs : FileSystem) (folderPath : String)
    (h : ∀ node, fs.entries.lookup folderPath = some node → queriesSucceed node.walk = true) :
    GetFolderSize fs folderPath = specFolderSize fs folderPath := by
  unfold GetFolderSize specFolderSize
  cases hl : fs.entries.lookup folderPath with
  | none => rfl
  | some node =>
    simp only
    rw [sizeLoop_of_queriesSucceed _ 0 (by norm_num) (h node hl)]
    simp

/-- C13, the code at the failing input.  In a directory whose first entry fails
its type query and whose second entry is a readable regular file of 20 bytes,
`GetFolderSize` returns 0 where the specified total is 20: the error code left
by the failed query makes the next iteration leave the loop at
`if (ec) break;`, so the entries after the failing one are not counted. -/
theorem C13_failed_query_ends_the_traversal :
    GetFolderSize Example.fsBroken "C:\\T" = 0 ∧
    specFolderSize Example.fsBroken "C:\\T" = 20 := by
  decide

/-! ## C14: one outcome per launched target -/

theorem nodup_bounded_length (l : List Nat) (n : Nat) (hnd : l.Nodup) (hb : ∀ i ∈ l, i < n) :
    l.length ≤ n := by
  have hsub : l ⊆ List.range n := fun i hi => List.mem_range.mpr (hb i hi)
  have := (List.subperm_of_subset hnd hsub).length_le
  simpa using this

theorem nodup_bounded_perm (l : List Nat) (n : Nat) (hnd : l.Nodup) (hb : ∀ i ∈ l, i < n)
    (hlen : n ≤ l.length) : l.Perm (List.range n) := by
  have hsub : l ⊆ List.range n := fun i hi => List.mem_range.mpr (hb i hi)
  exact (List.subperm_of_subset hnd hsub).perm_of_length_le (by simpa using hlen)

theorem nodup_covering_length (l : List Nat) (n : Nat) (hc : ∀ i, i < n → i ∈ l) :
    n ≤ l.length := by
  have hsub : List.range n ⊆ l := fun i hi => hc i (List.mem_range.mp hi)
  have := (List.subperm_of_subset (List.nodup_range n) hsub).length_le
  simpa using this

theorem recorded_step (selectedItems : List CleanupItem) (taskResults : List CleanupResult)
    (st : DiskCleaner.MonitorState) (order : List (Nat × Bool)) (i : Nat) (b : Bool)
    (hn : selectedItems.length < 2 ^ 31) (hi : i < selectedItems.length)
    (hnot : ¬ st.taskCompleted.getD i false = true)
    (hR : DiskCleaner.Recorded selectedItems taskResults st order) :
    DiskCleaner.Recorded selectedItems taskResults
      ⟨st.results ++ [DiskCleaner.recordedOutcome selectedItems taskResults (i, b)],
        addInt32 st.completedCount 1, st.taskCompleted.set i true⟩
      (order ++ [(i, b)]) := by
  obtain ⟨h1, h2, h3, h4, h5, h6⟩ := hR
  have hfresh : i ∉ order.map Prod.fst := fun hmem => hnot ((h4 i hi).mpr hmem)
  have hnd : ((order ++ [(i, b)]).map Prod.fst).Nodup := by
    rw [List.map_append, List.map_singleton]
    exact List.Nodup.append h2 (List.nodup_singleton _)
      (by
        intro a ha hb
        simp only [List.mem_singleton] at hb
        subst hb
        exact hfresh ha)
  have hbound : ∀ j ∈ (order ++ [(i, b)]).map Prod.fst, j < selectedItems.length := by
    intro j hj
    rw [List.map_append, List.map_singleton, List.mem_append, List.mem_singleton] at hj
    rcases hj with hj | hj
    · exact h5 j hj
    · exact hj ▸ hi
  have hlen := nodup_bounded_length _ _ hnd hbound
  simp only [List.length_map, List.length_append, List.length_singleton] at hlen
  refine ⟨?_, hnd, ?_, ?_, hbound, ?_⟩
  · simp only [h1, List.map_append, List.map_singleton]
  · simp only [List.length_set, h3]
  · intro j hj
    rw [List.map_append, List.map_singleton, List.mem_append, List.mem_singleton]
    by_cases hji : j = i
    · subst hji
      have hlt : j < st.taskCompleted.length := by omega
      simp [List.getD_eq_getElem?_getD, List.getElem?_set_self hlt]
    · have hne : i ≠ j := fun h => hji h.symm
      have hsame : (st.taskCompleted.set i true).getD j false = st.taskCompleted.getD j false := by
        simp only [List.getD_eq_getElem?_getD, List.getElem?_set_ne hne]
      rw [hsame, h4 j hj]
      constructor
      · exact fun h => Or.inl h
      · rintro (h | h)
        · exact h
        · exact absurd h hji
  · simp only [h6, addInt32]
    rw [wrapInt32_of_range _ (by omega) (by omega)]
    simp

theorem pollTask_recorded (selectedItems : List CleanupItem) (taskResults : List CleanupResult)
    (taskDoneFlags : List Bool) (st : DiskCleaner.MonitorState) (order : List (Nat × Bool))
    (i : Nat) (hn : selectedItems.length < 2 ^ 31) (hi : i < selectedItems.length)
    (hR : DiskCleaner.Recorded selectedItems taskResults st order) :
    ∃ order1, DiskCleaner.Recorded selectedItems taskResults
      (DiskCleaner.pollTask taskDoneFlags taskResults st i) order1 := by
  unfold DiskCleaner.pollTask
  split
  · exact ⟨order, hR⟩
  · rename_i hnot
    split
    · exact ⟨order ++ [(i, false)],
        recorded_step selectedItems taskResults st order i false hn hi hnot hR⟩
    · exact ⟨order, hR⟩

theorem timeoutTask_recorded (selectedItems : List CleanupItem)
    (taskResults : List CleanupResult) (st : DiskCleaner.MonitorState)
    (order : List (Nat × Bool)) (i : Nat) (hn : selectedItems.length < 2 ^ 31)
    (hi : i < selectedItems.length)
    (hR : DiskCleaner.Recorded selectedItems taskResults st order) :
    ∃ order1, DiskCleaner.Recorded selectedItems taskResults
        (DiskCleaner.timeoutTask selectedItems st i) order1 ∧
      (∀ j ∈ order.map Prod.fst, j ∈ order1.map Prod.fst) ∧ i ∈ order1.map Prod.fst := by
  unfold DiskCleaner.timeoutTask
  split
  · rename_i hnot
    have hnot1 : ¬ st.taskCompleted.getD i false = true := by
      simpa using hnot
    refine ⟨order ++ [(i, true)],
      recorded_step selectedItems taskResults st order i true hn hi hnot1 hR, ?_, ?_⟩
    · intro j hj
      rw [List.map_append, List.mem_append]
      exact Or.inl hj
    · simp
  · rename_i hdone
    have hdone1 : st.taskCompleted.getD i false = true := by
      simpa using hdone
    exact ⟨order, hR, fun j hj => hj, (hR.2.2.2.1 i hi).mp hdone1⟩

theorem pollLoop_recorded (selectedItems : List CleanupItem) (taskResults : List CleanupResult)
    (taskDoneFlags : List Bool) (hn : selectedItems.length < 2 ^ 31) (l : List Nat) :
    ∀ st order, (∀ i ∈ l, i < selectedItems.length) →
      DiskCleaner.Recorded selectedItems taskResults st order →
      ∃ order1, DiskCleaner.Recorded selectedItems taskResults
        (l.foldl (DiskCleaner.pollTask taskDoneFlags taskResults) st) order1 := by
  induction l with
  | nil =>
    intro st order _ hR
    exact ⟨order, hR⟩
  | cons i rest ih =>
    intro st order hl hR
    obtain ⟨order1, hR1⟩ := pollTask_recorded selectedItems taskResults taskDoneFlags st order i
      hn (hl i (List.mem_cons_self _ _)) hR
    exact ih _ order1 (fun j hj => hl j (List.mem_cons_of_mem _ hj)) hR1

theorem timeoutLoop_recorded (selectedItems : List CleanupItem)
    (taskResults : List CleanupResult) (hn : selectedItems.length < 2 ^ 31) (l : List Nat) :
    ∀ st order, (∀ i ∈ l, i < selectedItems.length) →
      DiskCleaner.Recorded selectedItems taskResults st order →
      ∃ order1, DiskCleaner.Recorded selectedItems taskResults
          (l.foldl (DiskCleaner.timeoutTask selectedItems) st) order1 ∧
        (∀ j ∈ order.map Prod.fst, j ∈ order1.map Prod.fst) ∧
        (∀ i ∈ l, i ∈ order1.map Prod.fst) := by
  induction l with
  | nil =>
    intro st order _ hR
    exact ⟨order, hR, fun j hj => hj, by simp⟩
  | cons i rest ih =>
    intro st order hl hR
    obtain ⟨order1, hR1, hmono1, hi1⟩ := timeoutTask_recorded selectedItems taskResults st order
      i hn (hl i (List.mem_cons_self _ _)) hR
    obtain ⟨order2, hR2, hmono2, hall2⟩ :=
      ih _ order1 (fun j hj => hl j (List.mem_cons_of_mem _ hj)) hR1
    refine ⟨order2, hR2, fun j hj => hmono2 j (hmono1 j hj), ?_⟩
    intro j hj
    rcases List.mem_cons.mp hj with rfl | hj
    · exact hmono2 _ hi1
    · exact hall2 j hj

theorem recorded_initial (selectedItems : List CleanupItem) (taskResults : List CleanupResult) :
    DiskCleaner.Recorded selectedItems taskResults
      ⟨[], 0, List.replicate selectedItems.length false⟩ [] := by
  refine ⟨rfl, List.nodup_nil, ?_, ?_, ?_, rfl⟩
  · simp
  · intro i hi
    simp [List.getD_eq_getElem?_getD, List.getElem?_replicate, hi]
  · intro i hi
    simp at hi

theorem recorded_complete (selectedItems : List CleanupItem) (taskResults : List CleanupResult)
    (st : DiskCleaner.MonitorState) (order : List (Nat × Bool))
    (hR : DiskCleaner.Recorded selectedItems taskResults st order)
    (hlen : selectedItems.length ≤ order.length) :
    (order.map Prod.fst).Perm (List.range selectedItems.length) ∧
    st.results = order.map (DiskCleaner.recordedOutcome selectedItems taskResults) ∧
    st.results.length = selectedItems.length := by
  obtain ⟨h1, h2, _, _, h5, _⟩ := hR
  have hperm := nodup_bounded_perm _ _ h2 h5 (by simpa using hlen)
  refine ⟨hperm, h1, ?_⟩
  have := hperm.length_eq
  simp only [List.length_map, List.length_range] at this
  rw [h1, List.length_map, this]

theorem monitorLoop_recorded (selectedItems : List CleanupItem)
    (taskResults : List CleanupResult) (hn : selectedItems.length < 2 ^ 31)
    (polls : List DiskCleaner.Poll) :
    ∀ st order st1, DiskCleaner.Recorded selectedItems taskResults st order →
      DiskCleaner.monitorLoop selectedItems taskResults polls st = some st1 →
      ∃ order1 : List (Nat × Bool),
        (order1.map Prod.fst).Perm (List.range selectedItems.length) ∧
        st1.results = order1.map (DiskCleaner.recordedOutcome selectedItems taskResults) ∧
        st1.results.length = selectedItems.length := by
  have hwrap : wrapInt32 (selectedItems.length : Nat) = (selectedItems.length : Nat) :=
    wrapInt32_of_range _ (by omega) (by omega)
  have hdone : ∀ st order, DiskCleaner.Recorded selectedItems taskResults st order →
      ¬ st.completedCount < wrapInt32 (selectedItems.length : Nat) →
      selectedItems.length ≤ order.length := by
    intro st order hR hc
    rw [hwrap, hR.2.2.2.2.2] at hc
    omega
  induction polls with
  | nil =>
    intro st order st1 hR h
    simp only [DiskCleaner.monitorLoop] at h
    split at h
    · cases h
    · rename_i hc
      simp only [Option.some.injEq] at h
      subst h
      exact ⟨order,
        recorded_complete selectedItems taskResults st order hR (hdone st order hR hc)⟩
  | cons p rest ih =>
    intro st order st1 hR h
    simp only [DiskCleaner.monitorLoop] at h
    split at h
    · obtain ⟨order1, hR1⟩ := pollLoop_recorded selectedItems taskResults p.taskDoneFlags hn
        (List.range selectedItems.length) st order (fun i hi => List.mem_range.mp hi) hR
      unfold DiskCleaner.monitorIteration at h
      simp only at h
      by_cases hlate : 15 < p.elapsed
      · simp only [hlate, if_true, Option.some.injEq] at h
        subst h
        obtain ⟨order2, hR2, _, hall⟩ := timeoutLoop_recorded selectedItems taskResults hn
          (List.range selectedItems.length) _ order1 (fun i hi => List.mem_range.mp hi) hR1
        have hcover := nodup_covering_length (order2.map Prod.fst) selectedItems.length
          (fun i hi => hall i (List.mem_range.mpr hi))
        exact ⟨order2, recorded_complete selectedItems taskResults _ order2 hR2
          (by simpa using hcover)⟩
      · simp only [hlate, if_false] at h
        exact ih _ order1 st1 hR1 h
    · rename_i hc
      simp only [Option.some.injEq] at h
      subst h
      exact ⟨order,
        recorded_complete selectedItems taskResults st order hR (hdone st order hR hc)⟩

theorem monitorLoop_leaves (selectedItems : List CleanupItem)
    (taskResults : List CleanupResult) (polls : List DiskCleaner.Poll) :
    ∀ st, (∃ p ∈ polls, 15 < p.elapsed) →
      ∃ st1, DiskCleaner.monitorLoop selectedItems taskResults polls st = some st1 := by
  induction polls with
  | nil =>
    intro st h
    obtain ⟨p, hp, _⟩ := h
    simp at hp
  | cons p rest ih =>
    intro st h
    simp only [DiskCleaner.monitorLoop]
    split
    · unfold DiskCleaner.monitorIteration
      simp only
      by_cases hlate : 15 < p.elapsed
      · simp only [hlate, if_true]
        exact ⟨_, rfl⟩
      · simp only [hlate, if_false]
        apply ih
        obtain ⟨q, hq, hq15⟩ := h
        rcases List.mem_cons.mp hq with rfl | hq
        · exact absurd hq15 hlate
        · exact ⟨q, hq, hq15⟩
    · exact ⟨_, rfl⟩

theorem foldl_addToSummary_total (results : List CleanupResult) :
    ∀ s : Summary, (results.foldl addToSummary s).total = s.total := by
  induction results with
  | nil =>
    intro s
    rfl
  | cons r rest ih =>
    intro s
    rw [List.foldl_cons, ih]
    rfl

/-- C14. In `DiskCleaner.cpp`, for every list of launched targets (fewer than
2^31), every value of the task results and every sequence of passes (flags
read and elapsed time), if the monitoring loop is left then `results` holds
exactly one outcome per launched target: there is a list `order` of pairs
(task index, timed out or not) whose indices are a permutation of
`0 .. n - 1` and `results` is the list of the outcomes recorded for these
pairs, so `results.size()` is the number of launched targets and no task is
recorded twice.  The loop is left whenever a pass is made after the deadline.
Every run of `StartParallelCleanup` that launches tasks ends with a summary
over one outcome per launched target. -/
theorem C14_one_outcome_per_launched_target (selectedItems : List CleanupItem)
    (taskResults : List CleanupResult) (polls : List DiskCleaner.Poll)
    (hn : selectedItems.length < 2 ^ 31) :
    (∀ st1, DiskCleaner.monitorLoop selectedItems taskResults polls
        ⟨[], 0, List.replicate selectedItems.length false⟩ = some st1 →
      ∃ order : List (Nat × Bool),
        (order.map Prod.fst).Perm (List.range selectedItems.length) ∧
        st1.results = order.map (DiskCleaner.recordedOutcome selectedItems taskResults) ∧
        st1.results.length = selectedItems.length) ∧
    ((∃ p ∈ polls, 15 < p.elapsed) →
      ∃ st1, DiskCleaner.monitorLoop selectedItems taskResults polls
        ⟨[], 0, List.replicate selectedItems.length false⟩ = some st1) ∧
    (∀ dryRunMode hw timings cleanupItems fs confirmed rep,
      DiskCleaner.launchTargets fs cleanupItems confirmed = selectedItems →
      DiskCleaner.StartParallelCleanup dryRunMode hw timings cleanupItems fs confirmed polls
        = some rep →
      rep.results.length = rep.launched.length ∧
      (rep.launched ≠ [] →
        rep.summary = some (summarize rep.results) ∧
        (summarize rep.results).total = rep.launched.length)) := by
  refine ⟨?_, ?_, ?_⟩
  · intro st1 h
    exact monitorLoop_recorded selectedItems taskResults hn polls _ [] st1
      (recorded_initial selectedItems taskResults) h
  · intro h
    exact monitorLoop_leaves selectedItems taskResults polls _ h
  · intro dryRunMode hw timings cleanupItems fs confirmed rep hsel h
    unfold DiskCleaner.StartParallelCleanup at h
    simp only [hsel] at h
    split at h
    · simp only [Option.some.injEq] at h
      subst h
      exact ⟨rfl, fun hne => absurd rfl hne⟩
    · split at h
      · cases h
      · split at h
        · cases h
        · rename_i st hloop
          simp only [Option.some.injEq] at h
          subst h
          obtain ⟨order, _, _, hlen⟩ := monitorLoop_recorded selectedItems _ hn polls _ [] st
            (recorded_initial selectedItems _) hloop
          refine ⟨hlen, fun _ => ⟨rfl, ?_⟩⟩
          simp only [summarize]
          rw [foldl_addToSummary_total]
          exact hlen

/-- C14, instance: of two launched tasks the first is seen done at the first
pass and the second is still running at a pass after the deadline; the loop
ends with one outcome for each. -/
theorem C14_witness :
    DiskCleaner.monitorLoop [Example.itemA, Example.itemB] [Example.outcomeA, emptyResult]
        [Example.firstDonePoll, Example.latePoll]
        ⟨[], 0, List.replicate [Example.itemA, Example.itemB].length false⟩
      = some ⟨[Example.outcomeA, Example.timedOutB], 2, [true, true]⟩ ∧
    (∃ order : List (Nat × Bool),
      (order.map Prod.fst).Perm (List.range [Example.itemA, Example.itemB].length) ∧
      [Example.outcomeA, Example.timedOutB]
        = order.map (DiskCleaner.recordedOutcome [Example.itemA, Example.itemB]
            [Example.outcomeA, emptyResult]) ∧
      [Example.outcomeA, Example.timedOutB].length = [Example.itemA, Example.itemB].length) :=
  ⟨by decide,
    (C14_one_outcome_per_launched_target [Example.itemA, Example.itemB]
      [Example.outcomeA, emptyResult] [Example.firstDonePoll, Example.latePoll] (by decide)).1
      ⟨[Example.outcomeA, Example.timedOutB], 2, [true, true]⟩ (by decide)⟩

/-! ## C15: the summary -/

theorem wrapInt32_idem (x : Int) : wrapInt32 (wrapInt32 x) = wrapInt32 x := by
  unfold wrapInt32
  omega

theorem wrapInt32_add_left (a b : Int) : wrapInt32 (wrapInt32 a + b) = wrapInt32 (a + b) := by
  unfold wrapInt32
  omega

theorem wrapInt32_le_of_nonneg (x : Int) (h : 0 ≤ x) : wrapInt32 x ≤ x := by
  unfold wrapInt32
  omega

theorem foldl_addToSummary (results : List CleanupResult) :
    ∀ (s : Summary),
      (results.foldl addToSummary s).totalRemoved
        = (if results.isEmpty then s.totalRemoved
           else (s.totalRemoved + (results.map (fun r => r.bytesRemoved)).sum) % 2 ^ 64) ∧
      wrapInt32 (results.foldl addToSummary s).totalFilesDeleted
        = wrapInt32 (s.totalFilesDeleted + (results.map (fun r => r.filesDeleted)).sum) ∧
      wrapInt32 (results.foldl addToSummary s).totalFilesSkipped
        = wrapInt32 (s.totalFilesSkipped + (results.map (fun r => r.filesSkipped)).sum) ∧
      wrapInt32 (results.foldl addToSummary s).successfulOperations
        = wrapInt32 (s.successfulOperations + (results.countP (fun r => r.success) : Nat)) ∧
      (results.foldl addToSummary s).total = s.total := by
  induction results with
  | nil =>
    intro s
    simp
  | cons r rest ih =>
    intro s
    obtain ⟨h1, h2, h3, h4, h5⟩ := ih (addToSummary s r)
    simp only [List.foldl_cons, List.isEmpty_cons, Bool.false_eq_true, if_false, List.map_cons,
      List.sum_cons]
    refine ⟨?_, ?_, ?_, ?_, ?_⟩
    · rw [h1]
      cases rest with
      | nil => simp [addToSummary, addU64]
      | cons r2 rest2 =>
        simp only [List.isEmpty_cons, Bool.false_eq_true, if_false, addToSummary, addU64]
        omega
    · rw [h2]
      simp only [addToSummary, addInt32]
      rw [wrapInt32_add_left, Int.add_assoc]
    · rw [h3]
      simp only [addToSummary, addInt32]
      rw [wrapInt32_add_left, Int.add_assoc]
    · rw [h4]
      cases hs : r.success with
      | true =>
        simp only [addToSummary, addInt32, hs, if_true, List.countP_cons_of_pos]
        rw [wrapInt32_add_left]
        push_cast
        congr 1
        omega
      | false =>
        simp [addToSummary, hs]
    · rw [h5]
      rfl

theorem foldl_addToSummary_wrapped (results : List CleanupResult) :
    ∀ (s : Summary), wrapInt32 s.totalFilesDeleted = s.totalFilesDeleted →
      wrapInt32 s.totalFilesSkipped = s.totalFilesSkipped →
      wrapInt32 s.successfulOperations = s.successfulOperations →
      wrapInt32 (results.foldl addToSummary s).totalFilesDeleted
        = (results.foldl addToSummary s).totalFilesDeleted ∧
      wrapInt32 (results.foldl addToSummary s).totalFilesSkipped
        = (results.foldl addToSummary s).totalFilesSkipped ∧
      wrapInt32 (results.foldl addToSummary s).successfulOperations
        = (results.foldl addToSummary s).successfulOperations := by
  induction results with
  | nil =>
    intro s h1 h2 h3
    exact ⟨h1, h2, h3⟩
  | cons r rest ih =>
    intro s h1 h2 h3
    simp only [List.foldl_cons]
    apply ih
    · simp only [addToSummary, addInt32, wrapInt32_idem]
    · simp only [addToSummary, addInt32, wrapInt32_idem]
    · simp only [addToSummary, addInt32]
      split
      · exact wrapInt32_idem _
      · exact h3

theorem DiskCleaner_summary_eq (dryRunMode : Bool) (hw : Nat) (timings : Nat → BatchTiming)
    (cleanupItems : List CleanupItem) (fs : FileSystem) (confirmed : Bool)
    (polls : List DiskCleaner.Poll) (rep : RunReport) (s : Summary)
    (h : DiskCleaner.StartParallelCleanup dryRunMode hw timings cleanupItems fs confirmed polls
      = some rep) (hs : rep.summary = some s) : s = summarize rep.results := by
  unfold DiskCleaner.StartParallelCleanup at h
  simp only at h
  split at h
  · simp only [Option.some.injEq] at h
    subst h
    cases hs
  · split at h
    · cases h
    · split at h
      · cases h
      · simp only [Option.some.injEq] at h
        subst h
        simp only [Option.some.injEq] at hs
        exact hs.symm

theorem DiskCleanerGUI_summary_eq (dryRunMode isAdmin : Bool) (hw : Nat)
    (cleanupItems : List CleanupItem) (fs : FileSystem) (confirmed : Bool)
    (ready : Nat → Nat → Bool) (rep : RunReport) (s : Summary)
    (h : DiskCleanerGUI.StartParallelCleanup dryRunMode isAdmin hw cleanupItems fs confirmed ready
      = some rep) (hs : rep.summary = some s) : s = summarize rep.results := by
  unfold DiskCleanerGUI.StartParallelCleanup at h
  simp only at h
  split at h
  · simp only [Option.some.injEq] at h
    subst h
    cases hs
  · split at h
    · cases h
    · simp only [Option.some.injEq] at h
      subst h
      simp only [Option.some.injEq] at hs
      exact hs.symm

/-- C15. For every list of outcomes the summary loop of `StartParallelCleanup`
(the same in both files) gives: total bytes = the sum of `bytesRemoved` in
`uintmax_t` arithmetic, files deleted and files skipped = the sums of
`filesDeleted` and `filesSkipped` in `int` arithmetic, successful operations =
the number of outcomes with `success = true` in `int` arithmetic, and total =
`results.size()`.  The successful operations never exceed the total, and each
total is the exact sum when that sum is representable.  The summary of every
run of either file is this summary of its results. -/
theorem C15_summary_totals_are_the_sums (results : List CleanupResult) :
    ((summarize results).totalRemoved
        = (results.map (fun r => r.bytesRemoved)).sum % 2 ^ 64 ∧
      (summarize results).totalFilesDeleted
        = wrapInt32 (results.map (fun r => r.filesDeleted)).sum ∧
      (summarize results).totalFilesSkipped
        = wrapInt32 (results.map (fun r => r.filesSkipped)).sum ∧
      (summarize results).successfulOperations
        = wrapInt32 (results.countP (fun r => r.success) : Nat) ∧
      (summarize results).total = results.length ∧
      (summarize results).successfulOperations ≤ ((summarize results).total : Int)) ∧
    ((results.map (fun r => r.bytesRemoved)).sum < 2 ^ 64 →
      (summarize results).totalRemoved = (results.map (fun r => r.bytesRemoved)).sum) ∧
    (-(2 ^ 31) ≤ (results.map (fun r => r.filesDeleted)).sum →
      (results.map (fun r => r.filesDeleted)).sum < 2 ^ 31 →
      (summarize results).totalFilesDeleted = (results.map (fun r => r.filesDeleted)).sum) ∧
    (-(2 ^ 31) ≤ (results.map (fun r => r.filesSkipped)).sum →
      (results.map (fun r => r.filesSkipped)).sum < 2 ^ 31 →
      (summarize results).totalFilesSkipped = (results.map (fun r => r.filesSkipped)).sum) ∧
    (results.length < 2 ^ 31 →
      (summarize results).successfulOperations
        = (results.countP (fun r => r.success) : Nat)) ∧
    (∀ dryRunMode isAdmin hw timings cleanupItems fs confirmed polls ready rep s,
      (DiskCleaner.StartParallelCleanup dryRunMode hw timings cleanupItems fs confirmed polls
        = some rep ∨
       DiskCleanerGUI.StartParallelCleanup dryRunMode isAdmin hw cleanupItems fs confirmed ready
        = some rep) →
      rep.summary = some s → s = summarize rep.results) := by
  obtain ⟨h1, h2, h3, h4, h5⟩ := foldl_addToSummary results ⟨0, 0, 0, 0, results.length⟩
  obtain ⟨w2, w3, w4⟩ := foldl_addToSummary_wrapped results ⟨0, 0, 0, 0, results.length⟩
    (wrapInt32_of_range 0 (by omega) (by omega)) (wrapInt32_of_range 0 (by omega) (by omega))
    (wrapInt32_of_range 0 (by omega) (by omega))
  simp only [Int.zero_add, Nat.zero_add] at h1 h2 h3 h4 h5
  have e1 : (summarize results).totalRemoved
      = (results.map (fun r => r.bytesRemoved)).sum % 2 ^ 64 := by
    unfold summarize
    rw [h1]
    cases results with
    | nil => simp
    | cons r rest => simp
  have e2 : (summarize results).totalFilesDeleted
      = wrapInt32 (results.map (fun r => r.filesDeleted)).sum := by
    unfold summarize
    rw [← w2, h2]
  have e3 : (summarize results).totalFilesSkipped
      = wrapInt32 (results.map (fun r => r.filesSkipped)).sum := by
    unfold summarize
    rw [← w3, h3]
  have e4 : (summarize results).successfulOperations
      = wrapInt32 (results.countP (fun r => r.success) : Nat) := by
    unfold summarize
    rw [← w4, h4]
  have e5 : (summarize results).total = results.length := by
    unfold summarize
    exact h5
  have hc : results.countP (fun r => r.success) ≤ results.length := List.countP_le_length _
  refine ⟨⟨e1, e2, e3, e4, e5, ?_⟩, ?_, ?_, ?_, ?_, ?_⟩
  · rw [e4, e5]
    exact le_trans (wrapInt32_le_of_nonneg _ (Int.ofNat_nonneg _)) (Int.ofNat_le.mpr hc)
  · intro hb
    rw [e1]
    exact Nat.mod_eq_of_lt hb
  · intro hlo hhi
    rw [e2]
    exact wrapInt32_of_range _ hlo hhi
  · intro hlo hhi
    rw [e3]
    exact wrapInt32_of_range _ hlo hhi
  · intro hn
    rw [e4]
    have h0 : (0 : Int) ≤ (results.countP (fun r => r.success) : Nat) := Int.ofNat_nonneg _
    have h1 : ((results.countP (fun r => r.success) : Nat) : Int) ≤ (results.length : Nat) :=
      Int.ofNat_le.mpr hc
    have h2 : ((results.length : Nat) : Int) < 2 ^ 31 := by exact_mod_cast hn
    exact wrapInt32_of_range _ (le_trans (by norm_num) h0) (lt_of_le_of_lt h1 h2)
  · intro dryRunMode isAdmin hw timings cleanupItems fs confirmed polls ready rep s h hs
    rcases h with h | h
    · exact DiskCleaner_summary_eq dryRunMode hw timings cleanupItems fs confirmed polls rep s h hs
    · exact DiskCleanerGUI_summary_eq dryRunMode isAdmin hw cleanupItems fs confirmed ready rep s
        h hs

/-- C15, instance: the outcome of the directory of three files and a timed-out
outcome. -/
theorem C15_witness :
    summarize [Example.outcomeA, Example.timedOutB] = ⟨300, 3, 0, 1, 2⟩ ∧
    (summarize [Example.outcomeA, Example.timedOutB]).totalRemoved
      = ([Example.outcomeA, Example.timedOutB].map (fun r => r.bytesRemoved)).sum ∧
    (summarize [Example.outcomeA, Example.timedOutB]).successfulOperations
      = ([Example.outcomeA, Example.timedOutB].countP (fun r => r.success) : Nat) :=
  ⟨by decide,
    (C15_summary_totals_are_the_sums [Example.outcomeA, Example.timedOutB]).2.1 (by decide),
    (C15_summary_totals_are_the_sums [Example.outcomeA, Example.timedOutB]).2.2.2.2.1
      (by decide)⟩

/-! ## C16: the batch size -/

theorem clean_undefined_of_zero_threads (timing : BatchTiming) (fs : FileSystem)
    (folderPath itemName : String) (hbin : folderPath ≠ "RECYCLE_BIN")
    (hne : DiskCleaner.IsDirectoryEmptyOrInaccessible fs folderPath = false)
    (hfault : iterFault fs folderPath = none) :
    DiskCleaner.DeleteFolderContentsParallel false 0 timing fs folderPath itemName = none ∧
    DiskCleanerGUI.DeleteFolderContentsParallel false 0 fs folderPath itemName = none := by
  constructor
  · unfold DiskCleaner.DeleteFolderContentsParallel
    simp [hne, hbin, hfault]
  · unfold DiskCleanerGUI.DeleteFolderContentsParallel
    simp [hbin, hfault]

/-- C16, the code at the failing input.  With `hardware_concurrency()` = 0 the
batch size of the directory of three files is `max(1, 3 / 0)` in both files:
the division by zero leaves the call without a defined outcome. -/
theorem C16_zero_concurrency_divides_by_zero :
    (DiskCleaner.DeleteFolderContentsParallel false 0 Example.quick Example.fs "C:\\A"
      "A").isNone = true ∧
    (DiskCleanerGUI.DeleteFolderContentsParallel false 0 Example.fs "C:\\A" "A").isNone = true := by
  decide

/-! ## C17: the difference of the two measurements -/

theorem subU64_of_lt (a b : Nat) (hb : b < 2 ^ 64) (h : a < b) :
    subU64 a b = 2 ^ 64 - (b - a) := by
  unfold subU64
  omega

theorem DiskCleaner_clean_shape (hw : Nat) (timing : BatchTiming) (fs fs1 : FileSystem)
    (folderPath itemName : String) (r : CleanupResult) (hbin : folderPath ≠ "RECYCLE_BIN")
    (hne : DiskCleaner.IsDirectoryEmptyOrInaccessible fs folderPath = false)
    (h : DiskCleaner.DeleteFolderContentsParallel false hw timing fs folderPath itemName
      = some (r, fs1)) :
    r.bytesRemoved = subU64 (GetFolderSize fs folderPath) (GetFolderSize fs1 folderPath) ∧
    (iterFault fs folderPath = none → r.success = true ∧ r.errorMessage = "") := by
  unfold DiskCleaner.DeleteFolderContentsParallel at h
  simp only [hne, hbin, Bool.false_eq_true, if_false] at h
  cases hf : iterFault fs folderPath with
  | some what =>
    simp only [hf, Option.some.injEq, Prod.mk.injEq] at h
    obtain ⟨rfl, rfl⟩ := h
    exact ⟨rfl, fun h => by cases h⟩
  | none =>
    simp only [hf] at h
    split at h
    · cases h
    · simp only [Option.some.injEq, Prod.mk.injEq] at h
      obtain ⟨rfl, rfl⟩ := h
      exact ⟨rfl, fun _ => ⟨rfl, rfl⟩⟩

theorem DiskCleanerGUI_clean_shape (hw : Nat) (fs fs1 : FileSystem)
    (folderPath itemName : String) (r : CleanupResult) (hbin : folderPath ≠ "RECYCLE_BIN")
    (h : DiskCleanerGUI.DeleteFolderContentsParallel false hw fs folderPath itemName
      = some (r, fs1)) :
    r.bytesRemoved = subU64 (GetFolderSize fs folderPath) (GetFolderSize fs1 folderPath) ∧
    (iterFault fs folderPath = none → r.success = true ∧ r.errorMessage = "") := by
  unfold DiskCleanerGUI.DeleteFolderContentsParallel at h
  simp only [hbin, Bool.false_eq_true, if_false] at h
  cases hf : iterFault fs folderPath with
  | some what =>
    simp only [hf, Option.some.injEq, Prod.mk.injEq] at h
    obtain ⟨rfl, rfl⟩ := h
    exact ⟨rfl, fun h => by cases h⟩
  | none =>
    simp only [hf] at h
    split at h
    · cases h
    · simp only [Option.some.injEq, Prod.mk.injEq] at h
      obtain ⟨rfl, rfl⟩ := h
      exact ⟨rfl, fun _ => ⟨rfl, rfl⟩⟩

theorem DiskCleaner_clean_returns (hw : Nat) (timing : BatchTiming) (fs : FileSystem)
    (folderPath itemName : String) (hbin : folderPath ≠ "RECYCLE_BIN")
    (hne : DiskCleaner.IsDirectoryEmptyOrInaccessible fs folderPath = false)
    (hw0 : 0 < hw) (hw1 : hw < 2 ^ 31) :
    ∃ r fs1, DiskCleaner.DeleteFolderContentsParallel false hw timing fs folderPath itemName
      = some (r, fs1) := by
  have hmt : ¬ (hw * 2 % 2 ^ 32 = 0) := by omega
  unfold DiskCleaner.DeleteFolderContentsParallel
  simp only [hne, hbin, Bool.false_eq_true, if_false]
  cases hf : iterFault fs folderPath with
  | some what => exact ⟨_, _, rfl⟩
  | none =>
    simp only [hmt, if_false]
    exact ⟨_, _, rfl⟩

theorem DiskCleanerGUI_clean_returns (hw : Nat) (fs : FileSystem)
    (folderPath itemName : String) (hbin : folderPath ≠ "RECYCLE_BIN") (hw0 : 0 < hw) :
    ∃ r fs1, DiskCleanerGUI.DeleteFolderContentsParallel false hw fs folderPath itemName
      = some (r, fs1) := by
  have hz : ¬ (hw = 0) := by omega
  unfold DiskCleanerGUI.DeleteFolderContentsParallel
  simp only [hbin, Bool.false_eq_true, if_false]
  cases hf : iterFault fs folderPath with
  | some what => exact ⟨_, _, rfl⟩
  | none =>
    simp only [hz, if_false]
    exact ⟨_, _, rfl⟩

/-- C17, counterexample.  In the directory `C:\G` the first measurement is 0
bytes and the second one 20 bytes; the outcome of both files has
`bytesRemoved = 2^64 - 20`, which is neither 0 nor at most the size before. -/
theorem C17_counterexample :
    GetFolderSize Example.fsGrow "C:\\G" = 0 ∧
    (DiskCleaner.DeleteFolderContentsParallel false 4 Example.quick Example.fsGrow "C:\\G"
      "G").map (fun o => (o.1.bytesRemoved, GetFolderSize o.2 "C:\\G"))
      = some (18446744073709551596, 20) ∧
    (DiskCleanerGUI.DeleteFolderContentsParallel false 4 Example.fsGrow "C:\\G"
      "G").map (fun o => (o.1.bytesRemoved, GetFolderSize o.2 "C:\\G"))
      = some (18446744073709551596, 20) := by
  decide

/-- C17, amended.  For a non-empty directory target cleaned in real mode, in
both files, `bytesRemoved` is the `uintmax_t` difference of the size before and
the size after, with no clamp: when the size after is not larger it is the
exact difference and at most the size before; when the size after is larger
it is `2^64 - (sizeAfter - sizeBefore)`, which is not 0 and exceeds the size
before.  An outcome exists whenever the hardware concurrency is usable. -/
theorem C17_bytesRemoved_wraps_without_clamp (hw : Nat) (timing : BatchTiming)
    (fs : FileSystem) (folderPath itemName : String) (hbin : folderPath ≠ "RECYCLE_BIN")
    (hne : DiskCleaner.IsDirectoryEmptyOrInaccessible fs folderPath = false) :
    (∀ r fs1,
      (DiskCleaner.DeleteFolderContentsParallel false hw timing fs folderPath itemName
        = some (r, fs1) ∨
       DiskCleanerGUI.DeleteFolderContentsParallel false hw fs folderPath itemName
        = some (r, fs1)) →
      (GetFolderSize fs1 folderPath ≤ GetFolderSize fs folderPath →
        r.bytesRemoved = GetFolderSize fs folderPath - GetFolderSize fs1 folderPath ∧
        r.bytesRemoved ≤ GetFolderSize fs folderPath) ∧
      (GetFolderSize fs folderPath < GetFolderSize fs1 folderPath →
        r.bytesRemoved = 2 ^ 64 - (GetFolderSize fs1 folderPath - GetFolderSize fs folderPath) ∧
        r.bytesRemoved ≠ 0 ∧ GetFolderSize fs folderPath < r.bytesRemoved)) ∧
    (0 < hw → hw < 2 ^ 31 →
      (∃ r fs1, DiskCleaner.DeleteFolderContentsParallel false hw timing fs folderPath itemName
        = some (r, fs1)) ∧
      (∃ r fs1, DiskCleanerGUI.DeleteFolderContentsParallel false hw fs folderPath itemName
        = some (r, fs1))) := by
  constructor
  · intro r fs1 h
    have hb : r.bytesRemoved
        = subU64 (GetFolderSize fs folderPath) (GetFolderSize fs1 folderPath) := by
      rcases h with h | h
      · exact (DiskCleaner_clean_shape hw timing fs fs1 folderPath itemName r hbin hne h).1
      · exact (DiskCleanerGUI_clean_shape hw fs fs1 folderPath itemName r hbin h).1
    have h0 := GetFolderSize_lt fs folderPath
    have h1 := GetFolderSize_lt fs1 folderPath
    constructor
    · intro hle
      rw [hb, subU64_of_le _ _ h0 hle]
      exact ⟨rfl, Nat.sub_le _ _⟩
    · intro hlt
      rw [hb, subU64_of_lt _ _ h1 hlt]
      refine ⟨rfl, ?_, ?_⟩ <;> omega
  · intro hw0 hw1
    exact ⟨DiskCleaner_clean_returns hw timing fs folderPath itemName hbin hne hw0 hw1,
      DiskCleanerGUI_clean_returns hw fs folderPath itemName hbin hw0⟩

/-- C17, instance: the directory `C:\G`, whose second measurement is the
larger one. -/
theorem C17_witness :
    "C:\\G" ≠ "RECYCLE_BIN" ∧
    DiskCleaner.IsDirectoryEmptyOrInaccessible Example.fsGrow "C:\\G" = false ∧
    (∃ r fs1,
      DiskCleaner.DeleteFolderContentsParallel false 4 Example.quick Example.fsGrow "C:\\G" "G"
        = some (r, fs1) ∧
      (GetFolderSize Example.fsGrow "C:\\G" < GetFolderSize fs1 "C:\\G" →
        r.bytesRemoved
          = 2 ^ 64 - (GetFolderSize fs1 "C:\\G" - GetFolderSize Example.fsGrow "C:\\G"))) := by
  have h := C17_bytesRemoved_wraps_without_clamp 4 Example.quick Example.fsGrow "C:\\G" "G"
    (by decide) (by decide)
  obtain ⟨⟨r, fs1, hr⟩, _⟩ := h.2 (by decide) (by decide)
  exact ⟨by decide, by decide, r, fs1, hr, fun hlt => ((h.1 r fs1 (Or.inl hr)).2 hlt).1⟩

/-! ## C18: the catalog build -/

theorem eraseMissing_kept (fs : FileSystem) (l : List CleanupItem) :
    ∀ kept, DiskCleaner.eraseMissing fs l = some kept →
      (∀ item ∈ kept, item ∈ l ∧
        (fsExists fs item.path = some true ∨ item.path = "RECYCLE_BIN")) ∧
      (∀ item ∈ l, item.path = "RECYCLE_BIN" → item ∈ kept) := by
  induction l with
  | nil =>
    intro kept h
    simp only [DiskCleaner.eraseMissing, Option.some.injEq] at h
    subst h
    simp
  | cons a rest ih =>
    intro kept h
    simp only [DiskCleaner.eraseMissing] at h
    cases hf : fsExists fs a.path with
    | none => simp [hf] at h
    | some found =>
      cases hr : DiskCleaner.eraseMissing fs rest with
      | none => simp [hf, hr] at h
      | some kept1 =>
        obtain ⟨ih1, ih2⟩ := ih kept1 hr
        simp only [hf, hr] at h
        by_cases hdrop : (!found && a.path != "RECYCLE_BIN") = true
        · simp only [hdrop, if_true, Option.some.injEq] at h
          subst h
          have hne : a.path ≠ "RECYCLE_BIN" := by
            simp only [Bool.and_eq_true, bne_iff_ne] at hdrop
            exact hdrop.2
          constructor
          · intro item hi
            exact ⟨List.mem_cons_of_mem _ (ih1 item hi).1, (ih1 item hi).2⟩
          · intro item hi hp
            rcases List.mem_cons.mp hi with rfl | hi
            · exact absurd hp hne
            · exact ih2 item hi hp
        · simp only [hdrop, Bool.false_eq_true, if_false, Option.some.injEq] at h
          subst h
          constructor
          · intro item hi
            rcases List.mem_cons.mp hi with rfl | hi
            · refine ⟨List.mem_cons_self _ _, ?_⟩
              cases found with
              | true => exact Or.inl hf
              | false =>
                right
                by_contra hne
                apply hdrop
                simp [hne]
            · exact ⟨List.mem_cons_of_mem _ (ih1 item hi).1, (ih1 item hi).2⟩
          · intro item hi hp
            rcases List.mem_cons.mp hi with rfl | hi
            · exact List.mem_cons_self _ _
            · exact List.mem_cons_of_mem _ (ih2 item hi hp)

theorem candidateItems_recycleBin (fs : FileSystem) (localAppData appData : String)
    (items : List CleanupItem)
    (h : DiskCleaner.candidateItems fs localAppData appData = some items) :
    DiskCleaner.recycleBinItem ∈ items := by
  unfold DiskCleaner.candidateItems at h
  simp only at h
  split at h
  · cases h
  · split at h
    · cases h
    · split at h
      · cases h
      · simp only [Option.some.injEq] at h
        subst h
        simp

theorem loadLoop_appends_existing (fs : FileSystem) (lines : List (List Char)) :
    ∀ base loaded, DiskCleaner.loadLoop fs lines base = some loaded →
      ∃ extra, loaded = base ++ extra ∧
        ∀ c ∈ extra, c.isCustom = true ∧ fsExists fs c.path = some true := by
  induction lines with
  | nil =>
    intro base loaded h
    simp only [DiskCleaner.loadLoop, Option.some.injEq] at h
    exact ⟨[], by simp [h], by simp⟩
  | cons line rest ih =>
    intro base loaded h
    simp only [DiskCleaner.loadLoop] at h
    cases hl : DiskCleaner.loadLine fs base line with
    | none => simp [hl] at h
    | some items1 =>
      simp only [hl] at h
      obtain ⟨extra, he, hx⟩ := ih items1 loaded h
      have hstep : ∃ e1, items1 = base ++ e1 ∧
          ∀ c ∈ e1, c.isCustom = true ∧ fsExists fs c.path = some true := by
        unfold DiskCleaner.loadLine at hl
        split at hl
        · simp only [Option.some.injEq] at hl
          exact ⟨[], by simp [hl], by simp⟩
        · simp only at hl
          split at hl
          · cases hl
          · rename_i hex
            simp only [Option.some.injEq] at hl
            refine ⟨_, hl.symm, ?_⟩
            intro c hc
            simp only [List.mem_singleton] at hc
            subst hc
            exact ⟨rfl, hex⟩
          · simp only [Option.some.injEq] at hl
            exact ⟨[], by simp [hl], by simp⟩
      obtain ⟨e1, h1, hx1⟩ := hstep
      refine ⟨e1 ++ extra, by rw [he, h1, List.append_assoc], ?_⟩
      intro c hc
      rcases List.mem_append.mp hc with hc | hc
      · exact hx1 c hc
      · exact hx c hc

theorem lookup_all_readable (l : List (String × FsNode)) (p : String) (n : FsNode)
    (h : l.lookup p = some n) (hall : l.all (fun e => !e.2.statusFails) = true) :
    n.statusFails = false := by
  induction l with
  | nil => simp at h
  | cons e rest ih =>
    obtain ⟨q, m⟩ := e
    simp only [List.all_cons, Bool.and_eq_true, Bool.not_eq_true'] at hall
    simp only [List.lookup] at h
    split at h
    · simp only [Option.some.injEq] at h
      subst h
      exact hall.1
    · exact ih h hall.2

theorem fsExists_of_readable (fs : FileSystem)
    (hall : fs.entries.all (fun e => !e.2.statusFails) = true) :
    ∀ p, fsExists fs p ≠ none := by
  intro p
  unfold fsExists
  split
  · simp
  · rename_i n hn
    simp [lookup_all_readable _ _ _ hn hall]

theorem pushIfExists_returns (fs : FileSystem) (hq : ∀ p, fsExists fs p ≠ none)
    (cleanupItems : List CleanupItem) (item : CleanupItem) :
    ∃ items, DiskCleaner.pushIfExists fs cleanupItems item = some items := by
  unfold DiskCleaner.pushIfExists
  cases hf : fsExists fs item.path with
  | none => exact absurd hf (hq _)
  | some b =>
    cases b with
    | true => exact ⟨_, rfl⟩
    | false => exact ⟨_, rfl⟩

theorem browserLoop_returns (fs : FileSystem) (hq : ∀ p, fsExists fs p ≠ none)
    (browsers : List (String × String)) :
    ∀ cleanupItems, ∃ items, DiskCleaner.browserLoop fs browsers cleanupItems = some items := by
  induction browsers with
  | nil =>
    intro cleanupItems
    exact ⟨_, rfl⟩
  | cons b rest ih =>
    intro cleanupItems
    obtain ⟨name, path⟩ := b
    obtain ⟨items1, h1⟩ := pushIfExists_returns fs hq cleanupItems
      ⟨name, path, "Browser cache and temporary files", false, false, false, 0⟩
    obtain ⟨items2, h2⟩ := ih items1
    exact ⟨items2, by simp only [DiskCleaner.browserLoop, h1, h2]⟩

theorem candidateItems_returns (fs : FileSystem) (hq : ∀ p, fsExists fs p ≠ none)
    (localAppData appData : String) :
    ∃ items, DiskCleaner.candidateItems fs localAppData appData = some items := by
  unfold DiskCleaner.candidateItems
  simp only
  split
  · rename_i h1
    split at h1
    · obtain ⟨items, hi⟩ := pushIfExists_returns fs hq _ _
      rw [hi] at h1
      cases h1
    · cases h1
  · split
    · rename_i h2
      split at h2
      · obtain ⟨items, hi⟩ := pushIfExists_returns fs hq _ _
        rw [hi] at h2
        cases h2
      · cases h2
    · split
      · rename_i h3
        split at h3
        · obtain ⟨items, hi⟩ := browserLoop_returns fs hq _ _
          rw [hi] at h3
          cases h3
        · cases h3
      · exact ⟨_, rfl⟩

theorem eraseMissing_returns (fs : FileSystem) (hq : ∀ p, fsExists fs p ≠ none)
    (l : List CleanupItem) : ∃ kept, DiskCleaner.eraseMissing fs l = some kept := by
  induction l with
  | nil => exact ⟨_, rfl⟩
  | cons a rest ih =>
    obtain ⟨kept1, h1⟩ := ih
    cases hf : fsExists fs a.path with
    | none => exact absurd hf (hq _)
    | some found =>
      simp only [DiskCleaner.eraseMissing, hf, h1]
      split
      · exact ⟨_, rfl⟩
      · exact ⟨_, rfl⟩

theorem loadLoop_returns (fs : FileSystem) (hq : ∀ p, fsExists fs p ≠ none)
    (lines : List (List Char)) :
    ∀ base, ∃ loaded, DiskCleaner.loadLoop fs lines base = some loaded := by
  induction lines with
  | nil =>
    intro base
    exact ⟨_, rfl⟩
  | cons line rest ih =>
    intro base
    have hstep : ∃ items1, DiskCleaner.loadLine fs base line = some items1 := by
      unfold DiskCleaner.loadLine
      split
      · exact ⟨_, rfl⟩
      · simp only
        split
        · rename_i hex
          exact absurd hex (hq _)
        · exact ⟨_, rfl⟩
        · exact ⟨_, rfl⟩
    obtain ⟨items1, h1⟩ := hstep
    obtain ⟨loaded, h2⟩ := ih items1
    exact ⟨loaded, by simp only [DiskCleaner.loadLoop, h1, h2]⟩

/-- C18. For every environment and filesystem state: every entry that the
built-in phase of `SetupCleanupItems` retains has a path that exists or the
path `"RECYCLE_BIN"`, and the Recycle Bin entry is among them; what
`LoadCustomDirectories` returns is the catalog it was given followed by custom
entries whose paths exist; the catalog of `SetupCleanupItems` is made of these
two parts; and `SetupCleanupItems` returns a catalog whenever no `fs::exists`
query throws. -/
theorem C18_catalog_paths_exist_or_are_the_recycle_bin (fs : FileSystem)
    (localAppData appData userProfile : String) :
    (∀ builtins, DiskCleaner.builtinPhase fs localAppData appData = some builtins →
      (∀ item ∈ builtins, fsExists fs item.path = some true ∨ item.path = "RECYCLE_BIN") ∧
      DiskCleaner.recycleBinItem ∈ builtins) ∧
    (∀ base loaded, DiskCleaner.LoadCustomDirectories fs base = some loaded →
      ∃ extra, loaded = base ++ extra ∧
        ∀ c ∈ extra, c.isCustom = true ∧ fsExists fs c.path = some true) ∧
    (∀ items, DiskCleaner.SetupCleanupItems fs localAppData appData userProfile = some items →
      ∃ builtins extra, DiskCleaner.builtinPhase fs localAppData appData = some builtins ∧
        items = builtins ++ extra ∧
        ∀ c ∈ extra, c.isCustom = true ∧ fsExists fs c.path = some true) ∧
    ((∀ p, fsExists fs p ≠ none) →
      ∃ items, DiskCleaner.SetupCleanupItems fs localAppData appData userProfile
        = some items) := by
  have hload : ∀ base loaded, DiskCleaner.LoadCustomDirectories fs base = some loaded →
      ∃ extra, loaded = base ++ extra ∧
        ∀ c ∈ extra, c.isCustom = true ∧ fsExists fs c.path = some true := by
    intro base loaded h
    unfold DiskCleaner.LoadCustomDirectories at h
    split at h
    · simp only [Option.some.injEq] at h
      exact ⟨[], by simp [h], by simp⟩
    · exact loadLoop_appends_existing fs _ base loaded h
  refine ⟨?_, hload, ?_, ?_⟩
  · intro builtins h
    unfold DiskCleaner.builtinPhase at h
    split at h
    · cases h
    · rename_i items hc
      obtain ⟨h1, h2⟩ := eraseMissing_kept fs items builtins h
      exact ⟨fun item hi => (h1 item hi).2,
        h2 _ (candidateItems_recycleBin fs localAppData appData items hc) rfl⟩
  · intro items h
    unfold DiskCleaner.SetupCleanupItems at h
    split at h
    · cases h
    · rename_i builtins hb
      obtain ⟨extra, he, hx⟩ := hload builtins items h
      exact ⟨builtins, extra, hb, he, hx⟩
  · intro hq
    obtain ⟨cands, hc⟩ := candidateItems_returns fs hq localAppData appData
    obtain ⟨builtins, hb⟩ := eraseMissing_returns fs hq cands
    have hbp : DiskCleaner.builtinPhase fs localAppData appData = some builtins := by
      simp only [DiskCleaner.builtinPhase, hc, hb]
    have hl : ∃ loaded, DiskCleaner.LoadCustomDirectories fs builtins = some loaded := by
      unfold DiskCleaner.LoadCustomDirectories
      split
      · exact ⟨_, rfl⟩
      · exact loadLoop_returns fs hq _ _
    obtain ⟨loaded, hl⟩ := hl
    exact ⟨loaded, by simp only [DiskCleaner.SetupCleanupItems, hbp, hl]⟩

/-- C18, instance: a machine where the user temporary folder, `C:\Windows\Temp`
and the custom folder `D:\Old` exist and the custom folder `D:\Gone` does
not. -/
theorem C18_witness :
    DiskCleaner.SetupCleanupItems Example.fsCatalog "C:\\Users\\u\\AppData\\Local"
        "C:\\Users\\u\\AppData\\Roaming" "C:\\Users\\u"
      = some
        [⟨"Local Temp", "C:\\Users\\u\\AppData\\Local\\Temp", "User temporary files",
          true, false, false, 0⟩,
         ⟨"Windows Temp", "C:\\Windows\\Temp", "System temporary files", true, true, false, 0⟩,
         DiskCleaner.recycleBinItem,
         ⟨"Old", "D:\\Old", "Custom directory: Old", true, false, true, 0⟩] ∧
    (∃ items, DiskCleaner.SetupCleanupItems Example.fsCatalog "C:\\Users\\u\\AppData\\Local"
        "C:\\Users\\u\\AppData\\Roaming" "C:\\Users\\u" = some items) :=
  ⟨by decide,
    (C18_catalog_paths_exist_or_are_the_recycle_bin Example.fsCatalog
      "C:\\Users\\u\\AppData\\Local" "C:\\Users\\u\\AppData\\Roaming" "C:\\Users\\u").2.2.2
      (fsExists_of_readable Example.fsCatalog (by decide))⟩

/-! ## C19: the counters of the deletion batches -/

theorem ceilDiv_step (a s : Nat) (hs : 1 ≤ s) (ha : 1 ≤ a) :
    (a + s - 1) / s = (a - s + s - 1) / s + 1 := by
  have h1 : a + s - 1 = (a - 1) + s := by omega
  rw [h1, Nat.add_div_right _ (by omega)]
  congr 1
  by_cases h : s ≤ a
  · congr 1
    omega
  · rw [Nat.div_eq_of_lt (by omega), Nat.div_eq_of_lt (by omega)]

theorem batchRanges_eq (s n : Nat) (hs : 1 ≤ s) (fuel : Nat) :
    ∀ i, n ≤ i + fuel →
      batchRanges s n fuel i
        = (List.range ((n - i + s - 1) / s)).map (fun k => (i + k * s, min (i + k * s + s) n)) := by
  induction fuel with
  | zero =>
    intro i hi
    have h0 : n - i = 0 := by omega
    rw [h0, Nat.zero_add, Nat.div_eq_of_lt (by omega)]
    rfl
  | succ fuel ih =>
    intro i hi
    by_cases hlt : i < n
    · have hstep := ceilDiv_step (n - i) s hs (by omega)
      have hsub : n - i - s = n - (i + s) := by omega
      rw [hsub] at hstep
      rw [hstep, List.range_succ_eq_map]
      simp only [batchRanges, hlt, if_true, List.map_cons, List.map_map, Nat.zero_mul,
        Nat.add_zero]
      rw [ih (i + s) (by omega)]
      congr 1
      apply List.map_congr_left
      intro k _
      simp only [Function.comp, Nat.succ_eq_add_one, Nat.add_mul, Nat.one_mul]
      have e : i + s + k * s = i + (k * s + s) := by omega
      rw [e]
    · have h0 : n - i = 0 := by omega
      rw [h0, Nat.zero_add, Nat.div_eq_of_lt (by omega)]
      simp [batchRanges, hlt]

theorem batchRanges_flatten (s n : Nat) (hs : 1 ≤ s) (fuel : Nat) :
    ∀ i, n ≤ i + fuel →
      (batchRanges s n fuel i).flatMap (fun r => List.range' r.1 (r.2 - r.1))
        = List.range' i (n - i) := by
  induction fuel with
  | zero =>
    intro i hi
    have h0 : n - i = 0 := by omega
    simp [batchRanges, h0]
  | succ fuel ih =>
    intro i hi
    by_cases hlt : i < n
    · simp only [batchRanges, hlt, if_true, List.flatMap_cons]
      rw [ih (i + s) (by omega)]
      by_cases hfit : i + s ≤ n
      · have e1 : min (i + s) n - i = s := by omega
        have e2 : n - i = (n - (i + s)) + s := by omega
        rw [e1, e2, ← List.range'_append i s (n - (i + s)) 1, Nat.one_mul]
      · have e1 : min (i + s) n - i = n - i := by omega
        have e2 : n - (i + s) = 0 := by omega
        rw [e1, e2]
        simp
    · have h0 : n - i = 0 := by omega
      simp [batchRanges, hlt, h0]

/-- C21. For `n` children and a batch size `s >= 1` (both files take
`s = max(1, ...)`), the launch loop of `DeleteFolderContentsParallel` starts a
worker for the index ranges `[k * s, min(k * s + s, n))`, `k = 0, 1, ...,
ceil(n / s) - 1`, and for no other: each range is non-empty and ends within
the list, the ranges laid end to end are `0, 1, ..., n - 1` (so they are
disjoint and cover every child), and a child `j` lies in the range number `k`
exactly when `k = j / s`. -/
theorem C21_batches_are_contiguous_disjoint_and_cover (n s : Nat) (hs : 1 ≤ s) :
    batchRanges s n n 0
      = (List.range ((n + s - 1) / s)).map (fun k => (k * s, min (k * s + s) n)) ∧
    (∀ r ∈ batchRanges s n n 0, r.1 < r.2 ∧ r.2 ≤ n) ∧
    (batchRanges s n n 0).flatMap (fun r => List.range' r.1 (r.2 - r.1)) = List.range n ∧
    (∀ j, j < n → j / s < (n + s - 1) / s ∧
      ∀ k, (k * s ≤ j ∧ j < min (k * s + s) n) ↔ k = j / s) := by
  have hform : batchRanges s n n 0
      = (List.range ((n + s - 1) / s)).map (fun k => (k * s, min (k * s + s) n)) := by
    have h := batchRanges_eq s n hs n 0 (by omega)
    simpa using h
  have hspos : 0 < s := by omega
  refine ⟨hform, ?_, ?_, ?_⟩
  · intro r hr
    rw [hform] at hr
    simp only [List.mem_map, List.mem_range] at hr
    obtain ⟨k, hk, rfl⟩ := hr
    have hk1 : (k + 1) * s ≤ n + s - 1 := (Nat.le_div_iff_mul_le hspos).mp hk
    rw [Nat.add_mul, Nat.one_mul] at hk1
    simp only
    omega
  · have h := batchRanges_flatten s n hs n 0 (by omega)
    simpa [List.range_eq_range'] using h
  · intro j hj
    have hlo : j / s * s ≤ j := Nat.div_mul_le_self j s
    have hhi : j < s * (j / s + 1) := Nat.lt_mul_div_succ j hspos
    rw [Nat.mul_add, Nat.mul_one, Nat.mul_comm] at hhi
    constructor
    · apply (Nat.le_div_iff_mul_le hspos).mpr
      rw [Nat.succ_mul]
      omega
    · intro k
      constructor
      · rintro ⟨h1, h2⟩
        have h3 : j < (k + 1) * s := by
          rw [Nat.add_mul, Nat.one_mul]
          omega
        exact (Nat.div_eq_of_lt_le h1 h3).symm
      · intro hk
        subst hk
        exact ⟨hlo, by omega⟩

/-- C21, instance: five children in batches of two. -/
theorem C21_witness :
    batchRanges 2 5 5 0 = [(0, 2), (2, 4), (4, 5)] ∧
    (batchRanges 2 5 5 0).flatMap (fun r => List.range' r.1 (r.2 - r.1)) = List.range 5 :=
  ⟨by decide, (C21_batches_are_contiguous_disjoint_and_cover 5 2 (by decide)).2.2.1⟩

/-! ## C22: the pre-filter -/

theorem DiskCleaner_launchTargets_eq_filter (fs : FileSystem) (cleanupItems : List CleanupItem) :
    DiskCleaner.launchTargets fs cleanupItems true
      = cleanupItems.filter
          (fun item =>
            item.enabled && !DiskCleaner.IsDirectoryEmptyOrInaccessible fs item.path) := by
  have hff : (cleanupItems.filter (fun item => item.enabled)).filter
        (fun item => !DiskCleaner.IsDirectoryEmptyOrInaccessible fs item.path)
      = cleanupItems.filter
          (fun item =>
            item.enabled && !DiskCleaner.IsDirectoryEmptyOrInaccessible fs item.path) := by
    rw [List.filter_filter]
    apply List.filter_congr
    intro item _
    exact Bool.and_comm _ _
  unfold DiskCleaner.launchTargets
  simp only
  split
  · rename_i hsel
    rw [← hff, List.isEmpty_iff.mp hsel]
    rfl
  · split
    · rename_i hval
      rw [← hff, List.isEmpty_iff.mp hval]
    · simp only [Bool.not_true, Bool.false_eq_true, if_false]
      exact hff

/-- C22. In `DiskCleaner.cpp`, once the user has confirmed, the list of items a
cleanup task is launched for is the catalog filtered on
`enabled && !IsDirectoryEmptyOrInaccessible(path)`: the same entries, as often
and in the order the catalog has them.  An enabled entry with the path
`"RECYCLE_BIN"` is always in it.  In every completed run of
`StartParallelCleanup` the tasks are those of exactly these items: task `k`
calls `DeleteFolderContentsParallel` on the `k`-th entry of the filtered list,
so there is one call per entry, in catalog order, and the outcomes of the calls
bear the names of the entries in that order; every outcome collected is the
outcome of one of these calls or the time-out record of one of these entries;
every mutating call added to the journal acts on the path of one of them, and
the objects at any other path are left as they were.  When the filter leaves
nothing the run ends with no task launched, no outcome, no summary and the
filesystem, journal included, as it was.  Without the confirmation nothing is
launched. -/
theorem C22_launched_targets_are_the_prefiltered_enabled_items (fs : FileSystem)
    (cleanupItems : List CleanupItem) :
    DiskCleaner.launchTargets fs cleanupItems true
      = cleanupItems.filter
          (fun item => item.enabled && !DiskCleaner.IsDirectoryEmptyOrInaccessible fs item.path) ∧
    (∀ item ∈ cleanupItems, item.enabled = true → item.path = "RECYCLE_BIN" →
      item ∈ DiskCleaner.launchTargets fs cleanupItems true) ∧
    (∀ dryRunMode hw timings polls rep,
      DiskCleaner.StartParallelCleanup dryRunMode hw timings cleanupItems fs true polls
        = some rep →
      rep.launched = cleanupItems.filter
        (fun item => item.enabled && !DiskCleaner.IsDirectoryEmptyOrInaccessible fs item.path) ∧
      (∃ outcomes,
        runTasks (fun k => DiskCleaner.DeleteFolderContentsParallel dryRunMode hw (timings k))
          rep.launched 0 fs = some (outcomes, rep.fs) ∧
        outcomes.map (fun r => r.itemName) = rep.launched.map (fun item => item.name) ∧
        ∀ r ∈ rep.results,
          r ∈ outcomes ∨ ∃ item ∈ rep.launched, r = ⟨item.name, 0, 0, 0, false, "Timeout"⟩) ∧
      (∃ extra, rep.fs.journal = fs.journal ++ extra ∧
        ∀ op ∈ extra, ∃ item ∈ rep.launched, FsOp.onTarget item.path op = true) ∧
      (∀ q, (∀ item ∈ rep.launched, item.path ≠ q) →
        rep.fs.entries.lookup q = fs.entries.lookup q)) ∧
    (cleanupItems.filter
        (fun item =>
          item.enabled && !DiskCleaner.IsDirectoryEmptyOrInaccessible fs item.path) = [] →
      ∀ dryRunMode hw timings polls,
        ∃ rep, DiskCleaner.StartParallelCleanup dryRunMode hw timings cleanupItems fs true polls
            = some rep ∧
          rep.launched = [] ∧ rep.results = [] ∧ rep.summary = none ∧ rep.fs = fs) ∧
    DiskCleaner.launchTargets fs cleanupItems false = [] := by
  have heq := DiskCleaner_launchTargets_eq_filter fs cleanupItems
  refine ⟨heq, ?_, ?_, ?_, ?_⟩
  · intro item hin hen hbin
    rw [heq, List.mem_filter]
    refine ⟨hin, ?_⟩
    simp [hen, hbin, DiskCleaner.IsDirectoryEmptyOrInaccessible]
  · intro dryRunMode hw timings polls rep h
    have hl := DiskCleaner_launched_eq dryRunMode hw timings cleanupItems fs true polls rep h
    have hcall : ∃ outcomes,
        runTasks (fun k => DiskCleaner.DeleteFolderContentsParallel dryRunMode hw (timings k))
          (DiskCleaner.launchTargets fs cleanupItems true) 0 fs = some (outcomes, rep.fs) := by
      have h2 := h
      unfold DiskCleaner.StartParallelCleanup at h2
      by_cases he : (DiskCleaner.launchTargets fs cleanupItems true).isEmpty = true
      · simp only [he, if_true, Option.some.injEq] at h2
        rw [← h2, List.isEmpty_iff.mp he]
        exact ⟨[], rfl⟩
      · simp only [he, Bool.false_eq_true, if_false] at h2
        split at h2
        · cases h2
        · rename_i outcomes fs1 hrun
          split at h2
          · cases h2
          · simp only [Option.some.injEq] at h2
            rw [← h2]
            exact ⟨outcomes, hrun⟩
    obtain ⟨outcomes, hrun⟩ := hcall
    have hframe := runTasks_frame _
      (fun k fs p name r fs1 hc =>
        DiskCleaner_clean_frame dryRunMode hw (timings k) fs fs1 p name r hc)
      _ 0 fs outcomes rep.fs hrun
    have horigin := DiskCleaner_results_origin dryRunMode hw timings cleanupItems fs true
      polls rep outcomes h hrun
    rw [← hl] at hrun hframe horigin
    refine ⟨?_, ⟨outcomes, hrun, hframe.1, horigin⟩, hframe.2.1, hframe.2.2⟩
    rw [hl, heq]
  · intro hnone dryRunMode hw timings polls
    refine ⟨⟨[], [], none, fs⟩, ?_, rfl, rfl, rfl, rfl⟩
    unfold DiskCleaner.StartParallelCleanup
    simp only [heq, hnone, List.isEmpty_nil, if_true]
  · unfold DiskCleaner.launchTargets
    simp only
    split
    · rfl
    · split
      · rfl
      · rfl

/-- C22, instance: of an entry with three files, an entry for an empty
directory, a disabled entry and the Recycle Bin entry, the first and the last
are launched, and the run makes one call for each of the two, in that order.
On the machine where the disabled entry names a directory with a file in it,
the mutating calls of the run are the three removals in `C:\A`. -/
theorem C22_witness :
    DiskCleaner.launchTargets Example.fs
        [Example.itemA, Example.itemB, Example.itemOff, DiskCleaner.recycleBinItem] true
      = [Example.itemA, DiskCleaner.recycleBinItem] ∧
    DiskCleaner.recycleBinItem ∈ DiskCleaner.launchTargets Example.fs
        [Example.itemA, Example.itemB, Example.itemOff, DiskCleaner.recycleBinItem] true ∧
    (∃ rep outcomes, DiskCleaner.StartParallelCleanup false 4 (fun _ => Example.quick)
        [Example.itemA, Example.itemB, Example.itemOff, DiskCleaner.recycleBinItem] Example.fs
        true [⟨[true, true], 0⟩] = some rep ∧
      runTasks (fun _ => DiskCleaner.DeleteFolderContentsParallel false 4 Example.quick)
        [Example.itemA, DiskCleaner.recycleBinItem] 0 Example.fs = some (outcomes, rep.fs) ∧
      outcomes.map (fun r => r.itemName) = ["A", "Recycle Bin"]) ∧
    (DiskCleaner.StartParallelCleanup false 4 (fun _ => Example.quick)
        [Example.itemA, Example.itemOffDir, DiskCleaner.recycleBinItem] Example.fsOff
        true [⟨[true, true], 0⟩]).map
        (fun rep => (rep.launched.map (fun item => item.name),
          rep.results.map (fun r => r.itemName), rep.fs.journal))
      = some (["A", "Recycle Bin"], ["A", "Recycle Bin"],
          [FsOp.remove "C:\\A" "a.tmp", FsOp.remove "C:\\A" "b.tmp",
           FsOp.remove "C:\\A" "c.log"]) := by
  have h := C22_launched_targets_are_the_prefiltered_enabled_items Example.fs
    [Example.itemA, Example.itemB, Example.itemOff, DiskCleaner.recycleBinItem]
  have hsome : (DiskCleaner.StartParallelCleanup false 4 (fun _ => Example.quick)
      [Example.itemA, Example.itemB, Example.itemOff, DiskCleaner.recycleBinItem] Example.fs
      true [⟨[true, true], 0⟩]).isSome = true := by decide
  obtain ⟨rep, hrep⟩ := Option.isSome_iff_exists.mp hsome
  obtain ⟨hl, ⟨outcomes, hrun, hnames, _⟩, _⟩ := h.2.2.1 false 4 (fun _ => Example.quick)
    [⟨[true, true], 0⟩] rep hrep
  have hfilter : [Example.itemA, Example.itemB, Example.itemOff,
      DiskCleaner.recycleBinItem].filter
        (fun item =>
          item.enabled && !DiskCleaner.IsDirectoryEmptyOrInaccessible Example.fs item.path)
      = [Example.itemA, DiskCleaner.recycleBinItem] := by decide
  rw [hl, hfilter] at hrun hnames
  exact ⟨by decide, h.2.1 DiskCleaner.recycleBinItem (by decide) rfl rfl,
    ⟨rep, outcomes, hrep, hrun, hnames⟩, by decide⟩

/-! ## C23: the outcomes the graphical variant sums -/

theorem eraseFirstReady_never (l : List Nat) :
    DiskCleanerGUI.eraseFirstReady (fun _ => false) l = l := by
  induction l with
  | nil => rfl
  | cons t rest ih => simp [DiskCleanerGUI.eraseFirstReady, ih]

theorem launchLoop_never_ready (maxConcurrent : Nat) (tasks : List Nat) :
    ∀ futures, DiskCleanerGUI.launchLoop maxConcurrent (fun _ _ => false) tasks futures
      = futures ++ tasks := by
  induction tasks with
  | nil =>
    intro futures
    simp [DiskCleanerGUI.launchLoop]
  | cons t rest ih =>
    intro futures
    simp only [DiskCleanerGUI.launchLoop, eraseFirstReady_never]
    split
    · rw [ih]
      simp
    · rw [ih]
      simp

/-- C23, the code at the failing input.  One enabled target (the directory of
three files) is launched, and its future is ready when the launch loop scans
`futures`: the future is erased, so `results` is empty and the summary is over
0 outcomes, not over the 1 target launched.  When no future is ready during
the scans the same run sums the outcome of the target. -/
theorem C23_erased_future_is_missing_from_the_summary :
    (DiskCleanerGUI.StartParallelCleanup false true 4 [Example.itemA] Example.fs true
      (fun _ _ => true)).map (fun rep => (rep.launched.length, rep.results.length, rep.summary))
      = some (1, 0, some ⟨0, 0, 0, 0, 0⟩) ∧
    (DiskCleanerGUI.StartParallelCleanup false true 4 [Example.itemA] Example.fs true
      (fun _ _ => false)).map (fun rep => (rep.launched.length, rep.results.length, rep.summary))
      = some (1, 1, some ⟨300, 3, 0, 1, 1⟩) := by
  decide

/-! ## C24: the completed count -/

theorem count_set_true (l : List Bool) :
    ∀ i, i < l.length → ¬ l.getD i false = true →
      (l.set i true).count true = l.count true + 1 := by
  induction l with
  | nil =>
    intro i hi _
    simp at hi
  | cons a rest ih =>
    intro i hi hfalse
    cases i with
    | zero =>
      simp only [List.getD_cons_zero, Bool.not_eq_true] at hfalse
      subst hfalse
      simp
    | succ i =>
      simp only [List.getD_cons_succ] at hfalse
      simp only [List.length_cons, Nat.add_lt_add_iff_right] at hi
      simp only [List.set_cons_succ, List.count_cons, ih i hi hfalse]
      omega

theorem recorded_step_counted (selectedItems : List CleanupItem)
    (taskResults : List CleanupResult) (st : DiskCleaner.MonitorState)
    (order : List (Nat × Bool)) (i : Nat) (b : Bool)
    (hn : selectedItems.length < 2 ^ 31) (hi : i < selectedItems.length)
    (hnot : ¬ st.taskCompleted.getD i false = true)
    (hR : DiskCleaner.Recorded selectedItems taskResults st order)
    (hC : st.completedCount = (st.taskCompleted.count true : Nat)) :
    addInt32 st.completedCount 1 = ((st.taskCompleted.set i true).count true : Nat) := by
  have hR1 := recorded_step selectedItems taskResults st order i b hn hi hnot hR
  have h6 : addInt32 st.completedCount 1 = ((order ++ [(i, b)]).length : Nat) := hR1.2.2.2.2.2
  have h6old : st.completedCount = (order.length : Nat) := hR.2.2.2.2.2
  have hlen : i < st.taskCompleted.length := by
    rw [hR.2.2.1]
    exact hi
  rw [h6, count_set_true _ i hlen hnot]
  simp only [List.length_append, List.length_singleton]
  rw [h6old] at hC
  have : order.length = st.taskCompleted.count true := by exact_mod_cast hC
  rw [this]

theorem pollTask_counted (selectedItems : List CleanupItem) (taskResults : List CleanupResult)
    (taskDoneFlags : List Bool) (st : DiskCleaner.MonitorState) (order : List (Nat × Bool))
    (i : Nat) (hn : selectedItems.length < 2 ^ 31) (hi : i < selectedItems.length)
    (hR : DiskCleaner.Recorded selectedItems taskResults st order)
    (hC : st.completedCount = (st.taskCompleted.count true : Nat)) :
    ∃ order1, DiskCleaner.Recorded selectedItems taskResults
        (DiskCleaner.pollTask taskDoneFlags taskResults st i) order1 ∧
      (DiskCleaner.pollTask taskDoneFlags taskResults st i).completedCount
        = ((DiskCleaner.pollTask taskDoneFlags taskResults st i).taskCompleted.count true : Nat) ∧
      order.length ≤ order1.length := by
  unfold DiskCleaner.pollTask
  split
  · exact ⟨order, hR, hC, Nat.le_refl _⟩
  · rename_i hnot
    split
    · exact ⟨order ++ [(i, false)],
        recorded_step selectedItems taskResults st order i false hn hi hnot hR,
        recorded_step_counted selectedItems taskResults st order i false hn hi hnot hR hC,
        by simp⟩
    · exact ⟨order, hR, hC, Nat.le_refl _⟩

theorem timeoutTask_counted (selectedItems : List CleanupItem)
    (taskResults : List CleanupResult) (st : DiskCleaner.MonitorState)
    (order : List (Nat × Bool)) (i : Nat) (hn : selectedItems.length < 2 ^ 31)
    (hi : i < selectedItems.length)
    (hR : DiskCleaner.Recorded selectedItems taskResults st order)
    (hC : st.completedCount = (st.taskCompleted.count true : Nat)) :
    ∃ order1, DiskCleaner.Recorded selectedItems taskResults
        (DiskCleaner.timeoutTask selectedItems st i) order1 ∧
      (DiskCleaner.timeoutTask selectedItems st i).completedCount
        = ((DiskCleaner.timeoutTask selectedItems st i).taskCompleted.count true : Nat) ∧
      order.length ≤ order1.length := by
  unfold DiskCleaner.timeoutTask
  split
  · rename_i hnot
    have hnot1 : ¬ st.taskCompleted.getD i false = true := by
      simpa using hnot
    exact ⟨order ++ [(i, true)],
      recorded_step selectedItems taskResults st order i true hn hi hnot1 hR,
      recorded_step_counted selectedItems taskResults st order i true hn hi hnot1 hR hC,
      by simp⟩
  · exact ⟨order, hR, hC, Nat.le_refl _⟩

theorem loop_counted (selectedItems : List CleanupItem) (taskResults : List CleanupResult)
    (step : DiskCleaner.MonitorState → Nat → DiskCleaner.MonitorState)
    (hstep : ∀ st order i, i < selectedItems.length →
      DiskCleaner.Recorded selectedItems taskResults st order →
      st.completedCount = (st.taskCompleted.count true : Nat) →
      ∃ order1, DiskCleaner.Recorded selectedItems taskResults (step st i) order1 ∧
        (step st i).completedCount = ((step st i).taskCompleted.count true : Nat) ∧
        order.length ≤ order1.length)
    (l : List Nat) :
    ∀ st order, (∀ i ∈ l, i < selectedItems.length) →
      DiskCleaner.Recorded selectedItems taskResults st order →
      st.completedCount = (st.taskCompleted.count true : Nat) →
      ∃ order1, DiskCleaner.Recorded selectedItems taskResults (l.foldl step st) order1 ∧
        (l.foldl step st).completedCount = ((l.foldl step st).taskCompleted.count true : Nat) ∧
        order.length ≤ order1.length := by
  induction l with
  | nil =>
    intro st order _ hR hC
    exact ⟨order, hR, hC, Nat.le_refl _⟩
  | cons i rest ih =>
    intro st order hl hR hC
    obtain ⟨order1, hR1, hC1, hle1⟩ := hstep st order i (hl i (List.mem_cons_self _ _)) hR hC
    obtain ⟨order2, hR2, hC2, hle2⟩ :=
      ih _ order1 (fun j hj => hl j (List.mem_cons_of_mem _ hj)) hR1 hC1
    exact ⟨order2, hR2, hC2, Nat.le_trans hle1 hle2⟩

theorem monitorIteration_counted (selectedItems : List CleanupItem)
    (taskResults : List CleanupResult) (hn : selectedItems.length < 2 ^ 31)
    (p : DiskCleaner.Poll) (st : DiskCleaner.MonitorState) (order : List (Nat × Bool))
    (hR : DiskCleaner.Recorded selectedItems taskResults st order)
    (hC : st.completedCount = (st.taskCompleted.count true : Nat)) :
    ∃ order1, DiskCleaner.Recorded selectedItems taskResults
        (DiskCleaner.monitorIteration selectedItems taskResults p st).1 order1 ∧
      (DiskCleaner.monitorIteration selectedItems taskResults p st).1.completedCount
        = ((DiskCleaner.monitorIteration selectedItems taskResults p st).1.taskCompleted.count
            true : Nat) ∧
      order.length ≤ order1.length := by
  obtain ⟨order1, hR1, hC1, hle1⟩ := loop_counted selectedItems taskResults
    (DiskCleaner.pollTask p.taskDoneFlags taskResults)
    (fun st order i hi hR hC =>
      pollTask_counted selectedItems taskResults p.taskDoneFlags st order i hn hi hR hC)
    (List.range selectedItems.length) st order (fun i hi => List.mem_range.mp hi) hR hC
  unfold DiskCleaner.monitorIteration
  simp only
  split
  · obtain ⟨order2, hR2, hC2, hle2⟩ := loop_counted selectedItems taskResults
      (DiskCleaner.timeoutTask selectedItems)
      (fun st order i hi hR hC =>
        timeoutTask_counted selectedItems taskResults st order i hn hi hR hC)
      (List.range selectedItems.length) _ order1 (fun i hi => List.mem_range.mp hi) hR1 hC1
    exact ⟨order2, hR2, hC2, Nat.le_trans hle1 hle2⟩
  · exact ⟨order1, hR1, hC1, hle1⟩

theorem monitorTrace_counted (selectedItems : List CleanupItem)
    (taskResults : List CleanupResult) (hn : selectedItems.length < 2 ^ 31)
    (polls : List DiskCleaner.Poll) :
    ∀ st order, DiskCleaner.Recorded selectedItems taskResults st order →
      st.completedCount = (st.taskCompleted.count true : Nat) →
      (∀ st1 ∈ DiskCleaner.monitorTrace selectedItems taskResults polls st,
        st1.completedCount = (st1.results.length : Nat) ∧
        st1.completedCount = (st1.taskCompleted.count true : Nat) ∧
        st1.completedCount ≤ (selectedItems.length : Nat)) ∧
      List.Chain (fun a b => a.completedCount ≤ b.completedCount) st
        (DiskCleaner.monitorTrace selectedItems taskResults polls st) := by
  have hfacts : ∀ (st1 : DiskCleaner.MonitorState) (order1 : List (Nat × Bool)),
      DiskCleaner.Recorded selectedItems taskResults st1 order1 →
      st1.completedCount = (st1.taskCompleted.count true : Nat) →
      st1.completedCount = (st1.results.length : Nat) ∧
      st1.completedCount = (st1.taskCompleted.count true : Nat) ∧
      st1.completedCount ≤ (selectedItems.length : Nat) := by
    intro st1 order1 hR1 hC1
    obtain ⟨h1, h2, _, _, h5, h6⟩ := hR1
    have hlen := nodup_bounded_length _ _ h2 h5
    simp only [List.length_map] at hlen
    refine ⟨?_, hC1, ?_⟩
    · rw [h6, h1, List.length_map]
    · rw [h6]
      exact_mod_cast hlen
  induction polls with
  | nil =>
    intro st order _ _
    simp [DiskCleaner.monitorTrace]
  | cons p rest ih =>
    intro st order hR hC
    obtain ⟨order1, hR1, hC1, hle1⟩ :=
      monitorIteration_counted selectedItems taskResults hn p st order hR hC
    have hmono : st.completedCount
        ≤ (DiskCleaner.monitorIteration selectedItems taskResults p st).1.completedCount := by
      rw [hR.2.2.2.2.2, hR1.2.2.2.2.2]
      exact_mod_cast hle1
    simp only [DiskCleaner.monitorTrace]
    split
    · cases hit : DiskCleaner.monitorIteration selectedItems taskResults p st with
      | mk st1 left =>
        rw [hit] at hR1 hC1 hmono
        simp only at hR1 hC1 hmono
        cases left with
        | true =>
          simp only
          refine ⟨?_, List.Chain.cons hmono List.Chain.nil⟩
          intro st2 hst2
          simp only [List.mem_singleton] at hst2
          subst hst2
          exact hfacts _ order1 hR1 hC1
        | false =>
          simp only
          obtain ⟨ih1, ih2⟩ := ih st1 order1 hR1 hC1
          refine ⟨?_, List.Chain.cons hmono ih2⟩
          intro st2 hst2
          rcases List.mem_cons.mp hst2 with h | h
          · subst h
            exact hfacts _ order1 hR1 hC1
          · exact ih1 st2 h
    · simp

theorem monitorLoop_eq_last_of_trace (selectedItems : List CleanupItem)
    (taskResults : List CleanupResult) (polls : List DiskCleaner.Poll) :
    ∀ st st1, DiskCleaner.monitorLoop selectedItems taskResults polls st = some st1 →
      st1 = (DiskCleaner.monitorTrace selectedItems taskResults polls st).getLastD st := by
  induction polls with
  | nil =>
    intro st st1 h
    simp only [DiskCleaner.monitorLoop] at h
    split at h
    · cases h
    · simp only [Option.some.injEq] at h
      simp [DiskCleaner.monitorTrace, h]
  | cons p rest ih =>
    intro st st1 h
    simp only [DiskCleaner.monitorLoop] at h
    simp only [DiskCleaner.monitorTrace]
    split at h
    · rename_i hc
      simp only [hc, if_true]
      cases hit : DiskCleaner.monitorIteration selectedItems taskResults p st with
      | mk st2 left =>
        rw [hit] at h
        cases left with
        | true =>
          simp only [Option.some.injEq] at h
          simp [h]
        | false =>
          simp only at h ⊢
          rw [List.getLastD_cons]
          exact ih st2 st1 h
    · rename_i hc
      simp only [Option.some.injEq] at h
      subst h
      simp [hc]

/-- C24. In the monitoring loop of `DiskCleaner.cpp` (fewer than 2^31 launched
targets), started with no outcome, count 0 and no task marked: at the end of
every iteration `completedCount` equals `results.size()` and the number of
entries of `taskCompleted` that are set, and is at most the number of launched
targets; from 0 on, along the iterations it never decreases.  The state with
which the loop is left is the state at the end of its last iteration. -/
theorem C24_completed_count_is_monotone_and_consistent (selectedItems : List CleanupItem)
    (taskResults : List CleanupResult) (polls : List DiskCleaner.Poll)
    (hn : selectedItems.length < 2 ^ 31) :
    (∀ st1 ∈ DiskCleaner.monitorTrace selectedItems taskResults polls
        ⟨[], 0, List.replicate selectedItems.length false⟩,
      st1.completedCount = (st1.results.length : Nat) ∧
      st1.completedCount = (st1.taskCompleted.count true : Nat) ∧
      st1.completedCount ≤ (selectedItems.length : Nat)) ∧
    List.Chain (fun a b => a.completedCount ≤ b.completedCount)
      (⟨[], 0, List.replicate selectedItems.length false⟩ : DiskCleaner.MonitorState)
      (DiskCleaner.monitorTrace selectedItems taskResults polls
        ⟨[], 0, List.replicate selectedItems.length false⟩) ∧
    (∀ st1, DiskCleaner.monitorLoop selectedItems taskResults polls
        ⟨[], 0, List.replicate selectedItems.length false⟩ = some st1 →
      st1 = (DiskCleaner.monitorTrace selectedItems taskResults polls
        ⟨[], 0, List.replicate selectedItems.length false⟩).getLastD
          ⟨[], 0, List.replicate selectedItems.length false⟩) := by
  have hzero : List.count true (List.replicate selectedItems.length false) = 0 := by
    rw [List.count_eq_zero]
    intro hmem
    have := List.eq_of_mem_replicate hmem
    cases this
  have h := monitorTrace_counted selectedItems taskResults hn polls
    ⟨[], 0, List.replicate selectedItems.length false⟩ []
    (recorded_initial selectedItems taskResults) (by simp [hzero])
  exact ⟨h.1, h.2, monitorLoop_eq_last_of_trace selectedItems taskResults polls _⟩

/-- C24, instance: two launched tasks, the first seen done at the first pass,
the second timed out at the second pass: the count goes 0, 1, 2. -/
theorem C24_witness :
    (DiskCleaner.monitorTrace [Example.itemA, Example.itemB] [Example.outcomeA, emptyResult]
        [Example.firstDonePoll, Example.latePoll]
        ⟨[], 0, List.replicate [Example.itemA, Example.itemB].length false⟩).map
      (fun st => (st.completedCount, st.results.length, st.taskCompleted))
      = [(1, 1, [true, false]), (2, 2, [true, true])] ∧
    List.Chain (fun a b => a.completedCount ≤ b.completedCount)
      (⟨[], 0, List.replicate [Example.itemA, Example.itemB].length false⟩ :
        DiskCleaner.MonitorState)
      (DiskCleaner.monitorTrace [Example.itemA, Example.itemB] [Example.outcomeA, emptyResult]
        [Example.firstDonePoll, Example.latePoll]
        ⟨[], 0, List.replicate [Example.itemA, Example.itemB].length false⟩) :=
  ⟨by decide,
    (C24_completed_count_is_monotone_and_consistent [Example.itemA, Example.itemB]
      [Example.outcomeA, emptyResult] [Example.firstDonePoll, Example.latePoll]
      (by decide)).2.1⟩

/-! ## C25: the 30-second cap -/

theorem joinLoop_awaits_first (finish : Nat → Nat) (b : Nat) (rest : List Nat) (t : Nat) :
    finish b ≤ joinLoop finish (b :: rest) t := by
  have hmono : ∀ (l : List Nat) (u : Nat), u ≤ joinLoop finish l u := by
    intro l
    induction l with
    | nil =>
      intro u
      exact Nat.le_refl _
    | cons a rest ih =>
      intro u
      simp only [joinLoop]
      split
      · omega
      · have := ih (max u (finish a))
        omega
  simp only [joinLoop]
  split
  · omega
  · have := hmono rest (max t (finish b))
    omega

theorem joinLoop_stops_after_cap (finish : Nat → Nat) (b : Nat) (rest : List Nat) (t : Nat)
    (h : 30 < max t (finish b)) :
    joinLoop finish (b :: rest) t = max t (finish b) := by
  simp only [joinLoop, h, if_true]

/-- C25, the code at the failing input.  The directory of three files is
cleaned by three workers.  When each of them runs for 100 seconds, and also
when only the second one does, the waiting loop is left 100 seconds after it
began, not at the 30-second cap, and the outcome counts the three files the
workers removed: `join()` blocks until the worker has finished and the elapsed
time is looked at only afterwards. -/
theorem C25_slow_batch_is_awaited_past_the_cap :
    joinLoop Example.slow.finish (List.range 3) 0 = 100 ∧
    joinLoop Example.slowSecond.finish (List.range 3) 0 = 100 ∧
    (DiskCleaner.DeleteFolderContentsParallel false 4 Example.slow Example.fs "C:\\A"
      "A").map (fun o => o.1.filesDeleted) = some 3 ∧
    (DiskCleaner.DeleteFolderContentsParallel false 4 Example.slowSecond Example.fs "C:\\A"
      "A").map (fun o => o.1.filesDeleted) = some 3 := by
  decide

/-! ## C26: the result code of the recycle bin -/

/-- C26. For the `RECYCLE_BIN` target cleaned in real mode by `DiskCleaner.cpp`
with a bin measured as non-empty: a failure code (negative `HRESULT`) other
than `0x8000FFFF` gives the outcome with `success = false`, `bytesRemoved = 0`,
`filesDeleted = 0` and the message "Failed to empty Recycle Bin. Error code:
0x" followed by the hexadecimal digits of the code, which is not empty; a
success code gives `success = true` and `bytesRemoved` = the size measured
before the call.  `S_FALSE` cannot occur among the failure codes. -/
theorem C26_recycle_bin_codes (hw : Nat) (timing : BatchTiming) (fs : FileSystem)
    (itemName : String) (hne : GetRecycleBinSize fs ≠ 0) :
    (fs.bin.emptyResult < 0 → fs.bin.emptyResult % 2 ^ 32 ≠ 0x8000ffff →
      DiskCleaner.DeleteFolderContentsParallel false hw timing fs "RECYCLE_BIN" itemName
        = some (⟨itemName, 0, 0, 0, false,
            "Failed to empty Recycle Bin. Error code: 0x" ++ hexOfHResult fs.bin.emptyResult⟩,
          (emptyRecycleBin fs).2) ∧
      "Failed to empty Recycle Bin. Error code: 0x" ++ hexOfHResult fs.bin.emptyResult ≠ "" ∧
      fs.bin.emptyResult ≠ 1) ∧
    (0 ≤ fs.bin.emptyResult →
      DiskCleaner.DeleteFolderContentsParallel false hw timing fs "RECYCLE_BIN" itemName
        = some (⟨itemName, GetRecycleBinSize fs, 1, 0, true, ""⟩, (emptyRecycleBin fs).2)) := by
  constructor
  · intro hneg hcode
    have hn : ¬ (0 ≤ fs.bin.emptyResult) := by omega
    have hcode2 : ¬ (fs.bin.emptyResult % 4294967296 = 2147549183) := by
      norm_num at hcode
      exact hcode
    have h1 : ¬ (fs.bin.emptyResult = 1) := by omega
    refine ⟨?_, ?_, h1⟩
    · unfold DiskCleaner.DeleteFolderContentsParallel
      simp [recycleBin_not_emptyOrInaccessible, hne, emptyRecycleBin, hn, hcode2, h1]
    · intro h
      have hd := congrArg String.data h
      rw [String.data_append] at hd
      have hnil : ("Failed to empty Recycle Bin. Error code: 0x" : String).data = [] :=
        (List.append_eq_nil.mp hd).1
      exact absurd hnil (by decide)
  · intro hok
    exact recycleBin_success_code hw timing fs itemName hne hok

/-- C26, instance: a bin of 4096 bytes and the answer `E_ACCESSDENIED`. -/
theorem C26_witness :
    hexOfHResult (-2147024891) = "80070005" ∧
    DiskCleaner.DeleteFolderContentsParallel false 4 Example.quick Example.fsBinDenied
        "RECYCLE_BIN" "Recycle Bin"
      = some (⟨"Recycle Bin", 0, 0, 0, false,
          "Failed to empty Recycle Bin. Error code: 0x" ++ hexOfHResult (-2147024891)⟩,
        (emptyRecycleBin Example.fsBinDenied).2) :=
  ⟨by decide,
    ((C26_recycle_bin_codes 4 Example.quick Example.fsBinDenied "Recycle Bin" (by decide)).1
      (by decide) (by decide)).1⟩

/-! ## C27: the whole catalog through the file -/

theorem saveLoop_eq_records (items : List CleanupItem) :
    DiskCleaner.saveLoop items
      = (items.filter (fun e => e.isCustom)).flatMap DiskCleaner.recordLine := by
  induction items with
  | nil => rfl
  | cons item rest ih =>
    by_cases hc : item.isCustom = true
    · simp [DiskCleaner.saveLoop, hc, ih]
    · simp [DiskCleaner.saveLoop, hc, ih]

theorem saveLoop_lines (items : List CleanupItem)
    (hclean : ∀ e ∈ items, e.isCustom = true → '\n' ∉ DiskCleaner.recordBody e) :
    DiskCleaner.linesAux (DiskCleaner.saveLoop items) []
      = (items.filter (fun e => e.isCustom)).map DiskCleaner.recordBody := by
  induction items with
  | nil => simp [DiskCleaner.saveLoop, DiskCleaner.linesAux]
  | cons item rest ih =>
    have ihr := ih (fun e he hc => hclean e (List.mem_cons_of_mem _ he) hc)
    by_cases hc : item.isCustom = true
    · have hcl := hclean item (List.mem_cons_self _ _) hc
      simp only [DiskCleaner.saveLoop, hc, if_true, recordLine_eq_body, List.append_assoc,
        List.singleton_append, List.filter_cons_of_pos, List.map_cons]
      rw [linesAux_append_newline, linesAux_clean _ _ hcl, ihr]
      simp
    · simp only [DiskCleaner.saveLoop, hc, Bool.false_eq_true, if_false]
      rw [ihr]
      simp [hc]

theorem loadLoop_records (fs : FileSystem) (customs : List CleanupItem)
    (hfields : ∀ e ∈ customs,
      '|' ∉ e.name.data ∧ '|' ∉ e.path.data ∧ '|' ∉ e.description.data)
    (hexists : ∀ e ∈ customs, fsExists fs e.path = some true) :
    ∀ base, DiskCleaner.loadLoop fs (customs.map DiskCleaner.recordBody) base
      = some (base ++ customs.map
          (fun e => ⟨e.name, e.path, e.description, e.enabled, false, true, 0⟩)) := by
  induction customs with
  | nil =>
    intro base
    simp [DiskCleaner.loadLoop]
  | cons e rest ih =>
    intro base
    obtain ⟨hn, hp, hd⟩ := hfields e (List.mem_cons_self _ _)
    have hex := hexists e (List.mem_cons_self _ _)
    have hparse := parseRecord_recordBody e hn hp hd
    have hflag : ((if e.enabled = true then "1" else "0") == "1") = e.enabled := by
      cases e.enabled <;> decide
    have hline : DiskCleaner.loadLine fs base (DiskCleaner.recordBody e)
        = some (base ++ [⟨e.name, e.path, e.description, e.enabled, false, true, 0⟩]) := by
      unfold DiskCleaner.loadLine
      rw [hparse]
      simp only [hex, hflag]
    simp only [List.map_cons, DiskCleaner.loadLoop, hline]
    rw [ih (fun x hx => hfields x (List.mem_cons_of_mem _ hx))
      (fun x hx => hexists x (List.mem_cons_of_mem _ hx))]
    simp

/-- C27. For every catalog whose custom entries have no `'|'` and no line break
in name, path and description and have paths that exist, and with
`custom_dirs.txt` writable: the text that `SaveCustomDirectories` writes is the
records of the custom entries only, in catalog order, and
`LoadCustomDirectories` on an empty catalog reads back exactly the custom
entries, in the same order, each with the same name, path, description and
enabled flag and with `requiresAdmin = false`, `isCustom = true`, `size = 0`. -/
theorem C27_catalog_round_trip (fs : FileSystem) (cleanupItems : List CleanupItem)
    (hwritable : fs.customDirsWritable = true)
    (hclean : ∀ e ∈ cleanupItems, e.isCustom = true →
      ('|' ∉ e.name.data ∧ '\n' ∉ e.name.data) ∧
      ('|' ∉ e.path.data ∧ '\n' ∉ e.path.data) ∧
      ('|' ∉ e.description.data ∧ '\n' ∉ e.description.data))
    (hexists : ∀ e ∈ cleanupItems, e.isCustom = true → fsExists fs e.path = some true) :
    (DiskCleaner.SaveCustomDirectories fs cleanupItems).customDirs
      = some ((cleanupItems.filter (fun e => e.isCustom)).flatMap DiskCleaner.recordLine) ∧
    DiskCleaner.LoadCustomDirectories (DiskCleaner.SaveCustomDirectories fs cleanupItems) []
      = some ((cleanupItems.filter (fun e => e.isCustom)).map
          (fun e => ⟨e.name, e.path, e.description, e.enabled, false, true, 0⟩)) := by
  have hbody : ∀ e ∈ cleanupItems, e.isCustom = true → '\n' ∉ DiskCleaner.recordBody e := by
    intro e he hc
    obtain ⟨h1, h2, h3⟩ := hclean e he hc
    unfold DiskCleaner.recordBody
    cases e.enabled <;> simp [h1.2, h2.2, h3.2]
  have hlines := saveLoop_lines cleanupItems hbody
  have hload := loadLoop_records (DiskCleaner.SaveCustomDirectories fs cleanupItems)
    (cleanupItems.filter (fun e => e.isCustom))
    (fun e he => by
      obtain ⟨hin, hc⟩ := List.mem_filter.mp he
      obtain ⟨h1, h2, h3⟩ := hclean e hin hc
      exact ⟨h1.1, h2.1, h3.1⟩)
    (fun e he => by
      obtain ⟨hin, hc⟩ := List.mem_filter.mp he
      exact hexists e hin hc)
    []
  constructor
  · simp only [DiskCleaner.SaveCustomDirectories, hwritable, if_true]
    rw [saveLoop_eq_records]
  · simp only [DiskCleaner.LoadCustomDirectories, DiskCleaner.SaveCustomDirectories, hwritable,
      if_true]
    rw [hlines]
    simpa [DiskCleaner.SaveCustomDirectories, hwritable] using hload

/-- C27, instance: a catalog with a built-in entry and the custom entries `A`
and `B`. -/
theorem C27_witness :
    DiskCleaner.LoadCustomDirectories
        (DiskCleaner.SaveCustomDirectories Example.fs
          [Example.itemOff, Example.itemA, Example.itemB]) []
      = some (([Example.itemOff, Example.itemA, Example.itemB].filter (fun e => e.isCustom)).map
          (fun e => ⟨e.name, e.path, e.description, e.enabled, false, true, 0⟩)) ∧
    ([Example.itemOff, Example.itemA, Example.itemB].filter (fun e => e.isCustom)).map
        (fun e => (⟨e.name, e.path, e.description, e.enabled, false, true, 0⟩ : CleanupItem))
      = [Example.itemA, Example.itemB] :=
  ⟨(C27_catalog_round_trip Example.fs [Example.itemOff, Example.itemA, Example.itemB] rfl
      (by decide) (by decide)).2,
    by decide⟩

/-! ## C28: the two batch loops -/

theorem batchRanges_length (s n : Nat) (hs : 1 ≤ s) :
    (batchRanges s n n 0).length = (n + s - 1) / s := by
  have h := batchRanges_eq s n hs n 0 (by omega)
  rw [h]
  simp

/-- C29. For `n` children and a hardware concurrency `hw` with
`0 < hw < 2^31`, so that `maxThreads` is `T = 2 * hw >= 1`, the launch loop of
`DiskCleaner.cpp` with `batchSize = max(1, n / T)` starts
`ceil(n / batchSize)` workers: `n` of them when `n < T`, and between `T` and
`2 * T - 1` when `n >= T`; in every case fewer than `2 * T`. -/
theorem C29_number_of_batches (n hw : Nat) (hw0 : 0 < hw) (hw1 : hw < 2 ^ 31) :
    (hw * 2) % 2 ^ 32 = 2 * hw ∧
    (batchRanges (max 1 (n / ((hw * 2) % 2 ^ 32))) n n 0).length
      = (n + max 1 (n / (2 * hw)) - 1) / max 1 (n / (2 * hw)) ∧
    (n < 2 * hw →
      (batchRanges (max 1 (n / ((hw * 2) % 2 ^ 32))) n n 0).length = n) ∧
    (2 * hw ≤ n →
      2 * hw ≤ (batchRanges (max 1 (n / ((hw * 2) % 2 ^ 32))) n n 0).length ∧
      (batchRanges (max 1 (n / ((hw * 2) % 2 ^ 32))) n n 0).length ≤ 2 * (2 * hw) - 1) ∧
    (batchRanges (max 1 (n / ((hw * 2) % 2 ^ 32))) n n 0).length < 2 * (2 * hw) := by
  have hT : (hw * 2) % 2 ^ 32 = 2 * hw := by omega
  rw [hT]
  obtain ⟨T, hTdef⟩ : ∃ T, T = 2 * hw := ⟨_, rfl⟩
  rw [← hTdef]
  have hTpos : 0 < T := by omega
  have hlen := batchRanges_length (max 1 (n / T)) n (Nat.le_max_left _ _)
  have hsmall : n < T → (batchRanges (max 1 (n / T)) n n 0).length = n := by
    intro h
    rw [hlen, Nat.div_eq_of_lt h]
    simp
  have hlarge : T ≤ n → T ≤ (batchRanges (max 1 (n / T)) n n 0).length ∧
      (batchRanges (max 1 (n / T)) n n 0).length ≤ 2 * T - 1 := by
    intro h
    have hq : 1 ≤ n / T := (Nat.le_div_iff_mul_le hTpos).mpr (by omega)
    have hs : max 1 (n / T) = n / T := Nat.max_eq_right hq
    rw [hlen, hs]
    obtain ⟨s, hsdef⟩ : ∃ s, s = n / T := ⟨_, rfl⟩
    rw [← hsdef] at hq ⊢
    have hspos : 0 < s := by omega
    have hlo : T * s ≤ n := by
      rw [hsdef]
      exact Nat.mul_div_le n T
    have hhi : n < T * s + T := by
      have := Nat.lt_mul_div_succ n hTpos
      rw [Nat.mul_add, Nat.mul_one, ← hsdef] at this
      exact this
    have hprod : T ≤ T * s := Nat.le_mul_of_pos_right T hspos
    have hprod2 : s ≤ T * s := Nat.le_mul_of_pos_left s hTpos
    constructor
    · exact (Nat.le_div_iff_mul_le hspos).mpr (by omega)
    · have hlt : (n + s - 1) / s < 2 * T := by
        apply (Nat.div_lt_iff_lt_mul hspos).mpr
        have hTs : T + s ≤ T * s + 1 := by
          obtain ⟨a, rfl⟩ : ∃ a, T = a + 1 := ⟨T - 1, by omega⟩
          have : a ≤ a * s := Nat.le_mul_of_pos_right a hspos
          rw [Nat.add_mul, Nat.one_mul]
          omega
        have e : 2 * T * s = T * s + T * s := by
          rw [Nat.mul_assoc, Nat.two_mul]
        rw [e]
        omega
      omega
  refine ⟨rfl, hlen, hsmall, hlarge, ?_⟩
  by_cases h : n < T
  · rw [hsmall h]
    omega
  · have := (hlarge (by omega)).2
    omega

/-- C29, instance: 20 children and a hardware concurrency of 4 (`T = 8`,
batches of 2) give 10 workers. -/
theorem C29_witness :
    (batchRanges (max 1 (20 / ((4 * 2) % 2 ^ 32))) 20 20 0).length = 10 ∧
    (2 * 4 ≤ 20 →
      2 * 4 ≤ (batchRanges (max 1 (20 / ((4 * 2) % 2 ^ 32))) 20 20 0).length ∧
      (batchRanges (max 1 (20 / ((4 * 2) % 2 ^ 32))) 20 20 0).length ≤ 2 * (2 * 4) - 1) :=
  ⟨by decide, (C29_number_of_batches 20 4 (by decide) (by decide)).2.2.2.1⟩

/-! ## C30: the text printed by `FormatBytes` -/

theorem toDouble_of_lt (b : Nat) (h : b < 2 ^ 53) : toDouble b = b := by
  unfold toDouble
  rw [if_pos h]

theorem excessBits_of_lt (fuel x : Nat) (h : x < 2 ^ 53) : excessBits fuel x = 0 := by
  cases fuel with
  | zero => rfl
  | succ fuel =>
    unfold excessBits
    rw [if_pos h]

theorem excessBits_quotient (fuel : Nat) :
    ∀ x, x < 2 ^ (53 + fuel) →
      x / 2 ^ excessBits fuel x < 2 ^ 53 ∧
      (2 ^ 53 ≤ x → 2 ^ 52 ≤ x / 2 ^ excessBits fuel x) := by
  induction fuel with
  | zero =>
    intro x hx
    simp only [excessBits, Nat.pow_zero, Nat.div_one, Nat.add_zero] at hx ⊢
    exact ⟨hx, fun h => by omega⟩
  | succ fuel ih =>
    intro x hx
    by_cases hlt : x < 2 ^ 53
    · rw [excessBits_of_lt (fuel + 1) x hlt, Nat.pow_zero, Nat.div_one]
      exact ⟨hlt, fun h => by omega⟩
    · have hhalf : x / 2 < 2 ^ (53 + fuel) := by
        apply Nat.div_lt_of_lt_mul
        have e : 2 ^ (53 + (fuel + 1)) = 2 * 2 ^ (53 + fuel) := by
          rw [← Nat.add_assoc, Nat.pow_succ, Nat.mul_comm]
        rw [← e]
        exact hx
      obtain ⟨ih1, ih2⟩ := ih (x / 2) hhalf
      have hdiv : x / 2 ^ (excessBits fuel (x / 2) + 1) = x / 2 / 2 ^ excessBits fuel (x / 2) := by
        rw [Nat.pow_succ, Nat.mul_comm, Nat.div_div_eq_div_mul]
      simp only [excessBits, hlt, if_false]
      rw [hdiv]
      refine ⟨ih1, fun _ => ?_⟩
      by_cases hbig : 2 ^ 53 ≤ x / 2
      · exact ih2 hbig
      · rw [excessBits_of_lt fuel (x / 2) (by omega)]
        simp only [Nat.pow_zero, Nat.div_one]
        omega

theorem toDouble_quotient (b : Nat) (hb : b < 2 ^ 64) (h : 2 ^ 53 ≤ b) :
    2 ^ 52 ≤ b / 2 ^ excessBits 11 b ∧ b / 2 ^ excessBits 11 b < 2 ^ 53 := by
  have := excessBits_quotient 11 b (by norm_num at hb ⊢; omega)
  exact ⟨this.2 h, this.1⟩

theorem toDouble_cases (b : Nat) (h : 2 ^ 53 ≤ b) :
    toDouble b = b / 2 ^ excessBits 11 b * 2 ^ excessBits 11 b ∨
    toDouble b = (b / 2 ^ excessBits 11 b + 1) * 2 ^ excessBits 11 b := by
  have hnot : ¬ b < 2 ^ 53 := by omega
  unfold toDouble
  simp only [hnot, if_false]
  split
  · exact Or.inl rfl
  · split
    · exact Or.inr rfl
    · split
      · exact Or.inl rfl
      · exact Or.inr rfl

theorem toDouble_mantissa (b : Nat) (hb : b < 2 ^ 64) :
    ∃ m e, toDouble b = m * 2 ^ e ∧ m ≤ 2 ^ 53 := by
  by_cases h : b < 2 ^ 53
  · exact ⟨b, 0, by simp [toDouble_of_lt b h], by omega⟩
  · have hq := toDouble_quotient b hb (by omega)
    rcases toDouble_cases b (by omega) with hc | hc
    · exact ⟨_, _, hc, by omega⟩
    · exact ⟨_, _, hc, by omega⟩

theorem toDouble_large (b : Nat) (hb : b < 2 ^ 64) (h : 2 ^ 53 ≤ b) : 2 ^ 52 ≤ toDouble b := by
  have hq := toDouble_quotient b hb h
  have hpos : 1 ≤ 2 ^ excessBits 11 b := Nat.pow_pos (by norm_num)
  have hmul : b / 2 ^ excessBits 11 b
      ≤ b / 2 ^ excessBits 11 b * 2 ^ excessBits 11 b := Nat.le_mul_of_pos_right _ hpos
  have hmul2 : b / 2 ^ excessBits 11 b * 2 ^ excessBits 11 b
      ≤ (b / 2 ^ excessBits 11 b + 1) * 2 ^ excessBits 11 b :=
    Nat.mul_le_mul_right _ (Nat.le_succ _)
  rcases toDouble_cases b h with hc | hc
  · rw [hc]
    omega
  · rw [hc]
    omega

theorem formatLoop_condition (d k : Nat) :
    (1024 : ℚ) ≤ (d : ℚ) / 1024 ^ k ↔ 1024 ^ (k + 1) ≤ d := by
  rw [le_div_iff₀ (by positivity)]
  have e : (1024 : ℚ) * 1024 ^ k = ((1024 ^ (k + 1) : Nat) : ℚ) := by
    push_cast
    ring
  rw [e]
  exact Nat.cast_le

theorem formatLoop_spec (d : Nat) (fuel : Nat) :
    ∀ k, k + fuel = 4 → (k = 0 ∨ 1024 ^ k ≤ d) →
      ∃ u, formatLoop fuel ((d : ℚ) / 1024 ^ k) k = ((d : ℚ) / 1024 ^ u, u) ∧ u ≤ 4 ∧
        (u = 0 ∨ 1024 ^ u ≤ d) ∧ (u < 4 → d < 1024 ^ (u + 1)) := by
  induction fuel with
  | zero =>
    intro k hk hlo
    have h4 : k = 4 := by omega
    subst h4
    exact ⟨4, rfl, Nat.le_refl _, hlo, fun h => absurd h (by omega)⟩
  | succ fuel ih =>
    intro k hk hlo
    have hk4 : k < 4 := by omega
    by_cases hc : 1024 ^ (k + 1) ≤ d
    · have hcq := (formatLoop_condition d k).mpr hc
      have hdiv : (d : ℚ) / 1024 ^ k / 1024 = (d : ℚ) / 1024 ^ (k + 1) := by
        rw [div_div, pow_succ]
      simp only [formatLoop, hcq, hk4, and_self, if_true, hdiv]
      exact ih (k + 1) (by omega) (Or.inr hc)
    · have hcq : ¬ ((1024 : ℚ) ≤ (d : ℚ) / 1024 ^ k) := fun h =>
        hc ((formatLoop_condition d k).mp h)
      simp only [formatLoop, hcq, false_and, if_false]
      exact ⟨k, rfl, by omega, hlo, fun _ => by omega⟩

theorem specUnit_unique (d u : Nat) (h4 : u ≤ 4) (hlo : u = 0 ∨ 1024 ^ u ≤ d)
    (hhi : u < 4 → d < 1024 ^ (u + 1)) : u = specUnit d := by
  unfold specUnit
  interval_cases u <;> norm_num at hlo hhi ⊢ <;> split_ifs <;> omega

theorem formatLoop_unit (d : Nat) :
    formatLoop 4 (d : ℚ) 0 = ((d : ℚ) / 1024 ^ specUnit d, specUnit d) := by
  obtain ⟨u, hu, h4, hlo, hhi⟩ := formatLoop_spec d 4 0 rfl (Or.inl rfl)
  have hu0 : formatLoop 4 (d : ℚ) 0 = ((d : ℚ) / 1024 ^ u, u) := by
    simpa using hu
  rw [hu0, specUnit_unique d u h4 hlo hhi]

theorem specUnit_bounds (b : Nat) :
    specUnit b ≤ 4 ∧ (1 ≤ b → 1024 ^ specUnit b ≤ b) ∧
    (specUnit b < 4 → b < 1024 ^ (specUnit b + 1)) := by
  unfold specUnit
  split_ifs <;> norm_num <;> omega

theorem specUnit_toDouble (b : Nat) (hb : b < 2 ^ 64) :
    specUnit (toDouble b) = specUnit b := by
  by_cases h : b < 2 ^ 53
  · rw [toDouble_of_lt b h]
  · have h1 := toDouble_large b hb (by omega)
    have e1 : specUnit (toDouble b) = 4 := by
      unfold specUnit
      rw [if_pos (by norm_num at h1 ⊢; omega)]
    have e2 : specUnit b = 4 := by
      unfold specUnit
      rw [if_pos (by norm_num at h ⊢; omega)]
    rw [e1, e2]

theorem roundHundredths_near (tiesAway : Bool) (size : ℚ) (h0 : 0 ≤ size) :
    ((roundHundredths tiesAway size : Nat) : ℚ) - size * 100 ≤ 1 / 2 ∧
    size * 100 - ((roundHundredths tiesAway size : Nat) : ℚ) ≤ 1 / 2 := by
  have hs : (0 : ℚ) ≤ size * 100 := by positivity
  have hf0 : 0 ≤ ⌊size * 100⌋ := Int.floor_nonneg.mpr hs
  have hcast : ((⌊size * 100⌋.toNat : Nat) : ℚ) = ((⌊size * 100⌋ : Int) : ℚ) := by
    have h := Int.toNat_of_nonneg hf0
    exact_mod_cast congrArg (fun z : Int => (z : ℚ)) h
  have hle : ((⌊size * 100⌋ : Int) : ℚ) ≤ size * 100 := Int.floor_le _
  have hlt : size * 100 < ((⌊size * 100⌋ : Int) : ℚ) + 1 := Int.lt_floor_add_one _
  unfold roundHundredths
  simp only
  split
  · rename_i h
    rw [hcast] at h ⊢
    constructor <;> linarith
  · rename_i h
    split
    · rename_i h2
      rw [hcast] at h2
      push_cast
      rw [hcast]
      constructor <;> linarith
    · rename_i h2
      rw [hcast] at h h2
      have he : size * 100 - ((⌊size * 100⌋ : Int) : ℚ) = 1 / 2 := by
        apply le_antisymm
        · exact not_lt.mp h2
        · exact not_lt.mp h
      split
      · push_cast
        rw [hcast]
        constructor <;> linarith
      · rw [hcast]
        constructor <;> linarith

theorem roundHundredths_bounds (tiesAway : Bool) (size : ℚ) (lo hi : Nat)
    (hlo : (lo : ℚ) ≤ size * 100) (hhi : size * 100 < hi) :
    lo ≤ roundHundredths tiesAway size ∧ roundHundredths tiesAway size ≤ hi := by
  have h0 : 0 ≤ size := by
    have : (0 : ℚ) ≤ lo := Nat.cast_nonneg lo
    nlinarith
  obtain ⟨h1, h2⟩ := roundHundredths_near tiesAway size h0
  constructor
  · have h : (lo : ℚ) < (roundHundredths tiesAway size : Nat) + 1 := by linarith
    have h3 : ((lo : Nat) : ℚ) < ((roundHundredths tiesAway size + 1 : Nat) : ℚ) := by
      push_cast
      exact h
    have := Nat.cast_lt.mp h3
    omega
  · have h : ((roundHundredths tiesAway size : Nat) : ℚ) < (hi : ℚ) + 1 := by linarith
    have h3 : ((roundHundredths tiesAway size : Nat) : ℚ) < ((hi + 1 : Nat) : ℚ) := by
      push_cast
      exact h
    have := Nat.cast_lt.mp h3
    omega

theorem renderFixed2_102400 : renderFixed2 102400 = "1024.00" := by decide
theorem renderFixed2_0 : renderFixed2 0 = "0.00" := by decide

theorem roundHundredths_eq (tiesAway : Bool) (size : ℚ) (n : Nat) (h0 : 0 ≤ size)
    (h1 : (n : ℚ) - 1 / 2 < size * 100) (h2 : size * 100 < (n : ℚ) + 1 / 2) :
    roundHundredths tiesAway size = n := by
  obtain ⟨k1, k2⟩ := roundHundredths_near tiesAway size h0
  have ha : ((roundHundredths tiesAway size : Nat) : ℚ) < ((n + 1 : Nat) : ℚ) := by
    push_cast
    linarith
  have hb : ((n : Nat) : ℚ) < ((roundHundredths tiesAway size + 1 : Nat) : ℚ) := by
    push_cast
    linarith
  have ha2 := Nat.cast_lt.mp ha
  have hb2 := Nat.cast_lt.mp hb
  omega

theorem FormatBytes_eq (tiesAway : Bool) (b : Nat) (hb : b < 2 ^ 64) :
    FormatBytes tiesAway b
      = renderFixed2 (roundHundredths tiesAway ((toDouble b : ℚ) / 1024 ^ specUnit b))
        ++ " " ++ units.getD (specUnit b) "" := by
  have hmod : b % 2 ^ 64 = b := Nat.mod_eq_of_lt hb
  have hloop := formatLoop_unit (toDouble b)
  rw [specUnit_toDouble b hb] at hloop
  simp only [FormatBytes, hmod, hloop]

/-- C30, the claim at a concrete input.  One byte less than a mebibyte is
printed in KB, and the value handed to the stream, `1048575 / 1024`, is below
1024; the text printed for it with two decimals is `1024.00`, whichever way the
runtime rounds a tie. -/
theorem C30_counterexample :
    FormatBytes false 1048575 = "1024.00 KB" ∧ FormatBytes true 1048575 = "1024.00 KB" ∧
    (formatLoop 4 (toDouble (1048575 % 2 ^ 64)) 0).1 < 1024 := by
  have hu : specUnit 1048575 = 1 := by decide
  have hd : toDouble 1048575 = 1048575 := toDouble_of_lt _ (by norm_num)
  have hr : ∀ t, roundHundredths t ((1048575 : ℚ) / 1024 ^ 1) = 102400 := fun t =>
    roundHundredths_eq t _ 102400 (by norm_num) (by norm_num) (by norm_num)
  have hloop := formatLoop_unit 1048575
  have htext : ∀ t, FormatBytes t 1048575 = "1024.00 KB" := by
    intro t
    rw [FormatBytes_eq t 1048575 (by norm_num), hu, hd]
    push_cast
    rw [hr t]
    decide
  refine ⟨htext false, htext true, ?_⟩
  rw [Nat.mod_eq_of_lt (by norm_num), hd, hloop, hu]
  norm_num

/-- C30 (amended). For every 64-bit byte count `b` and either way of rounding
a tie, `FormatBytes` (the same in both files) prints the unit `units[k]` with
`k = specUnit b`, the largest `k` in `0..4` with `1024^k <= b` (`k = 0` for
`b = 0`), so never a unit past TB, and before it the value `double(b) / 1024^k`
rounded to two decimals.  Below `2^53`, hence for every `b < 1024^5`, the
double of `b` is `b` itself; the value `b / 1024^k` lies in `[1, 1024)` for
`1 <= b < 1024^5`.  The number of hundredths printed is within one half of
`100 * value`, so the number printed lies between 1.00 and 1024.00 inclusive
for `1 <= b < 1024^5`, and the text is `0.00 B` for `b = 0`.  Rounding `b` to a
double never changes the unit: the loop run on the exact value of `b` chooses
the same one. -/
theorem C30_format_bytes_prints_rounded_value (tiesAway : Bool) (b : Nat) (hb : b < 2 ^ 64) :
    FormatBytes tiesAway b
      = renderFixed2 (roundHundredths tiesAway ((toDouble b : ℚ) / 1024 ^ specUnit b))
        ++ " " ++ units.getD (specUnit b) "" ∧
    (specUnit b ≤ 4 ∧ (1 ≤ b → 1024 ^ specUnit b ≤ b) ∧
      (specUnit b < 4 → b < 1024 ^ (specUnit b + 1))) ∧
    (b < 2 ^ 53 → toDouble b = b) ∧
    (1 ≤ b → b < 1024 ^ 5 →
      1 ≤ (b : ℚ) / 1024 ^ specUnit b ∧ (b : ℚ) / 1024 ^ specUnit b < 1024) ∧
    (((roundHundredths tiesAway ((toDouble b : ℚ) / 1024 ^ specUnit b) : Nat) : ℚ)
        - (toDouble b : ℚ) / 1024 ^ specUnit b * 100 ≤ 1 / 2 ∧
      (toDouble b : ℚ) / 1024 ^ specUnit b * 100
        - ((roundHundredths tiesAway ((toDouble b : ℚ) / 1024 ^ specUnit b) : Nat) : ℚ)
        ≤ 1 / 2) ∧
    (1 ≤ b → b < 1024 ^ 5 →
      100 ≤ roundHundredths tiesAway ((toDouble b : ℚ) / 1024 ^ specUnit b) ∧
      roundHundredths tiesAway ((toDouble b : ℚ) / 1024 ^ specUnit b) ≤ 102400) ∧
    (b = 0 → FormatBytes tiesAway b = "0.00 B") ∧
    (formatLoop 4 (toDouble b : ℚ) 0).2 = (formatLoop 4 (b : ℚ) 0).2 := by
  have hmod : b % 2 ^ 64 = b := Nat.mod_eq_of_lt hb
  have hloop := formatLoop_unit (toDouble b)
  rw [specUnit_toDouble b hb] at hloop
  have htext : FormatBytes tiesAway b
      = renderFixed2 (roundHundredths tiesAway ((toDouble b : ℚ) / 1024 ^ specUnit b))
        ++ " " ++ units.getD (specUnit b) "" := by
    simp only [FormatBytes, hmod, hloop]
  have hbounds := specUnit_bounds b
  have hpos : (0 : ℚ) < 1024 ^ specUnit b := by positivity
  have hv0 : (0 : ℚ) ≤ (toDouble b : ℚ) / 1024 ^ specUnit b :=
    div_nonneg (Nat.cast_nonneg _) (le_of_lt hpos)
  have hrange : 1 ≤ b → b < 1024 ^ 5 →
      1 ≤ (b : ℚ) / 1024 ^ specUnit b ∧ (b : ℚ) / 1024 ^ specUnit b < 1024 := by
    intro h1 h5
    constructor
    · rw [le_div_iff₀ hpos, one_mul]
      exact_mod_cast hbounds.2.1 h1
    · rw [div_lt_iff₀ hpos]
      have hlt : b < 1024 ^ (specUnit b + 1) := by
        by_cases h4 : specUnit b < 4
        · exact hbounds.2.2 h4
        · have e : specUnit b = 4 := by omega
          rw [e]
          exact h5
      have hcast : (b : ℚ) < ((1024 ^ (specUnit b + 1) : Nat) : ℚ) := by exact_mod_cast hlt
      rw [pow_succ] at hcast
      push_cast at hcast
      linarith
  refine ⟨htext, hbounds, toDouble_of_lt b, hrange,
    roundHundredths_near tiesAway _ hv0, ?_, ?_, ?_⟩
  · intro h1 h5
    obtain ⟨r1, r2⟩ := hrange h1 h5
    rw [toDouble_of_lt b (by norm_num at h5 ⊢; omega)]
    exact roundHundredths_bounds tiesAway _ 100 102400 (by push_cast; linarith)
      (by push_cast; linarith)
  · intro h0
    subst h0
    have hu : specUnit 0 = 0 := by decide
    have hd : toDouble 0 = 0 := toDouble_of_lt _ (by norm_num)
    have hr : roundHundredths tiesAway ((0 : ℚ) / 1024 ^ 0) = 0 :=
      roundHundredths_eq tiesAway _ 0 (by norm_num) (by norm_num) (by norm_num)
    rw [htext, hu, hd]
    push_cast
    rw [hr]
    decide
  · rw [hloop, formatLoop_unit b]

/-- C30, instance: one and a half kibibytes are printed as `1.50 KB`, and the
largest 64-bit count, which its double rounds up to `2^64`, is printed in
TB. -/
theorem C30_witness :
    FormatBytes false 1536 = "1.50 KB" ∧
    toDouble (2 ^ 64 - 1) = 2 ^ 64 ∧
    FormatBytes false (2 ^ 64 - 1) = "16777216.00 TB" := by
  have h := C30_format_bytes_prints_rounded_value false 1536 (by norm_num)
  have h2 := C30_format_bytes_prints_rounded_value false (2 ^ 64 - 1) (by norm_num)
  have hu : specUnit 1536 = 1 := by decide
  have hu2 : specUnit (2 ^ 64 - 1) = 4 := by decide
  have hd : toDouble 1536 = 1536 := toDouble_of_lt _ (by norm_num)
  have hd2 : toDouble (2 ^ 64 - 1) = 2 ^ 64 := by decide
  have hr : roundHundredths false ((1536 : ℚ) / 1024 ^ 1) = 150 :=
    roundHundredths_eq false _ 150 (by norm_num) (by norm_num) (by norm_num)
  have hr2 : roundHundredths false ((18446744073709551616 : ℚ) / 1024 ^ 4) = 1677721600 :=
    roundHundredths_eq false _ 1677721600 (by norm_num) (by norm_num) (by norm_num)
  refine ⟨?_, hd2, ?_⟩
  · rw [h.1, hu, hd]
    push_cast
    rw [hr]
    decide
  · rw [h2.1, hu2, hd2]
    push_cast
    rw [hr2]
    decide
